import Mathlib

/-!
# pace: a verification development

A shallow embedding of `pace.cpp` (a pace / time / distance calculator for runners) and
theorems about it.

## Conventions of the embedding

* `std::string` is `String`; a Lean `Char` stands for one C++ `char`.
* `float` is IEEE-754 binary32 and `double` is binary64, both with round-to-nearest,
  ties-to-even, and every operation is rounded to the format of its C++ type (no excess
  precision), as on x86-64 and AArch64.  A value of either type is an `FP`: a rational
  number, negative zero, an infinity or a NaN.  The `Fmt` argument of an operation says to
  which format the exact result is rounded.
* `int(x)` for a `float` `x` is the x86-64 conversion `cvttss2si`: truncation toward zero,
  and `-2^31` when the truncated value does not fit an `int` or `x` is an infinity or a NaN.
* `cout` is the `String` of everything written to it.
* A run of a function that returns `int` is an `Except Fault (String × Int)`: either the
  text written to standard output together with the returned value, or the fault that
  ended the run before it returned (an exception nobody catches, or indexing an empty
  `std::string`).
* `std::stof` is modelled after its documentation (`strtof` in the "C" locale): see `stof`.
-/

namespace Pace

/-! ## IEEE-754 values and rounding -/

/-- A binary floating-point format: precision in bits, smallest and largest normal exponent. -/
structure Fmt where
  prec : Nat
  emin : Int
  emax : Int
deriving DecidableEq

/-- The format of `float`. -/
def binary32 : Fmt := ⟨24, -126, 127⟩

/-- The format of `double`. -/
def binary64 : Fmt := ⟨53, -1022, 1023⟩

/-- A floating-point datum: a finite number (`fin 0` is `+0.0`), `-0.0`, `±inf`, or a NaN
with its sign bit. -/
inductive FP where
  | fin (q : ℚ)
  | nzero
  | inf (neg : Bool)
  | nan (neg : Bool)
deriving DecidableEq

/-- The numeric value of a finite datum (0 for the others). -/
def FP.val : FP → ℚ
  | .fin q => q
  | _ => 0

/-- The sign bit. -/
def FP.sgn : FP → Bool
  | .fin q => decide (q < 0)
  | .nzero => true
  | .inf n => n
  | .nan n => n

def FP.isNaN : FP → Bool
  | .nan _ => true
  | _ => false

def FP.isInf : FP → Bool
  | .inf _ => true
  | _ => false

/-- Is the datum `+0.0` or `-0.0`? -/
def FP.isZero : FP → Bool
  | .fin q => decide (q = 0)
  | .nzero => true
  | _ => false

/-- The power `2 ^ z` as a rational, for an integer `z`. -/
def pow2 (z : Int) : ℚ :=
  if 0 ≤ z then ((2 ^ z.toNat : Nat) : ℚ) else 1 / ((2 ^ (-z).toNat : Nat) : ℚ)

/-- Number of binary digits of `n`, by halving at most `fuel` times. -/
def bitsAux : Nat → Nat → Nat
  | 0, _ => 0
  | fuel + 1, n => if n = 0 then 0 else bitsAux fuel (n / 2) + 1

/-- Number of binary digits of `n` (0 for 0). -/
def bits (n : Nat) : Nat := bitsAux n n

/-- The binary exponent of a non-zero rational: the `e` with `2 ^ e ≤ |q| < 2 ^ (e + 1)`. -/
def ilog2 (q : ℚ) : Int :=
  let d : Int := (bits q.num.natAbs : Int) - (bits q.den : Int)
  if pow2 d ≤ |q| then d else d - 1

/-- Round a rational to the nearest integer, ties to the even one. -/
def rne (t : ℚ) : Int :=
  let f : Int := ⌊t⌋
  let r : ℚ := t - f
  if r < 1 / 2 then f
  else if 1 / 2 < r then f + 1
  else if f % 2 = 0 then f else f + 1

/-- The spacing of the numbers of format `fmt` around the non-zero rational `x`. -/
def quantum (fmt : Fmt) (x : ℚ) : ℚ :=
  pow2 (max (ilog2 x) fmt.emin - ((fmt.prec : Int) - 1))

/-- Round a rational to format `fmt` with unbounded exponent above (round-to-nearest-even,
gradual underflow). -/
def roundQ (fmt : Fmt) (x : ℚ) : ℚ :=
  if x = 0 then 0 else (rne (x / quantum fmt x) : ℚ) * quantum fmt x

/-- The numbers of a format: `k * 2 ^ j` with at most `prec` bits in `k` and `j` not below
the exponent of the smallest subnormal number. -/
def Rep (fmt : Fmt) (q : ℚ) : Prop :=
  ∃ k j : Int, q = (k : ℚ) * (2 : ℚ) ^ j ∧ |k| ≤ 2 ^ fmt.prec ∧ fmt.emin - ((fmt.prec : Int) - 1) ≤ j

/-- Deliver the exact result `x` of an operation in format `fmt`; `neg` is the sign the
result takes if it is a zero. -/
def pack (fmt : Fmt) (neg : Bool) (x : ℚ) : FP :=
  let r := roundQ fmt x
  if r = 0 then (if neg then .nzero else .fin 0)
  else if pow2 (fmt.emax + 1) ≤ |r| then .inf (decide (r < 0))
  else .fin r

/-- Conversion of a datum to format `fmt` (`float` to `double` is exact, `double` to
`float` rounds). -/
def cvt (fmt : Fmt) : FP → FP
  | .fin q => pack fmt (decide (q < 0)) q
  | a => a

/-- Conversion of an `int` to format `fmt`. -/
def ofInt (fmt : Fmt) (n : Int) : FP := pack fmt false (n : ℚ)

/-- A decimal literal `num / den` of the program text, read in format `fmt`. -/
def lit (fmt : Fmt) (q : ℚ) : FP := pack fmt false q

/-- IEEE-754 multiplication in format `fmt`. -/
def fmul (fmt : Fmt) (a b : FP) : FP :=
  if a.isNaN then a
  else if b.isNaN then b
  else if a.isInf || b.isInf then
    (if a.isZero || b.isZero then .nan true else .inf (xor a.sgn b.sgn))
  else pack fmt (xor a.sgn b.sgn) (a.val * b.val)

/-- IEEE-754 division in format `fmt`. -/
def fdiv (fmt : Fmt) (a b : FP) : FP :=
  if a.isNaN then a
  else if b.isNaN then b
  else if a.isInf then (if b.isInf then .nan true else .inf (xor a.sgn b.sgn))
  else if b.isInf then (if xor a.sgn b.sgn then .nzero else .fin 0)
  else if b.isZero then (if a.isZero then .nan true else .inf (xor a.sgn b.sgn))
  else pack fmt (xor a.sgn b.sgn) (a.val / b.val)

/-- IEEE-754 addition in format `fmt`. -/
def fadd (fmt : Fmt) (a b : FP) : FP :=
  if a.isNaN then a
  else if b.isNaN then b
  else if a.isInf then (if b.isInf && (a.sgn != b.sgn) then .nan true else a)
  else if b.isInf then b
  else
    let s := a.val + b.val
    pack fmt (if s = 0 then a.sgn && b.sgn else decide (s < 0)) s

/-- Negation (flips the sign bit). -/
def fneg : FP → FP
  | .fin q => if q = 0 then .nzero else .fin (-q)
  | .nzero => .fin 0
  | .inf n => .inf (!n)
  | .nan n => .nan (!n)

/-- IEEE-754 subtraction in format `fmt`. -/
def fsub (fmt : Fmt) (a b : FP) : FP :=
  if a.isNaN then a
  else if b.isNaN then b
  else fadd fmt a (fneg b)

/-- The comparison `a < b` (false when either side is a NaN). -/
def flt (a b : FP) : Bool :=
  if a.isNaN || b.isNaN then false
  else if a.isInf then a.sgn && !(b.isInf && b.sgn)
  else if b.isInf then !b.sgn
  else decide (a.val < b.val)

/-- The function `floor` of `<cmath>`. -/
def ffloor : FP → FP
  | .fin q => .fin (⌊q⌋ : Int)
  | a => a

/-- Truncation of a rational toward zero. -/
def truncQ (q : ℚ) : Int := if 0 ≤ q then ⌊q⌋ else -⌊-q⌋

/-- The conversion `int(x)`: truncation toward zero; `-2^31` when the result does not fit
an `int` or `x` is not finite. -/
def toInt : FP → Int
  | .fin q =>
    let t := truncQ q
    if -2147483648 ≤ t ∧ t ≤ 2147483647 then t else -2147483648
  | .nzero => 0
  | _ => -2147483648

/-! ## Text: `std::to_string`, `operator<<`, `std::stof` -/

/-- How a run can end without returning: `std::invalid_argument` or `std::out_of_range`
thrown and never caught, or behaviour the C++ standard leaves undefined. -/
inductive Fault where
  | invalid_argument
  | out_of_range
  | undefined
deriving DecidableEq

deriving instance DecidableEq for Except

/-- The function `std::to_string(int)`. -/
def to_string (n : Int) : String := toString n

/-- Writing an `int` after `setfill('0')` and `setw(2)`. -/
def setw2 (n : Int) : String :=
  let s := toString n
  if s.length < 2 then "0" ++ s else s

/-- Writing a `float` after `fixed` and `setprecision(1)`: the exact value rounded to one
decimal (ties to even), as `printf("%.1f")` does. -/
def fixed1 : FP → String
  | .fin q =>
    let t : Nat := (rne (|q| * 10)).toNat
    (if q < 0 then "-" else "") ++ toString (t / 10) ++ "." ++ toString (t % 10)
  | .nzero => "-0.0"
  | .inf n => if n then "-inf" else "inf"
  | .nan n => if n then "-nan" else "nan"

/-- The expression `s[s.size()-1]`: the last character; undefined for an empty string. -/
def back (s : String) : Except Fault Char :=
  match s.toList.getLast? with
  | some c => .ok c
  | none => .error .undefined

/-- The function `isspace` in the "C" locale. -/
def isSpace (c : Char) : Bool :=
  c = ' ' || c.toNat = 9 || c.toNat = 10 || c.toNat = 11 || c.toNat = 12 || c.toNat = 13

/-- The value of `c` as a decimal digit, or as a hexadecimal digit when `hex`. -/
def digitVal (hex : Bool) (c : Char) : Option Nat :=
  if 48 ≤ c.toNat ∧ c.toNat ≤ 57 then some (c.toNat - 48)
  else if hex ∧ 97 ≤ c.toNat ∧ c.toNat ≤ 102 then some (c.toNat - 87)
  else if hex ∧ 65 ≤ c.toNat ∧ c.toNat ≤ 70 then some (c.toNat - 55)
  else none

/-- Read a run of digits, extending the number `acc`; gives the number, how many digits
were read, and the rest of the text. -/
def readDigits (hex : Bool) : List Char → Nat → Nat → Nat × Nat × List Char
  | [], acc, n => (acc, n, [])
  | c :: cs, acc, n =>
    match digitVal hex c with
    | some d => readDigits hex cs (acc * (if hex then 16 else 10) + d) (n + 1)
    | none => (acc, n, c :: cs)

/-- Read `digits [. digits]` with at least one digit; gives the digits as one number, the
count of digits after the point, and the rest. -/
def readSignificand (hex : Bool) (cs : List Char) : Option (Nat × Nat × List Char) :=
  match readDigits hex cs 0 0 with
  | (m1, n1, '.' :: r2) =>
    match readDigits hex r2 m1 0 with
    | (m2, n2, r3) => if n1 + n2 = 0 then none else some (m2, n2, r3)
  | (m1, n1, r1) => if n1 = 0 then none else some (m1, 0, r1)

/-- Read an optional exponent part `marker [sign] digits`; 0 when there is none. -/
def readExponent (marker : Char) : List Char → Int
  | [] => 0
  | c :: r =>
    if c.toLower = marker then
      match r with
      | '-' :: r1 =>
        (match readDigits false r1 0 0 with
         | (v, n, _) => if n = 0 then 0 else -(v : Int))
      | '+' :: r1 =>
        (match readDigits false r1 0 0 with
         | (v, n, _) => if n = 0 then 0 else (v : Int))
      | r1 =>
        (match readDigits false r1 0 0 with
         | (v, n, _) => if n = 0 then 0 else (v : Int))
    else 0

/-- The power `10 ^ z` as a rational. -/
def pow10 (z : Int) : ℚ :=
  if 0 ≤ z then ((10 ^ z.toNat : Nat) : ℚ) else 1 / ((10 ^ (-z).toNat : Nat) : ℚ)

/-- What `strtof` reads at the start of a text, after white space and sign: an infinity, a
NaN, the exact magnitude of a number, or nothing. -/
inductive Scanned where
  | infinity
  | notANumber
  | number (q : ℚ)
  | nothing
deriving DecidableEq

/-- Does the text start with the three given lower-case letters, in either case? -/
def startsWith3 (cs : List Char) (a b c : Char) : Bool :=
  match cs with
  | x :: y :: z :: _ => x.toLower = a && y.toLower = b && z.toLower = c
  | _ => false

/-- The subject sequence of `strtof` after the sign: `inf`, `nan`, a hexadecimal number
`0x h.h [p±d]`, or a decimal number `d.d [e±d]`. -/
def scanMagnitude (cs : List Char) : Scanned :=
  if startsWith3 cs 'i' 'n' 'f' then .infinity
  else if startsWith3 cs 'n' 'a' 'n' then .notANumber
  else
    let hexPart : Option (Nat × Nat × List Char) :=
      match cs with
      | '0' :: x :: r => if x.toLower = 'x' then readSignificand true r else none
      | _ => none
    match hexPart with
    | some (m, k, r) => .number ((m : ℚ) * pow2 (readExponent 'p' r - 4 * (k : Int)))
    | none =>
      match readSignificand false cs with
      | some (m, k, r) => .number ((m : ℚ) * pow10 (readExponent 'e' r - (k : Int)))
      | none => .nothing

/-- Skip leading white space. -/
def skipSpace : List Char → List Char
  | [] => []
  | c :: cs => if isSpace c then skipSpace cs else c :: cs

/-- Is the non-zero magnitude `q` tiny for `float` (below the normal range once rounded to
24 bits) and not exactly representable?  Then `strtof` reports `ERANGE`. -/
def underflows (q : ℚ) : Bool :=
  decide ((rne (q / pow2 (ilog2 q - 23)) : ℚ) * pow2 (ilog2 q - 23) < pow2 (-126))
    && decide (roundQ binary32 q ≠ q)

/-- The function `std::stof(s)`: `strtof` on the text; throws `std::invalid_argument` when
no number starts the text and `std::out_of_range` when `strtof` reports `ERANGE`. -/
def stof (s : String) : Except Fault FP :=
  let cs := skipSpace s.toList
  let signed : Bool × List Char :=
    match cs with
    | '-' :: r => (true, r)
    | '+' :: r => (false, r)
    | r => (false, r)
  match scanMagnitude signed.2 with
  | .nothing => .error .invalid_argument
  | .infinity => .ok (.inf signed.1)
  | .notANumber => .ok (.nan signed.1)
  | .number q =>
    if q = 0 then .ok (if signed.1 then .nzero else .fin 0)
    else if pow2 128 ≤ roundQ binary32 q then .error .out_of_range
    else if underflows q then .error .out_of_range
    else .ok (pack binary32 signed.1 (if signed.1 then -q else q))

/-- The value `std::string::npos`. -/
def npos : Nat := 2 ^ 64 - 1

/-- The member `find_first_of(c)`: the first position of `c`, or `npos`. -/
def find_first_of (s : String) (c : Char) : Nat :=
  match s.toList.indexOf? c with
  | some i => i
  | none => npos

/-- Conversion of a `size_t` to `int` (two's complement, 32 bits). -/
def toInt32 (n : Nat) : Int :=
  if n % 2 ^ 32 < 2 ^ 31 then ((n % 2 ^ 32 : Nat) : Int) else ((n % 2 ^ 32 : Nat) : Int) - 2 ^ 32

/-- Conversion of an `int` to `size_t` (modulo `2^64`). -/
def toSize (i : Int) : Nat := (i % 2 ^ 64).toNat

/-- The member `substr(pos, count)`; throws `std::out_of_range` when `pos > size()`. -/
def substr (s : String) (pos count : Nat) : Except Fault String :=
  if s.length < pos then .error .out_of_range
  else .ok (String.mk ((s.toList.drop pos).take count))

/-! ## The program -/

/-- The function `usage` (lines 21-37): the text it writes. -/
def usage : String :=
  "pace has two modes: pace and distance.\n" ++
  "DISTANCE MODE: " ++ "\x60" ++ "pace 10k 1h" ++ "\x60" ++ "\n" ++
  "Usage: pace [distance] [time]\n" ++
  "distance:\n" ++
  "\tnumber followed by 'k' for kilometers, e.g. 10k\n" ++
  "\tnumber followed by 'm' for miles, e.g. 26.2m\n" ++
  "\tspecial word 'marathon' or 'half'\n" ++
  "time:\n" ++
  "\tnumber followed by 'h' for hours\n" ++
  "\tnumber followed by 'm' for minutes\n" ++
  "PACE MODE: " ++ "\x60" ++ "pace 4:30k" ++ "\x60" ++ "\n" ++
  "Usage: pace [pace]\n" ++
  "pace:\n" ++
  "\tmin:secs followed by 'k' for per kilometer, e.g. 5:30k\n" ++
  "\tmins:secs followed by 'm' for per mile, e.g. 7:00m\n"

/-- The function `fmt_time` (lines 39-57). -/
def fmt_time (raw_time : FP) : String :=
  if flt raw_time (ofInt binary32 60) then
    to_string (toInt raw_time) ++ "m"
  else
    let h := fdiv binary32 raw_time (ofInt binary32 60)
    let hours := toInt (ffloor h)
    let out := to_string hours ++ "h"
    let minutes := toInt (fmul binary32 (ofInt binary32 60) (fsub binary32 h (ofInt binary32 hours)))
    if minutes = 0 then out
    else if minutes < 10 then out ++ ("0" ++ to_string minutes)
    else out ++ to_string minutes

/-- The function `display_distances` (lines 59-65): the text it writes.  The products
with `42.2` and `21.1` are `double` products narrowed to `float` at the call of `fmt_time`;
those with `10` and `5` are `float` products. -/
def display_distances (pace : FP) : String :=
  "At that pace:\n" ++
  "\tMarathon:\t" ++
    fmt_time (cvt binary32 (fmul binary64 (lit binary64 (422 / 10)) (cvt binary64 pace))) ++ "\n" ++
  "\tHalf-Marathon:\t" ++
    fmt_time (cvt binary32 (fmul binary64 (lit binary64 (211 / 10)) (cvt binary64 pace))) ++ "\n" ++
  "\t10k:\t\t" ++ fmt_time (fmul binary32 (ofInt binary32 10) pace) ++ "\n" ++
  "\t5k:\t\t" ++ fmt_time (fmul binary32 (ofInt binary32 5) pace) ++ "\n"

/-- The first statement of `do_distance` (lines 69-73): the special words. -/
def special (d_raw : String) : String :=
  if d_raw = "marathon" then "42.2k" else if d_raw = "half" then "21.1k" else d_raw

/-- Line 79 of `do_distance`: `dist_m = dist_k * 0.62137119`, a `double` product narrowed
to `float` by the assignment. -/
def km_to_miles (dist_k : FP) : FP :=
  cvt binary32 (fmul binary64 (cvt binary64 dist_k) (lit binary64 (62137119 / 100000000)))

/-- Line 82 of `do_distance`: `dist_k = dist_m * 1.609`, a `double` product narrowed to
`float` by the assignment. -/
def miles_to_km (dist_m : FP) : FP :=
  cvt binary32 (fmul binary64 (cvt binary64 dist_m) (lit binary64 (1609 / 1000)))

/-- Lines 75-86 of `do_distance`: the distance in km and in miles, `none` for an unknown
unit. -/
def parse_distance (d_raw : String) (dist_unit : Char) : Except Fault (Option (FP × FP)) :=
  if dist_unit = 'k' then
    (stof d_raw).map fun dist_k =>
      some (dist_k,
        cvt binary32 (fmul binary64 (cvt binary64 dist_k) (lit binary64 (62137119 / 100000000))))
  else if dist_unit = 'm' then
    (stof d_raw).map fun dist_m =>
      some (cvt binary32 (fmul binary64 (cvt binary64 dist_m) (lit binary64 (1609 / 1000))),
        dist_m)
  else .ok none

/-- Lines 100 and 104 of `do_distance`: the whole minutes `int(floor(result))` of a pace. -/
def pace_min (result : FP) : Int := toInt (ffloor result)

/-- Lines 101 and 105 of `do_distance`: the seconds `int(60 * (result - min))` of a pace. -/
def pace_secs (result : FP) : Int :=
  toInt (fmul binary32 (ofInt binary32 60) (fsub binary32 result (ofInt binary32 (pace_min result))))

/-- Lines 99-111 of `do_distance`: the summary line. -/
def summary (dist_k dist_m : FP) (t_raw : String) (time : FP) : String :=
  let result_k := fdiv binary32 time dist_k
  let min_k := pace_min result_k
  let secs_k := pace_secs result_k
  let result_m := fdiv binary32 time dist_m
  let min_m := pace_min result_m
  let secs_m := pace_secs result_m
  fixed1 dist_k ++ " km / " ++ fixed1 dist_m ++ " miles in " ++ t_raw ++ ":" ++
  " " ++ toString min_k ++ ":" ++ setw2 secs_k ++ "/km" ++
  ", " ++ toString min_m ++ ":" ++ setw2 secs_m ++ "/mile" ++
  "\n"

/-- The function `do_distance` (lines 67-115). -/
def do_distance (d_raw t_raw : String) : Except Fault (String × Int) :=
  (back (special d_raw)).bind fun dist_unit =>
  (parse_distance (special d_raw) dist_unit).bind fun dists =>
  match dists with
  | none => .ok ("Unknown distance unit: " ++ dist_unit.toString ++ ". Must be k or m\n", 1)
  | some (dist_k, dist_m) =>
    (back t_raw).bind fun time_unit =>
    (stof t_raw).bind fun time =>
    if time_unit = 'h' then
      let time := fmul binary32 time (ofInt binary32 60)
      .ok (summary dist_k dist_m t_raw time ++ display_distances (fdiv binary32 time dist_k), 0)
    else if time_unit = 's' then
      let time := fdiv binary32 time (ofInt binary32 60)
      .ok (summary dist_k dist_m t_raw time ++ display_distances (fdiv binary32 time dist_k), 0)
    else if time_unit ≠ 'm' then
      .ok ("Invalid time unit '" ++ time_unit.toString ++ "'. Must be h, m or s\n", 1)
    else
      .ok (summary dist_k dist_m t_raw time ++ display_distances (fdiv binary32 time dist_k), 0)

/-- The function `convert_to_per_km` (lines 117-119): a `double` product narrowed to
`float` on return. -/
def convert_to_per_km (per_mile : FP) : FP :=
  cvt binary32 (fmul binary64 (cvt binary64 per_mile) (lit binary64 (62137119223733 / 100000000000000)))

/-- Lines 122-124 of `do_pace`: the numbers before and after the first colon. -/
def parse_pace (p : String) : Except Fault (FP × FP) :=
  let colon : Int := toInt32 (find_first_of p ':')
  (substr p 0 (toSize colon)).bind fun s1 =>
  (stof s1).bind fun minutes =>
  (substr p (toSize (colon + 1)) npos).bind fun s2 =>
  (stof s2).bind fun seconds =>
  .ok (minutes, seconds)

/-- Line 125 of `do_pace`: `minutes += (seconds / 60)`. -/
def pace_minutes (minutes seconds : FP) : FP :=
  fadd binary32 minutes (fdiv binary32 seconds (ofInt binary32 60))

/-- The function `do_pace` (lines 121-137). -/
def do_pace (p : String) : Except Fault (String × Int) :=
  (parse_pace p).bind fun ms =>
  let minutes := pace_minutes ms.1 ms.2
  (back p).bind fun dist_unit =>
  if dist_unit = 'm' then
    .ok (display_distances (convert_to_per_km minutes), 0)
  else if dist_unit ≠ 'k' then
    .ok ("Invalid pace unit '" ++ dist_unit.toString ++ "'. Must be 'k' or 'm'\n", 1)
  else
    .ok (display_distances minutes, 0)

/-- The function `main` (lines 139-150); `argv` holds the program name and the user's
arguments, `argc` is its length.  The last branch is the end of `main` without a `return`,
which no argument count reaches. -/
def main (argv : List String) : Except Fault (String × Int) :=
  let argc := argv.length
  if argc ≠ 2 ∧ argc ≠ 3 then .ok (usage, 1)
  else if argc = 2 then do_pace (argv.getD 1 "")
  else if argc = 3 then do_distance (argv.getD 1 "") (argv.getD 2 "")
  else .ok ("", 0)

/-! ## Evaluation lemmas -/

theorem ofInt32_sixty : ofInt binary32 60 = .fin 60 := by decide!

theorem toInt_fin_of_lt (q : ℚ) (h0 : 0 ≤ q) (h1 : q < 60) : toInt (.fin q) = ⌊q⌋ := by
  have hf0 : (0 : Int) ≤ ⌊q⌋ := Int.floor_nonneg.mpr h0
  have hf1 : ⌊q⌋ < 60 := Int.floor_lt.mpr (by exact_mod_cast h1)
  simp only [toInt, truncQ, if_pos h0]
  rw [if_pos]
  constructor <;> omega

/-- A token that ends in `k` or `m` is not one of the special words. -/
theorem special_eq (d : String) (c : Char) (hd : back d = .ok c) (hc : c = 'k' ∨ c = 'm') :
    special d = d := by
  unfold special
  by_cases h1 : d = "marathon"
  · subst h1
    have : back "marathon" = .ok 'n' := by decide
    rw [this] at hd
    injection hd with hd
    subst hd
    revert hc; decide
  · rw [if_neg h1]
    by_cases h2 : d = "half"
    · subst h2
      have : back "half" = .ok 'f' := by decide
      rw [this] at hd
      injection hd with hd
      subst hd
      revert hc; decide
    · rw [if_neg h2]

/-- The run of `do_distance` on a distance and a time that both parse and carry a known
unit. -/
theorem do_distance_run (d t : String) (c u : Char) (x y : FP)
    (hd : back (special d) = .ok c) (hc : c = 'k' ∨ c = 'm') (hx : stof (special d) = .ok x)
    (ht : back t = .ok u) (hu : u = 'h' ∨ u = 'm' ∨ u = 's') (hy : stof t = .ok y) :
    do_distance d t = .ok
      (summary
          (if c = 'k' then x
            else cvt binary32 (fmul binary64 (cvt binary64 x) (lit binary64 (1609 / 1000))))
          (if c = 'k' then
              cvt binary32 (fmul binary64 (cvt binary64 x) (lit binary64 (62137119 / 100000000)))
            else x) t
          (if u = 'h' then fmul binary32 y (ofInt binary32 60)
            else if u = 's' then fdiv binary32 y (ofInt binary32 60) else y) ++
        display_distances
          (fdiv binary32
            (if u = 'h' then fmul binary32 y (ofInt binary32 60)
              else if u = 's' then fdiv binary32 y (ofInt binary32 60) else y)
            (if c = 'k' then x
              else cvt binary32 (fmul binary64 (cvt binary64 x) (lit binary64 (1609 / 1000))))), 0) := by
  rcases hc with rfl | rfl <;> rcases hu with rfl | rfl | rfl <;>
    simp [do_distance, hd, parse_distance, hx, ht, hy, Except.bind, Except.map]

/-- The text of the table, row by row. -/
theorem display_distances_rows (pace : FP) :
    display_distances pace =
      "At that pace:\n\tMarathon:\t" ++
        fmt_time (cvt binary32 (fmul binary64 (lit binary64 (422 / 10)) (cvt binary64 pace))) ++
      "\n\tHalf-Marathon:\t" ++
        fmt_time (cvt binary32 (fmul binary64 (lit binary64 (211 / 10)) (cvt binary64 pace))) ++
      "\n\t10k:\t\t" ++ fmt_time (fmul binary32 (ofInt binary32 10) pace) ++
      "\n\t5k:\t\t" ++ fmt_time (fmul binary32 (ofInt binary32 5) pace) ++ "\n" := by
  have e4 : ∀ X : String, "At that pace:\n" ++ ("\tMarathon:\t" ++ X) =
      "At that pace:\n\tMarathon:\t" ++ X :=
    fun X => by rw [← String.append_assoc]; rfl
  have e5 : ∀ X : String, "\n" ++ ("\tHalf-Marathon:\t" ++ X) = "\n\tHalf-Marathon:\t" ++ X :=
    fun X => by rw [← String.append_assoc]; rfl
  have e6 : ∀ X : String, "\n" ++ ("\t10k:\t\t" ++ X) = "\n\t10k:\t\t" ++ X :=
    fun X => by rw [← String.append_assoc]; rfl
  have e7 : ∀ X : String, "\n" ++ ("\t5k:\t\t" ++ X) = "\n\t5k:\t\t" ++ X :=
    fun X => by rw [← String.append_assoc]; rfl
  simp only [display_distances, String.append_assoc, e4, e5, e6, e7]

/-- The run of `do_pace` on a token whose numbers parse and whose unit is `k`. -/
theorem do_pace_k (p : String) (M S : FP) (hp : parse_pace p = .ok (M, S))
    (hk : back p = .ok 'k') :
    do_pace p = .ok (display_distances (fadd binary32 M (fdiv binary32 S (ofInt binary32 60))), 0) := by
  simp [do_pace, hp, hk, Except.bind, pace_minutes]

/-- The run of `do_pace` on a token whose numbers parse and whose unit is `m`. -/
theorem do_pace_m (p : String) (M S : FP) (hp : parse_pace p = .ok (M, S))
    (hm : back p = .ok 'm') :
    do_pace p = .ok (display_distances
      (convert_to_per_km (fadd binary32 M (fdiv binary32 S (ofInt binary32 60)))), 0) := by
  simp [do_pace, hp, hm, Except.bind, pace_minutes]

/-! ## Rounding -/

theorem pow2_eq (z : Int) : pow2 z = (2 : ℚ) ^ z := by
  unfold pow2
  split_ifs with h
  · obtain ⟨n, rfl⟩ := Int.eq_ofNat_of_zero_le h
    simp
  · have h' : 0 ≤ -z := by omega
    obtain ⟨n, hn⟩ := Int.eq_ofNat_of_zero_le h'
    have hz : z = -(n : Int) := by omega
    subst hz
    simp

theorem bitsAux_zero (fuel : Nat) : bitsAux fuel 0 = 0 := by
  cases fuel <;> simp [bitsAux]

theorem bitsAux_spec : ∀ fuel n : Nat, n ≤ fuel → 0 < n →
    2 ^ (bitsAux fuel n - 1) ≤ n ∧ n < 2 ^ bitsAux fuel n := by
  intro fuel
  induction fuel with
  | zero => intro n h1 h2; omega
  | succ fuel ih =>
    intro n h1 h2
    have hn : n ≠ 0 := by omega
    simp only [bitsAux, if_neg hn]
    by_cases h3 : n / 2 = 0
    · have : n = 1 := by omega
      subst this
      simp [bitsAux_zero]
    · have h4 : 0 < n / 2 := by omega
      have h5 : n / 2 ≤ fuel := by omega
      obtain ⟨ih1, ih2⟩ := ih (n / 2) h5 h4
      have hb : 1 ≤ bitsAux fuel (n / 2) := by
        by_contra hc
        have : bitsAux fuel (n / 2) = 0 := by omega
        rw [this] at ih2
        simp at ih2
        omega
      constructor
      · simp only [Nat.add_sub_cancel]
        have : 2 ^ bitsAux fuel (n / 2) = 2 * 2 ^ (bitsAux fuel (n / 2) - 1) := by
          rw [← pow_succ']
          congr 1
          omega
        omega
      · rw [pow_succ]
        omega

theorem bits_spec (n : Nat) (h : 0 < n) : 2 ^ (bits n - 1) ≤ n ∧ n < 2 ^ bits n :=
  bitsAux_spec n n le_rfl h

theorem bits_pos (n : Nat) (h : 0 < n) : 1 ≤ bits n := by
  by_contra hc
  have h0 : bits n = 0 := by omega
  have := (bits_spec n h).2
  rw [h0] at this
  simp at this
  omega

/-- The binary exponent brackets the magnitude. -/
theorem ilog2_spec (q : ℚ) (hq : q ≠ 0) :
    (2 : ℚ) ^ ilog2 q ≤ |q| ∧ |q| < (2 : ℚ) ^ (ilog2 q + 1) := by
  have hn : 0 < q.num.natAbs := Int.natAbs_pos.mpr (Rat.num_ne_zero.mpr hq)
  have hd : 0 < q.den := q.den_pos
  obtain ⟨a1, a2⟩ := bits_spec _ hn
  obtain ⟨b1, b2⟩ := bits_spec _ hd
  have ha := bits_pos _ hn
  have hb := bits_pos _ hd
  have habs : |q| = (q.num.natAbs : ℚ) / (q.den : ℚ) := by
    conv_lhs => rw [← Rat.num_div_den q]
    rw [abs_div, Nat.abs_cast, Nat.cast_natAbs, Int.cast_abs]
  have hdq : (0 : ℚ) < q.den := by exact_mod_cast hd
  have A1 : (2 : ℚ) ^ ((bits q.num.natAbs : Int) - 1) ≤ (q.num.natAbs : ℚ) := by
    have : ((bits q.num.natAbs : Int) - 1) = ((bits q.num.natAbs - 1 : Nat) : Int) := by omega
    rw [this, zpow_natCast]
    exact_mod_cast a1
  have A2 : (q.num.natAbs : ℚ) < (2 : ℚ) ^ (bits q.num.natAbs : Int) := by
    rw [zpow_natCast]
    exact_mod_cast a2
  have B1 : (2 : ℚ) ^ ((bits q.den : Int) - 1) ≤ (q.den : ℚ) := by
    have : ((bits q.den : Int) - 1) = ((bits q.den - 1 : Nat) : Int) := by omega
    rw [this, zpow_natCast]
    exact_mod_cast b1
  have B2 : (q.den : ℚ) < (2 : ℚ) ^ (bits q.den : Int) := by
    rw [zpow_natCast]
    exact_mod_cast b2
  have two_pos : ∀ z : Int, (0 : ℚ) < (2 : ℚ) ^ z := fun z => by positivity
  -- lower and upper bracket of |q| with D = a - b
  have lo : (2 : ℚ) ^ ((bits q.num.natAbs : Int) - (bits q.den : Int) - 1) < |q| := by
    rw [habs, lt_div_iff₀ hdq]
    calc (2 : ℚ) ^ ((bits q.num.natAbs : Int) - (bits q.den : Int) - 1) * (q.den : ℚ)
        < (2 : ℚ) ^ ((bits q.num.natAbs : Int) - (bits q.den : Int) - 1) *
            (2 : ℚ) ^ (bits q.den : Int) := by
          exact mul_lt_mul_of_pos_left B2 (two_pos _)
      _ = (2 : ℚ) ^ ((bits q.num.natAbs : Int) - 1) := by
          rw [← zpow_add₀ (by norm_num : (2 : ℚ) ≠ 0)]
          congr 1; ring
      _ ≤ _ := A1
  have hi : |q| < (2 : ℚ) ^ ((bits q.num.natAbs : Int) - (bits q.den : Int) + 1) := by
    rw [habs, div_lt_iff₀ hdq]
    calc (q.num.natAbs : ℚ) < (2 : ℚ) ^ (bits q.num.natAbs : Int) := A2
      _ = (2 : ℚ) ^ ((bits q.num.natAbs : Int) - (bits q.den : Int) + 1) *
            (2 : ℚ) ^ ((bits q.den : Int) - 1) := by
          rw [← zpow_add₀ (by norm_num : (2 : ℚ) ≠ 0)]
          congr 1; ring
      _ ≤ _ := mul_le_mul_of_nonneg_left B1 (two_pos _).le
  unfold ilog2
  simp only [pow2_eq]
  split_ifs with h
  · exact ⟨h, hi⟩
  · push_neg at h
    refine ⟨lo.le, ?_⟩
    have : (bits q.num.natAbs : Int) - (bits q.den : Int) - 1 + 1 =
        (bits q.num.natAbs : Int) - (bits q.den : Int) := by ring
    rw [this]
    exact h

theorem rne_cases (t : ℚ) :
    (rne t = ⌊t⌋ ∧ t - ⌊t⌋ ≤ 1 / 2) ∨ (rne t = ⌊t⌋ + 1 ∧ 1 / 2 ≤ t - ⌊t⌋) := by
  unfold rne
  simp only
  split_ifs with h1 h2 h3
  · exact Or.inl ⟨rfl, h1.le⟩
  · exact Or.inr ⟨rfl, h2.le⟩
  · push_neg at h1 h2
    exact Or.inl ⟨rfl, h2⟩
  · push_neg at h1 h2
    exact Or.inr ⟨rfl, h1⟩

/-- The integer `rne t` is at least as near to `t` as any other integer. -/
theorem rne_nearest (t : ℚ) (n : Int) : |t - (rne t : ℚ)| ≤ |t - (n : ℚ)| := by
  have hf1 : ((⌊t⌋ : Int) : ℚ) ≤ t := Int.floor_le t
  have hf2 : t < ((⌊t⌋ : Int) : ℚ) + 1 := Int.lt_floor_add_one t
  have hn : n ≤ ⌊t⌋ ∨ ⌊t⌋ + 1 ≤ n := by omega
  have hn' : (n : ℚ) ≤ (⌊t⌋ : Int) ∨ ((⌊t⌋ : Int) : ℚ) + 1 ≤ n := by
    rcases hn with h | h
    · exact Or.inl (by exact_mod_cast h)
    · exact Or.inr (by exact_mod_cast h)
  rcases rne_cases t with ⟨h, hr⟩ | ⟨h, hr⟩
  · rw [h]
    rw [abs_of_nonneg (by linarith)]
    rcases hn' with h' | h'
    · rw [abs_of_nonneg (by linarith)]; linarith
    · rw [abs_of_nonpos (by linarith)]; linarith
  · rw [h]
    push_cast
    rw [abs_of_nonpos (by linarith)]
    rcases hn' with h' | h'
    · rw [abs_of_nonneg (by linarith)]; linarith
    · rw [abs_of_nonpos (by linarith)]; linarith

theorem rne_le_of_le (t : ℚ) (n : Int) (h : t ≤ n) : rne t ≤ n := by
  have hf1 : ((⌊t⌋ : Int) : ℚ) ≤ t := Int.floor_le t
  rcases rne_cases t with ⟨h1, _⟩ | ⟨h1, hr⟩
  · rw [h1]; exact_mod_cast hf1.trans h
  · rw [h1]
    have : ((⌊t⌋ : Int) : ℚ) < n := by linarith
    have : ⌊t⌋ < n := by exact_mod_cast this
    omega

theorem le_rne_of_le (t : ℚ) (n : Int) (h : (n : ℚ) ≤ t) : n ≤ rne t := by
  have : n ≤ ⌊t⌋ := Int.le_floor.mpr h
  rcases rne_cases t with ⟨h1, _⟩ | ⟨h1, _⟩ <;> rw [h1] <;> omega

theorem quantum_eq (fmt : Fmt) (x : ℚ) :
    quantum fmt x = (2 : ℚ) ^ (max (ilog2 x) fmt.emin - ((fmt.prec : Int) - 1)) := by
  unfold quantum; rw [pow2_eq]

theorem roundQ_of_ne (fmt : Fmt) (x : ℚ) (hx : x ≠ 0) :
    roundQ fmt x = (rne (x / quantum fmt x) : ℚ) * quantum fmt x := by
  unfold roundQ; rw [if_neg hx]

theorem roundQ_zero (fmt : Fmt) : roundQ fmt 0 = 0 := by
  unfold roundQ; rw [if_pos rfl]

/-- Rounding is at least as near as any multiple of the quantum. -/
theorem roundQ_nearest_multiple (fmt : Fmt) (x : ℚ) (hx : x ≠ 0) (N : Int) :
    |x - roundQ fmt x| ≤ |x - (N : ℚ) * quantum fmt x| := by
  have hu : 0 < quantum fmt x := by rw [quantum_eq]; positivity
  rw [roundQ_of_ne fmt x hx]
  have e1 : ∀ n : Int, x - (n : ℚ) * quantum fmt x = quantum fmt x * (x / quantum fmt x - n) := by
    intro n; field_simp; ring
  rw [e1, e1, abs_mul, abs_mul]
  exact mul_le_mul_of_nonneg_left (rne_nearest _ N) (abs_nonneg _)

/-- Rounding gives a number of the format that is at least as near as any other number of
the format. -/
theorem roundQ_nearest (fmt : Fmt) (hp : 1 ≤ fmt.prec) (x f : ℚ) (hf : Rep fmt f) :
    |x - roundQ fmt x| ≤ |x - f| := by
  by_cases hx : x = 0
  · subst hx; rw [roundQ_zero]; simp
  obtain ⟨k, j, rfl, hk, hj⟩ := hf
  have two_ne : (2 : ℚ) ≠ 0 := by norm_num
  by_cases hj2 : max (ilog2 x) fmt.emin - ((fmt.prec : Int) - 1) ≤ j
  · -- `f` is a multiple of the quantum
    obtain ⟨n, hn⟩ := Int.eq_ofNat_of_zero_le (sub_nonneg.mpr hj2)
    have : (k : ℚ) * (2 : ℚ) ^ j = ((k * 2 ^ n : Int) : ℚ) * quantum fmt x := by
      rw [quantum_eq]
      push_cast
      rw [mul_assoc, ← zpow_natCast, ← zpow_add₀ two_ne]
      congr 2
      omega
    rw [this]
    exact roundQ_nearest_multiple fmt x hx _
  · -- `f` is finer than the quantum, so it is smaller in magnitude than `2 ^ e ≤ |x|`
    push_neg at hj2
    have he : max (ilog2 x) fmt.emin = ilog2 x := by
      apply max_eq_left
      by_contra hc
      push_neg at hc
      rw [max_eq_right hc.le] at hj2
      omega
    rw [he] at hj2
    obtain ⟨hx1, _⟩ := ilog2_spec x hx
    obtain ⟨p, hp'⟩ : ∃ p : Nat, fmt.prec = p + 1 := ⟨fmt.prec - 1, by omega⟩
    have hq : quantum fmt x = (2 : ℚ) ^ (ilog2 x - (p : Int)) := by
      rw [quantum_eq, he, hp']; congr 1; push_cast; ring
    have hpow : (2 : ℚ) ^ ilog2 x = ((2 ^ p : Int) : ℚ) * quantum fmt x := by
      rw [hq]; push_cast
      rw [← zpow_natCast, ← zpow_add₀ two_ne]
      congr 1; ring
    have hfb : |(k : ℚ) * (2 : ℚ) ^ j| ≤ (2 : ℚ) ^ ilog2 x := by
      rw [abs_mul, abs_of_pos (by positivity : (0 : ℚ) < (2 : ℚ) ^ j)]
      have hk' : |(k : ℚ)| ≤ (2 : ℚ) ^ (fmt.prec : Int) := by
        rw [zpow_natCast, ← Int.cast_abs]
        exact_mod_cast hk
      calc |(k : ℚ)| * (2 : ℚ) ^ j ≤ (2 : ℚ) ^ (fmt.prec : Int) * (2 : ℚ) ^ j :=
            mul_le_mul_of_nonneg_right hk' (by positivity)
        _ = (2 : ℚ) ^ ((fmt.prec : Int) + j) := by rw [← zpow_add₀ two_ne]
        _ ≤ (2 : ℚ) ^ ilog2 x := by
            apply zpow_le_zpow_right₀ (by norm_num)
            rw [hp'] at hj2 ⊢
            push_cast at hj2 ⊢
            omega
    obtain ⟨hfb1, hfb2⟩ := abs_le.mp hfb
    rcases lt_or_gt_of_ne hx with hneg | hpos
    · -- x < 0
      rw [abs_of_neg hneg] at hx1
      have h1 := roundQ_nearest_multiple fmt x hx (-(2 ^ p : Int))
      have e : ((-(2 ^ p : Int) : Int) : ℚ) * quantum fmt x = -(2 : ℚ) ^ ilog2 x := by
        rw [hpow]; push_cast; ring
      rw [e] at h1
      calc |x - roundQ fmt x| ≤ |x - -(2 : ℚ) ^ ilog2 x| := h1
        _ = -(2 : ℚ) ^ ilog2 x - x := by rw [abs_of_nonpos (by linarith)]; ring
        _ ≤ (k : ℚ) * (2 : ℚ) ^ j - x := by linarith
        _ ≤ |x - (k : ℚ) * (2 : ℚ) ^ j| := by rw [abs_sub_comm]; exact le_abs_self _
    · rw [abs_of_pos hpos] at hx1
      have h1 := roundQ_nearest_multiple fmt x hx (2 ^ p : Int)
      rw [← hpow] at h1
      calc |x - roundQ fmt x| ≤ |x - (2 : ℚ) ^ ilog2 x| := h1
        _ = x - (2 : ℚ) ^ ilog2 x := abs_of_nonneg (by linarith)
        _ ≤ x - (k : ℚ) * (2 : ℚ) ^ j := by linarith
        _ ≤ |x - (k : ℚ) * (2 : ℚ) ^ j| := le_abs_self _

/-- The result of rounding is a number of the format. -/
theorem roundQ_rep (fmt : Fmt) (x : ℚ) : Rep fmt (roundQ fmt x) := by
  by_cases hx : x = 0
  · subst hx
    rw [roundQ_zero]
    exact ⟨0, fmt.emin - ((fmt.prec : Int) - 1), by simp, by positivity, le_rfl⟩
  have two_ne : (2 : ℚ) ≠ 0 := by norm_num
  have hu : 0 < quantum fmt x := by rw [quantum_eq]; positivity
  refine ⟨rne (x / quantum fmt x), max (ilog2 x) fmt.emin - ((fmt.prec : Int) - 1), ?_, ?_, ?_⟩
  · rw [roundQ_of_ne fmt x hx, quantum_eq]
  · obtain ⟨_, hx2⟩ := ilog2_spec x hx
    have hb : |x / quantum fmt x| ≤ ((2 ^ fmt.prec : Int) : ℚ) := by
      rw [abs_div, abs_of_pos hu, div_le_iff₀ hu, quantum_eq]
      push_cast
      rw [← zpow_natCast, ← zpow_add₀ two_ne]
      refine hx2.le.trans ?_
      apply zpow_le_zpow_right₀ (by norm_num)
      have := le_max_left (ilog2 x) fmt.emin
      omega
    obtain ⟨hb1, hb2⟩ := abs_le.mp hb
    rw [abs_le]
    constructor
    · apply le_rne_of_le
      push_cast at hb1 ⊢
      exact hb1
    · exact rne_le_of_le _ _ hb2
  · have := le_max_right (ilog2 x) fmt.emin
    omega

/-- Rounding leaves the numbers of the format alone. -/
theorem roundQ_of_rep (fmt : Fmt) (hp : 1 ≤ fmt.prec) (f : ℚ) (hf : Rep fmt f) :
    roundQ fmt f = f := by
  have h := roundQ_nearest fmt hp f f hf
  rw [sub_self, abs_zero] at h
  have := abs_nonneg (f - roundQ fmt f)
  have h0 : |f - roundQ fmt f| = 0 := le_antisymm h this
  rw [abs_eq_zero] at h0
  linarith

/-- Rounding is monotone. -/
theorem roundQ_mono (fmt : Fmt) (hp : 1 ≤ fmt.prec) (x y : ℚ) (h : x ≤ y) :
    roundQ fmt x ≤ roundQ fmt y := by
  by_contra hc
  push_neg at hc
  have h1 := roundQ_nearest fmt hp x (roundQ fmt y) (roundQ_rep fmt y)
  have h2 := roundQ_nearest fmt hp y (roundQ fmt x) (roundQ_rep fmt x)
  rcases lt_or_eq_of_le h with hlt | heq
  · rcases abs_cases (x - roundQ fmt x) with ⟨e1, _⟩ | ⟨e1, _⟩ <;>
    rcases abs_cases (x - roundQ fmt y) with ⟨e2, _⟩ | ⟨e2, _⟩ <;>
    rcases abs_cases (y - roundQ fmt y) with ⟨e3, _⟩ | ⟨e3, _⟩ <;>
    rcases abs_cases (y - roundQ fmt x) with ⟨e4, _⟩ | ⟨e4, _⟩ <;>
    rw [e1, e2] at h1 <;> rw [e3, e4] at h2 <;> linarith
  · rw [heq] at hc
    exact lt_irrefl _ hc

theorem pack_eq_fin (fmt : Fmt) (neg : Bool) (x m : ℚ) (h : pack fmt neg x = .fin m) :
    m = roundQ fmt x ∧ |m| < (2 : ℚ) ^ (fmt.emax + 1) := by
  unfold pack at h
  simp only at h
  split_ifs at h with h1 h2 h3
  · injection h with h
    subst h
    rw [h1]
    exact ⟨rfl, by rw [abs_zero]; positivity⟩
  · injection h with h
    subst h
    rw [pow2_eq] at h3
    exact ⟨rfl, not_le.mp h3⟩

theorem pack_of_bounds (fmt : Fmt) (neg : Bool) (x : ℚ) (h0 : roundQ fmt x ≠ 0)
    (h1 : |roundQ fmt x| < (2 : ℚ) ^ (fmt.emax + 1)) : pack fmt neg x = .fin (roundQ fmt x) := by
  unfold pack
  simp only
  rw [if_neg h0, if_neg]
  rw [pow2_eq]
  exact not_le.mpr h1

/-- A finite sum is a number of the format, within its range. -/
theorem fadd_eq_fin (fmt : Fmt) (a b : FP) (m : ℚ) (h : fadd fmt a b = .fin m) :
    Rep fmt m ∧ |m| < (2 : ℚ) ^ (fmt.emax + 1) := by
  unfold fadd at h
  split_ifs at h with h1 h2 h3 h4 h5
  · subst h; simp [FP.isNaN] at h1
  · subst h; simp [FP.isNaN] at h2
  · subst h; simp [FP.isInf] at h3
  · subst h; simp [FP.isInf] at h5
  · obtain ⟨e, hb⟩ := pack_eq_fin _ _ _ _ h
    exact ⟨e ▸ roundQ_rep fmt _, hb⟩

theorem rep32_rep64 (q : ℚ) (h : Rep binary32 q) : Rep binary64 q := by
  obtain ⟨k, j, e, hk, hj⟩ := h
  refine ⟨k, j, e, hk.trans ?_, ?_⟩
  · simp only [binary32, binary64]; norm_num
  · simp only [binary32, binary64] at hj ⊢
    push_cast at hj ⊢
    omega

/-- The `double` nearest to `0.62137119223733`. -/
theorem lit_per_km :
    lit binary64 (62137119223733 / 100000000000000) =
      .fin (174900441863675 / 281474976710656) := by
  decide!

theorem roundQ32_five : roundQ binary32 (5 * pow2 (-151)) = pow2 (-149) := by decide!

/-- Below a `float` above the smallest positive one there is a `double` that is at least
five eighths of it and still rounds to a smaller `float`. -/
theorem pred_bound (m : ℚ) (hrep : Rep binary32 m) (hlo : (2 : ℚ) ^ (-149 : Int) < m) :
    ∃ g : ℚ, Rep binary64 g ∧ m * (5 / 8) ≤ g ∧ roundQ binary32 g < m := by
  have two_ne : (2 : ℚ) ≠ 0 := by norm_num
  have hp32 : 1 ≤ binary32.prec := by simp [binary32]
  obtain ⟨k, j, rfl, hk, hj⟩ := hrep
  simp only [binary32] at hk hj
  push_cast at hj
  have hj' : -149 ≤ j := by omega
  have hpj : (0 : ℚ) < (2 : ℚ) ^ j := by positivity
  have hk0 : 0 < k := by
    have h0 : (0 : ℚ) < (k : ℚ) * (2 : ℚ) ^ j := lt_trans (by positivity) hlo
    have : (0 : ℚ) < (k : ℚ) := (mul_pos_iff_of_pos_right hpj).mp h0
    exact_mod_cast this
  have hkabs : |k| = k := abs_of_pos hk0
  rw [hkabs] at hk
  -- a number of the `float` format below, given as `k' * 2 ^ j'`
  have general : ∀ (k' j' : Int), 0 ≤ k' → k' ≤ 2 ^ 24 → -149 ≤ j' →
      (k : ℚ) * (2 : ℚ) ^ j * (5 / 8) ≤ (k' : ℚ) * (2 : ℚ) ^ j' →
      (k' : ℚ) * (2 : ℚ) ^ j' < (k : ℚ) * (2 : ℚ) ^ j →
      ∃ g : ℚ, Rep binary64 g ∧ (k : ℚ) * (2 : ℚ) ^ j * (5 / 8) ≤ g ∧
        roundQ binary32 g < (k : ℚ) * (2 : ℚ) ^ j := by
    intro k' j' h0 h1 h2 h3 h4
    have hr : Rep binary32 ((k' : ℚ) * (2 : ℚ) ^ j') :=
      ⟨k', j', rfl, by rw [abs_of_nonneg h0]; simpa [binary32] using h1,
        by simp only [binary32]; push_cast; omega⟩
    exact ⟨_, rep32_rep64 _ hr, h3, by rw [roundQ_of_rep _ hp32 _ hr]; exact h4⟩
  by_cases hk3 : 3 ≤ k
  · refine general (k - 1) j (by omega) (by omega) hj' ?_ ?_
    · have : (3 : ℚ) ≤ (k : ℚ) := by exact_mod_cast hk3
      push_cast
      nlinarith
    · push_cast
      nlinarith
  · have hk12 : k = 1 ∨ k = 2 := by omega
    -- in both cases the number is a power of two, `2 ^ i`
    obtain ⟨i, hi, hi'⟩ : ∃ i : Int, (k : ℚ) * (2 : ℚ) ^ j = (2 : ℚ) ^ i ∧ -149 ≤ i := by
      rcases hk12 with rfl | rfl
      · exact ⟨j, by simp, hj'⟩
      · refine ⟨j + 1, ?_, by omega⟩
        rw [zpow_add₀ two_ne]; push_cast; ring
    rw [hi] at hlo ⊢
    have hi1 : -149 < i := (zpow_lt_zpow_iff_right₀ (by norm_num : (1 : ℚ) < 2)).mp hlo
    by_cases hi2 : i = -148
    · subst hi2
      refine ⟨5 * (2 : ℚ) ^ (-151 : Int), ?_, ?_, ?_⟩
      · exact ⟨5, -151, by push_cast; ring, by simp [binary64], by simp [binary64]⟩
      · have : (2 : ℚ) ^ (-148 : Int) = (2 : ℚ) ^ (-151 : Int) * (2 : ℚ) ^ (3 : Int) := by
          rw [← zpow_add₀ two_ne]; norm_num
        rw [this]
        have h8 : (2 : ℚ) ^ (3 : Int) = 8 := by norm_num
        rw [h8]
        have : (0 : ℚ) < (2 : ℚ) ^ (-151 : Int) := by positivity
        linarith
      · have := roundQ32_five
        rw [pow2_eq, pow2_eq] at this
        rw [this]
        exact zpow_lt_zpow_right₀ (by norm_num) (by norm_num)
    · have hi3 : -147 ≤ i := by omega
      have key : (2 : ℚ) ^ i = 4 * (2 : ℚ) ^ (i - 2) := by
        have : i = (i - 2) + 2 := by ring
        conv_lhs => rw [this, zpow_add₀ two_ne]
        norm_num
        ring
      have hp : (0 : ℚ) < (2 : ℚ) ^ (i - 2) := by positivity
      have := general 3 (i - 2) (by norm_num) (by norm_num) (by omega)
      rw [hi] at this
      refine this ?_ ?_
      · rw [key]; push_cast; linarith
      · rw [key]; push_cast; linarith

/-- Lines 117-119 on a `float` above the smallest positive one: the result is the product,
rounded to `double` and then to `float`; it is positive and strictly smaller. -/
theorem convert_to_per_km_lt (m : ℚ) (hrep : Rep binary32 m)
    (hlo : (2 : ℚ) ^ (-149 : Int) < m) (hhi : m < (2 : ℚ) ^ (128 : Int)) :
    convert_to_per_km (.fin m) =
      .fin (roundQ binary32 (roundQ binary64 (m * (174900441863675 / 281474976710656)))) ∧
    0 < roundQ binary32 (roundQ binary64 (m * (174900441863675 / 281474976710656))) ∧
    roundQ binary32 (roundQ binary64 (m * (174900441863675 / 281474976710656))) < m := by
  have two_ne : (2 : ℚ) ≠ 0 := by norm_num
  have hp32 : 1 ≤ binary32.prec := by simp [binary32]
  have hp64 : 1 ≤ binary64.prec := by simp [binary64]
  have hm0 : 0 < m := lt_trans (by positivity) hlo
  have hrep64 := rep32_rep64 m hrep
  -- the smallest positive `float`
  have hmin32 : Rep binary32 ((2 : ℚ) ^ (-149 : Int)) :=
    ⟨1, -149, by simp, by simp [binary32], by simp [binary32]⟩
  have hmin64 := rep32_rep64 _ hmin32
  -- `m` is at least twice the smallest positive `float`
  have hm2 : (2 : ℚ) ^ (-148 : Int) ≤ m := by
    obtain ⟨k, j, rfl, hk, hj⟩ := hrep
    simp only [binary32] at hj
    push_cast at hj
    obtain ⟨n, hn⟩ := Int.eq_ofNat_of_zero_le (show 0 ≤ j + 149 by omega)
    have e : (k : ℚ) * (2 : ℚ) ^ j = ((k * 2 ^ n : Int) : ℚ) * (2 : ℚ) ^ (-149 : Int) := by
      push_cast
      rw [mul_assoc, ← zpow_natCast, ← zpow_add₀ two_ne]
      congr 2
      omega
    rw [e] at hlo ⊢
    have hp : (0 : ℚ) < (2 : ℚ) ^ (-149 : Int) := by positivity
    have h1 : (1 : ℚ) < ((k * 2 ^ n : Int) : ℚ) := by
      by_contra hc
      push_neg at hc
      have := mul_le_mul_of_nonneg_right hc hp.le
      linarith
    have h2 : (2 : Int) ≤ k * 2 ^ n := by
      have : (1 : Int) < k * 2 ^ n := by exact_mod_cast h1
      omega
    have h3 : (2 : ℚ) ≤ ((k * 2 ^ n : Int) : ℚ) := by exact_mod_cast h2
    have e2 : (2 : ℚ) ^ (-148 : Int) = 2 * (2 : ℚ) ^ (-149 : Int) := by
      have : (-148 : Int) = 1 + -149 := by norm_num
      rw [this, zpow_add₀ two_ne]; norm_num
    rw [e2]
    exact mul_le_mul_of_nonneg_right h3 hp.le
  set c : ℚ := 174900441863675 / 281474976710656 with hc
  have hc1 : (1 : ℚ) / 2 ≤ c := by rw [hc]; norm_num
  have hc2 : c ≤ 5 / 8 := by rw [hc]; norm_num
  -- bounds on the exact product
  have hprod_lo : (2 : ℚ) ^ (-149 : Int) ≤ m * c := by
    have e2 : (2 : ℚ) ^ (-148 : Int) = 2 * (2 : ℚ) ^ (-149 : Int) := by
      have : (-148 : Int) = 1 + -149 := by norm_num
      rw [this, zpow_add₀ two_ne]; norm_num
    calc (2 : ℚ) ^ (-149 : Int) = (2 : ℚ) ^ (-148 : Int) * (1 / 2) := by rw [e2]; ring
      _ ≤ m * c := mul_le_mul hm2 hc1 (by norm_num) hm0.le
  have hprod_hi : m * c ≤ m := mul_le_of_le_one_right hm0.le (le_trans hc2 (by norm_num))
  obtain ⟨g, hg, hg1, hg2⟩ := pred_bound m hrep hlo
  -- the `double` product
  have hd_lo : (2 : ℚ) ^ (-149 : Int) ≤ roundQ binary64 (m * c) := by
    have := roundQ_mono binary64 hp64 _ _ hprod_lo
    rwa [roundQ_of_rep _ hp64 _ hmin64] at this
  have hd_hi : roundQ binary64 (m * c) ≤ m := by
    have := roundQ_mono binary64 hp64 _ _ hprod_hi
    rwa [roundQ_of_rep _ hp64 _ hrep64] at this
  have hd_g : roundQ binary64 (m * c) ≤ g := by
    have := roundQ_mono binary64 hp64 (m * c) g
      (le_trans (mul_le_mul_of_nonneg_left hc2 hm0.le) hg1)
    rwa [roundQ_of_rep _ hp64 _ hg] at this
  -- the `float` result
  have hr_lo : (2 : ℚ) ^ (-149 : Int) ≤ roundQ binary32 (roundQ binary64 (m * c)) := by
    have := roundQ_mono binary32 hp32 _ _ hd_lo
    rwa [roundQ_of_rep _ hp32 _ hmin32] at this
  have hr_hi : roundQ binary32 (roundQ binary64 (m * c)) < m :=
    lt_of_le_of_lt (roundQ_mono binary32 hp32 _ _ hd_g) hg2
  have hpos149 : (0 : ℚ) < (2 : ℚ) ^ (-149 : Int) := by positivity
  have hr_pos : 0 < roundQ binary32 (roundQ binary64 (m * c)) := lt_of_lt_of_le hpos149 hr_lo
  have hd_pos : 0 < roundQ binary64 (m * c) := lt_of_lt_of_le hpos149 hd_lo
  have h128 : (2 : ℚ) ^ (128 : Int) < (2 : ℚ) ^ (1024 : Int) :=
    zpow_lt_zpow_right₀ (by norm_num) (by norm_num)
  refine ⟨?_, hr_pos, hr_hi⟩
  unfold convert_to_per_km
  rw [lit_per_km]
  have s1 : cvt binary64 (.fin m) = .fin m := by
    show pack binary64 (decide (m < 0)) m = .fin m
    have := pack_of_bounds binary64 (decide (m < 0)) m
      (by rw [roundQ_of_rep _ hp64 _ hrep64]; exact hm0.ne')
      (by rw [roundQ_of_rep _ hp64 _ hrep64, abs_of_pos hm0]
          exact lt_trans hhi (by simp [binary64]))
    rw [this, roundQ_of_rep _ hp64 _ hrep64]
  have s2 : fmul binary64 (.fin m) (.fin c) = .fin (roundQ binary64 (m * c)) := by
    unfold fmul
    simp only [FP.isNaN, FP.isInf, FP.val, Bool.false_eq_true, if_false, Bool.or_self]
    exact pack_of_bounds binary64 _ (m * c) hd_pos.ne'
      (by rw [abs_of_pos hd_pos]
          exact lt_of_le_of_lt hd_hi (lt_trans hhi (by simp [binary64])))
  have s3 : cvt binary32 (.fin (roundQ binary64 (m * c))) =
      .fin (roundQ binary32 (roundQ binary64 (m * c))) := by
    show pack binary32 _ _ = _
    exact pack_of_bounds binary32 _ _ hr_pos.ne'
      (by rw [abs_of_pos hr_pos]
          exact lt_trans hr_hi (by simpa [binary32] using hhi))
  rw [s1, s2, s3]

/-! ## Finite operands, whole minutes and seconds -/

theorem roundQ_nonneg (fmt : Fmt) (hp : 1 ≤ fmt.prec) (x : ℚ) (hx : 0 ≤ x) :
    0 ≤ roundQ fmt x := by
  have := roundQ_mono fmt hp 0 x hx
  rwa [roundQ_zero] at this

theorem rep_int (fmt : Fmt) (n : Int) (hn : |n| ≤ 2 ^ fmt.prec)
    (he : fmt.emin - ((fmt.prec : Int) - 1) ≤ 0) : Rep fmt (n : ℚ) :=
  ⟨n, 0, by simp, hn, he⟩

theorem rep32_int (n : Int) (hn : |n| ≤ 2 ^ 24) : Rep binary32 (n : ℚ) :=
  rep_int binary32 n (by simpa [binary32] using hn) (by simp [binary32])

/-- The result of `pack` when the rounded value is within the range of the format: a finite
datum with that value. -/
theorem pack_finite (fmt : Fmt) (neg : Bool) (x : ℚ)
    (h : |roundQ fmt x| < (2 : ℚ) ^ (fmt.emax + 1)) :
    (pack fmt neg x).isNaN = false ∧ (pack fmt neg x).isInf = false ∧
      (pack fmt neg x).val = roundQ fmt x := by
  unfold pack
  simp only
  split_ifs with h1 h2 h3
  · simp [FP.isNaN, FP.isInf, FP.val, h1]
  · simp [FP.isNaN, FP.isInf, FP.val, h1]
  · rw [pow2_eq] at h3
    exact absurd h (not_lt.mpr h3)
  · simp [FP.isNaN, FP.isInf, FP.val]

/-- The conversion `int(x)` of a finite datum whose truncation fits an `int`. -/
theorem toInt_finite (z : FP) (h1 : z.isNaN = false) (h2 : z.isInf = false)
    (h3 : -2147483648 ≤ truncQ z.val) (h4 : truncQ z.val ≤ 2147483647) :
    toInt z = truncQ z.val := by
  cases z with
  | fin q => simp only [toInt, FP.val] at *; rw [if_pos ⟨h3, h4⟩]
  | nzero => simp [toInt, FP.val, truncQ]
  | inf n => simp [FP.isInf] at h2
  | nan n => simp [FP.isNaN] at h1

theorem fmul_finite (fmt : Fmt) (a b : FP) (ha1 : a.isNaN = false) (ha2 : a.isInf = false)
    (hb1 : b.isNaN = false) (hb2 : b.isInf = false) :
    fmul fmt a b = pack fmt (xor a.sgn b.sgn) (a.val * b.val) := by
  unfold fmul
  simp [ha1, ha2, hb1, hb2]

theorem fadd_finite (fmt : Fmt) (a b : FP) (ha1 : a.isNaN = false) (ha2 : a.isInf = false)
    (hb1 : b.isNaN = false) (hb2 : b.isInf = false) :
    fadd fmt a b = pack fmt (if a.val + b.val = 0 then a.sgn && b.sgn
      else decide (a.val + b.val < 0)) (a.val + b.val) := by
  unfold fadd
  simp [ha1, ha2, hb1, hb2]

theorem fneg_finite (b : FP) (hb1 : b.isNaN = false) (hb2 : b.isInf = false) :
    (fneg b).isNaN = false ∧ (fneg b).isInf = false ∧ (fneg b).val = -b.val := by
  cases b with
  | fin q =>
    simp only [fneg]
    split_ifs with h
    · simp [FP.isNaN, FP.isInf, FP.val, h]
    · simp [FP.isNaN, FP.isInf, FP.val]
  | nzero => simp [fneg, FP.isNaN, FP.isInf, FP.val]
  | inf n => simp [FP.isInf] at hb2
  | nan n => simp [FP.isNaN] at hb1

theorem fsub_finite (fmt : Fmt) (a b : FP) (ha1 : a.isNaN = false) (ha2 : a.isInf = false)
    (hb1 : b.isNaN = false) (hb2 : b.isInf = false) :
    ∃ neg : Bool, fsub fmt a b = pack fmt neg (a.val - b.val) := by
  obtain ⟨n1, n2, n3⟩ := fneg_finite b hb1 hb2
  unfold fsub
  rw [if_neg (by simp [ha1]), if_neg (by simp [hb1]), fadd_finite fmt a (fneg b) ha1 ha2 n1 n2, n3]
  exact ⟨_, by rw [sub_eq_add_neg]⟩

theorem truncQ_int (n : Int) : truncQ (n : ℚ) = n := by
  unfold truncQ
  split_ifs with h
  · exact Int.floor_intCast n
  · rw [← Int.cast_neg, Int.floor_intCast]; ring

theorem truncQ_of_nonneg (q : ℚ) (h : 0 ≤ q) : truncQ q = ⌊q⌋ := by
  unfold truncQ; rw [if_pos h]

/-- The floor of a `float` is a `float`. -/
theorem rep32_floor (q : ℚ) (h : Rep binary32 q) : Rep binary32 ((⌊q⌋ : Int) : ℚ) := by
  obtain ⟨k, j, rfl, hk, hj⟩ := h
  simp only [binary32] at hk
  by_cases hj0 : 0 ≤ j
  · obtain ⟨n, rfl⟩ := Int.eq_ofNat_of_zero_le hj0
    have e : (k : ℚ) * (2 : ℚ) ^ ((n : Int)) = ((k * 2 ^ n : Int) : ℚ) := by
      push_cast; rw [zpow_natCast]
    rw [e, Int.floor_intCast, ← e]
    exact ⟨k, n, rfl, by simpa [binary32] using hk, by simp only [binary32]; push_cast; omega⟩
  · push_neg at hj0
    apply rep32_int
    have hpow : (2 : ℚ) ^ j ≤ 1 / 2 := by
      have : (2 : ℚ) ^ j ≤ (2 : ℚ) ^ (-1 : Int) :=
        zpow_le_zpow_right₀ (by norm_num) (by omega)
      simpa using this
    have hpos : (0 : ℚ) < (2 : ℚ) ^ j := by positivity
    have hkq : |(k : ℚ)| ≤ 2 ^ 24 := by
      rw [← Int.cast_abs]; exact_mod_cast hk
    have hq : |(k : ℚ) * (2 : ℚ) ^ j| ≤ 2 ^ 23 := by
      rw [abs_mul, abs_of_pos hpos]
      calc |(k : ℚ)| * (2 : ℚ) ^ j ≤ 2 ^ 24 * (1 / 2) :=
            mul_le_mul hkq hpow hpos.le (by norm_num)
        _ = 2 ^ 23 := by norm_num
    obtain ⟨hq1, hq2⟩ := abs_le.mp hq
    rw [abs_le]
    constructor
    · have : (-(2 ^ 23) : Int) ≤ ⌊(k : ℚ) * (2 : ℚ) ^ j⌋ := by
        apply Int.le_floor.mpr
        push_cast
        linarith
      omega
    · have : ⌊(k : ℚ) * (2 : ℚ) ^ j⌋ ≤ (2 ^ 23 : Int) := by
        have h1 : ((⌊(k : ℚ) * (2 : ℚ) ^ j⌋ : Int) : ℚ) ≤ ((2 ^ 23 : Int) : ℚ) := by
          push_cast
          exact (Int.floor_le _).trans hq2
        exact_mod_cast h1
      omega

/-- The fractional part of a non-negative `float` is a `float`, and at most `1 - 2^-24`. -/
theorem rep32_fract (q : ℚ) (h : Rep binary32 q) (h0 : 0 ≤ q) :
    Rep binary32 (q - (⌊q⌋ : Int)) ∧ q - (⌊q⌋ : Int) ≤ 1 - 1 / 2 ^ 24 := by
  have hp32 : 1 ≤ binary32.prec := by simp [binary32]
  have hfl : q - (⌊q⌋ : Int) < 1 := by linarith [Int.lt_floor_add_one q]
  have hfl0 : 0 ≤ q - (⌊q⌋ : Int) := by linarith [Int.floor_le q]
  -- being a `float` below 1, the fractional part is a multiple of `2^-24` if it is
  -- at least a half
  have key : Rep binary32 (q - (⌊q⌋ : Int)) → q - (⌊q⌋ : Int) ≤ 1 - 1 / 2 ^ 24 := by
    intro hr
    by_cases hhalf : q - (⌊q⌋ : Int) < 1 / 2
    · have : (1 : ℚ) / 2 ≤ 1 - 1 / 2 ^ 24 := by norm_num
      linarith
    · push_neg at hhalf
      set d := q - (⌊q⌋ : Int) with hd
      have hd0 : d ≠ 0 := by linarith
      have hfix := roundQ_of_rep binary32 hp32 d hr
      have hlog : ilog2 d = -1 := by
        obtain ⟨l1, l2⟩ := ilog2_spec d hd0
        rw [abs_of_nonneg hfl0] at l1 l2
        have a1 : (2 : ℚ) ^ ilog2 d < (2 : ℚ) ^ (0 : Int) := by
          rw [zpow_zero]; exact lt_of_le_of_lt l1 hfl
        have a2 : (2 : ℚ) ^ (-1 : Int) < (2 : ℚ) ^ (ilog2 d + 1) := by
          refine lt_of_le_of_lt ?_ l2
          have : (2 : ℚ) ^ (-1 : Int) = 1 / 2 := by norm_num
          rw [this]; exact hhalf
        have b1 := (zpow_lt_zpow_iff_right₀ (by norm_num : (1 : ℚ) < 2)).mp a1
        have b2 := (zpow_lt_zpow_iff_right₀ (by norm_num : (1 : ℚ) < 2)).mp a2
        omega
      have hq : quantum binary32 d = 1 / 2 ^ 24 := by
        rw [quantum_eq, hlog]
        simp only [binary32]
        norm_num
      rw [roundQ_of_ne binary32 d hd0, hq] at hfix
      -- d = N / 2^24 with N an integer below 2^24
      have hN : ((rne (d / (1 / 2 ^ 24)) : Int) : ℚ) < 2 ^ 24 := by
        have : ((rne (d / (1 / 2 ^ 24)) : Int) : ℚ) = d * 2 ^ 24 := by
          have := hfix
          field_simp at this ⊢
          linarith
        rw [this]
        linarith
      have hN' : rne (d / (1 / 2 ^ 24)) ≤ 2 ^ 24 - 1 := by
        have : rne (d / (1 / 2 ^ 24)) < 2 ^ 24 := by exact_mod_cast hN
        omega
      have hN'' : ((rne (d / (1 / 2 ^ 24)) : Int) : ℚ) ≤ 2 ^ 24 - 1 := by exact_mod_cast hN'
      rw [← hfix]
      have : (0 : ℚ) < 1 / 2 ^ 24 := by positivity
      calc ((rne (d / (1 / 2 ^ 24)) : Int) : ℚ) * (1 / 2 ^ 24)
          ≤ (2 ^ 24 - 1) * (1 / 2 ^ 24) := mul_le_mul_of_nonneg_right hN'' this.le
        _ = 1 - 1 / 2 ^ 24 := by norm_num
  suffices hr : Rep binary32 (q - (⌊q⌋ : Int)) from ⟨hr, key hr⟩
  obtain ⟨k, j, rfl, hk, hj⟩ := h
  simp only [binary32] at hk hj
  push_cast at hj
  by_cases hj0 : 0 ≤ j
  · obtain ⟨n, rfl⟩ := Int.eq_ofNat_of_zero_le hj0
    have e : (k : ℚ) * (2 : ℚ) ^ ((n : Int)) = ((k * 2 ^ n : Int) : ℚ) := by
      push_cast; rw [zpow_natCast]
    rw [e, Int.floor_intCast, sub_self]
    exact ⟨0, 0, by simp, by simp, by simp [binary32]⟩
  · push_neg at hj0
    obtain ⟨n, hn⟩ := Int.eq_ofNat_of_zero_le (show 0 ≤ -j by omega)
    have hj' : j = -(n : Int) := by omega
    have hpos : (0 : ℚ) < (2 : ℚ) ^ j := by positivity
    have hk0 : 0 ≤ k := by
      have : (0 : ℚ) ≤ (k : ℚ) := by
        by_contra hc
        push_neg at hc
        have := mul_neg_of_neg_of_pos hc hpos
        linarith
      exact_mod_cast this
    have e : (k : ℚ) * (2 : ℚ) ^ j = (k : ℚ) / ((2 ^ n : Int) : ℚ) := by
      rw [hj', zpow_neg, zpow_natCast]; push_cast; ring
    have hfloor : ⌊(k : ℚ) * (2 : ℚ) ^ j⌋ = k / 2 ^ n := by
      rw [e]
      have := Rat.floor_intCast_div_natCast k (2 ^ n)
      push_cast at this ⊢
      exact this
    refine ⟨k % 2 ^ n, j, ?_, ?_, by simp only [binary32]; push_cast; omega⟩
    · rw [hfloor]
      have h2 : (2 : ℚ) ^ j * ((2 ^ n : Int) : ℚ) = 1 := by
        rw [hj', zpow_neg, zpow_natCast]; push_cast
        field_simp
      have hdm : k = 2 ^ n * (k / 2 ^ n) + k % 2 ^ n := (Int.ediv_add_emod k (2 ^ n)).symm
      have hdm' : (k : ℚ) = ((2 ^ n : Int) : ℚ) * ((k / 2 ^ n : Int) : ℚ) + ((k % 2 ^ n : Int) : ℚ) := by
        exact_mod_cast hdm
      linear_combination ((2 : ℚ) ^ j) * hdm' + ((k / 2 ^ n : Int) : ℚ) * h2
    · have h1 : 0 ≤ k % 2 ^ n := Int.emod_nonneg _ (by positivity)
      have hm : (0 : Int) < 2 ^ n := by positivity
      have hdiv : 0 ≤ k / 2 ^ n := Int.ediv_nonneg hk0 hm.le
      have hdm : k = 2 ^ n * (k / 2 ^ n) + k % 2 ^ n := (Int.ediv_add_emod k (2 ^ n)).symm
      have h2 : k % 2 ^ n ≤ k := by nlinarith [mul_nonneg hm.le hdiv]
      rw [abs_of_nonneg h1]
      have hk' : k ≤ 2 ^ 24 := (le_abs_self k).trans hk
      simpa [binary32] using h2.trans hk'

theorem roundQ32_one : roundQ binary32 1 = 1 := by decide!

theorem roundQ32_sixty : roundQ binary32 60 = 60 := by decide!

theorem roundQ32_below_sixty :
    roundQ binary32 (60 * (1 - 1 / 2 ^ 24)) = 60 - 1 / 262144 := by
  have : (60 : ℚ) * (1 - 1 / 2 ^ 24) = 251658225 / 4194304 := by norm_num
  rw [this]
  have h : roundQ binary32 (251658225 / 4194304) = 15728639 / 262144 := by decide!
  rw [h]; norm_num

/-- Lines 100-101 (and 104-105) on a finite pace whose floor fits an `int`: the minutes are
the floor, the seconds are the truncation of `60 * (pace - floor)`, computed in `float`. -/
theorem pace_split (q : ℚ) (hrep : Rep binary32 q) (hlo : -2147483648 ≤ ⌊q⌋)
    (hhi : ⌊q⌋ ≤ 2147483647) :
    pace_min (.fin q) = ⌊q⌋ ∧
    pace_secs (.fin q) = truncQ (roundQ binary32 (60 * roundQ binary32 (q - (⌊q⌋ : Int)))) ∧
    0 ≤ roundQ binary32 (60 * roundQ binary32 (q - (⌊q⌋ : Int))) ∧
    roundQ binary32 (60 * roundQ binary32 (q - (⌊q⌋ : Int))) ≤ 60 := by
  have hp32 : 1 ≤ binary32.prec := by simp [binary32]
  have hmin : pace_min (.fin q) = ⌊q⌋ := by
    simp only [pace_min, ffloor, toInt, truncQ_int]
    rw [if_pos ⟨hlo, hhi⟩]
  have h128 : ∀ x : ℚ, |x| ≤ 2147483648 → |x| < (2 : ℚ) ^ (binary32.emax + 1) := by
    intro x hx
    refine lt_of_le_of_lt hx ?_
    simp only [binary32]
    norm_num
  -- the int converted back to `float`
  have hfl := roundQ_of_rep binary32 hp32 _ (rep32_floor q hrep)
  have hflabs : |((⌊q⌋ : Int) : ℚ)| ≤ 2147483648 := by
    rw [abs_le]
    constructor
    · have : ((-2147483648 : Int) : ℚ) ≤ ((⌊q⌋ : Int) : ℚ) := by exact_mod_cast hlo
      push_cast at this; linarith
    · have : ((⌊q⌋ : Int) : ℚ) ≤ ((2147483647 : Int) : ℚ) := by exact_mod_cast hhi
      push_cast at this; linarith
  obtain ⟨a1, a2, a3⟩ := pack_finite binary32 false ((⌊q⌋ : Int) : ℚ)
    (by rw [hfl]; exact h128 _ hflabs)
  rw [hfl] at a3
  -- the difference
  have hd0 : 0 ≤ q - (⌊q⌋ : Int) := by linarith [Int.floor_le q]
  have hd1 : q - (⌊q⌋ : Int) ≤ 1 := by linarith [Int.lt_floor_add_one q]
  have hr0 : 0 ≤ roundQ binary32 (q - (⌊q⌋ : Int)) := roundQ_nonneg _ hp32 _ hd0
  have hr1 : roundQ binary32 (q - (⌊q⌋ : Int)) ≤ 1 := by
    have := roundQ_mono binary32 hp32 _ _ hd1
    rwa [roundQ32_one] at this
  obtain ⟨neg, hsub⟩ := fsub_finite binary32 (.fin q) (ofInt binary32 ⌊q⌋)
    (by simp [FP.isNaN]) (by simp [FP.isInf]) a1 a2
  have a3' : (ofInt binary32 ⌊q⌋).val = ((⌊q⌋ : Int) : ℚ) := a3
  have a4 : (FP.fin q).val = q := rfl
  rw [a3', a4] at hsub
  obtain ⟨b1, b2, b3⟩ := pack_finite binary32 neg (q - (⌊q⌋ : Int))
    (h128 _ (by rw [abs_of_nonneg hr0]; linarith))
  -- the product with 60
  have hs0 : 0 ≤ roundQ binary32 (60 * roundQ binary32 (q - (⌊q⌋ : Int))) :=
    roundQ_nonneg _ hp32 _ (by linarith)
  have hs1 : roundQ binary32 (60 * roundQ binary32 (q - (⌊q⌋ : Int))) ≤ 60 := by
    have := roundQ_mono binary32 hp32 (60 * roundQ binary32 (q - (⌊q⌋ : Int))) 60 (by linarith)
    rwa [roundQ32_sixty] at this
  have hmul := fmul_finite binary32 (ofInt binary32 60) (pack binary32 neg (q - (⌊q⌋ : Int)))
    (by rw [ofInt32_sixty]; rfl) (by rw [ofInt32_sixty]; rfl) b1 b2
  rw [b3] at hmul
  have h60v : (ofInt binary32 60).val = 60 := by rw [ofInt32_sixty]; rfl
  rw [h60v] at hmul
  obtain ⟨c1, c2, c3⟩ := pack_finite binary32
    (xor (ofInt binary32 60).sgn (pack binary32 neg (q - (⌊q⌋ : Int))).sgn)
    (60 * roundQ binary32 (q - (⌊q⌋ : Int)))
    (h128 _ (by rw [abs_of_nonneg hs0]; linarith))
  refine ⟨hmin, ?_, hs0, hs1⟩
  have htr0 : 0 ≤ ⌊roundQ binary32 (60 * roundQ binary32 (q - (⌊q⌋ : Int)))⌋ :=
    Int.floor_nonneg.mpr hs0
  have htr1 : ⌊roundQ binary32 (60 * roundQ binary32 (q - (⌊q⌋ : Int)))⌋ ≤ 60 := by
    have : ⌊roundQ binary32 (60 * roundQ binary32 (q - (⌊q⌋ : Int)))⌋ ≤ ⌊(60 : ℚ)⌋ :=
      Int.floor_le_floor hs1
    have e : ⌊(60 : ℚ)⌋ = 60 := by simp
    omega
  unfold pace_secs
  rw [hmin, hsub, hmul]
  rw [toInt_finite _ c1 c2 (by rw [c3, truncQ_of_nonneg _ hs0]; omega)
    (by rw [c3, truncQ_of_nonneg _ hs0]; omega), c3]

/-- The seconds of a non-negative pace lie in `0..59`. -/
theorem pace_secs_range (q : ℚ) (hrep : Rep binary32 q) (h0 : 0 ≤ q) (hhi : ⌊q⌋ ≤ 2147483647) :
    0 ≤ pace_secs (.fin q) ∧ pace_secs (.fin q) ≤ 59 := by
  have hp32 : 1 ≤ binary32.prec := by simp [binary32]
  have hfl0 : (0 : Int) ≤ ⌊q⌋ := Int.floor_nonneg.mpr h0
  obtain ⟨_, hs, hs0, _⟩ := pace_split q hrep (by omega) hhi
  obtain ⟨hr, hb⟩ := rep32_fract q hrep h0
  rw [roundQ_of_rep binary32 hp32 _ hr] at hs hs0
  rw [hs, truncQ_of_nonneg _ hs0]
  refine ⟨Int.floor_nonneg.mpr hs0, ?_⟩
  have h1 : roundQ binary32 (60 * (q - (⌊q⌋ : Int))) ≤ 60 - 1 / 262144 := by
    have := roundQ_mono binary32 hp32 (60 * (q - (⌊q⌋ : Int))) (60 * (1 - 1 / 2 ^ 24))
      (by linarith)
    rwa [roundQ32_below_sixty] at this
  have h2 : ⌊roundQ binary32 (60 * (q - (⌊q⌋ : Int)))⌋ < 60 := by
    apply Int.floor_lt.mpr
    push_cast
    have : (60 : ℚ) - 1 / 262144 < 60 := by norm_num
    linarith
  omega

/-- Lines 44-56 of `fmt_time` on a duration of at least an hour whose hours fit an `int`. -/
theorem fmt_time_ge (t : ℚ) (h60 : 60 ≤ t) (hhi : roundQ binary32 (t / 60) < 2147483648) :
    fmt_time (.fin t) =
      (if pace_secs (.fin (roundQ binary32 (t / 60))) = 0 then
        to_string ⌊roundQ binary32 (t / 60)⌋ ++ "h"
      else if pace_secs (.fin (roundQ binary32 (t / 60))) < 10 then
        to_string ⌊roundQ binary32 (t / 60)⌋ ++ "h" ++
          ("0" ++ to_string (pace_secs (.fin (roundQ binary32 (t / 60)))))
      else
        to_string ⌊roundQ binary32 (t / 60)⌋ ++ "h" ++
          to_string (pace_secs (.fin (roundQ binary32 (t / 60))))) ∧
    1 ≤ ⌊roundQ binary32 (t / 60)⌋ ∧ ⌊roundQ binary32 (t / 60)⌋ ≤ 2147483647 ∧
    0 ≤ pace_secs (.fin (roundQ binary32 (t / 60))) ∧
    pace_secs (.fin (roundQ binary32 (t / 60))) ≤ 59 := by
  have hp32 : 1 ≤ binary32.prec := by simp [binary32]
  set h := roundQ binary32 (t / 60) with hh
  have hrep : Rep binary32 h := roundQ_rep binary32 _
  have h1 : 1 ≤ h := by
    have := roundQ_mono binary32 hp32 1 (t / 60) (by rw [le_div_iff₀ (by norm_num)]; linarith)
    rwa [roundQ32_one] at this
  have hf1 : 1 ≤ ⌊h⌋ := Int.le_floor.mpr (by exact_mod_cast h1)
  have hf2 : ⌊h⌋ ≤ 2147483647 := by
    have : ⌊h⌋ < 2147483648 := Int.floor_lt.mpr (by exact_mod_cast hhi)
    omega
  obtain ⟨hmin, _, _, _⟩ := pace_split h hrep (by omega) hf2
  obtain ⟨hs0, hs1⟩ := pace_secs_range h hrep (by linarith) hf2
  refine ⟨?_, hf1, hf2, hs0, hs1⟩
  have hlt : flt (.fin t) (ofInt binary32 60) = false := by
    rw [ofInt32_sixty]
    simp [flt, FP.isNaN, FP.isInf, FP.val, h60]
  have hdiv : fdiv binary32 (.fin t) (ofInt binary32 60) = .fin h := by
    rw [ofInt32_sixty]
    unfold fdiv
    simp only [FP.isNaN, FP.isInf, FP.isZero, FP.val, Bool.false_eq_true, if_false]
    rw [if_neg (by simp)]
    exact pack_of_bounds binary32 _ _ (by linarith)
      (by rw [abs_of_nonneg (by linarith)]
          refine lt_trans hhi ?_
          simp only [binary32]; norm_num)
  unfold fmt_time
  rw [hlt, hdiv]
  simp only [Bool.false_eq_true, if_false]
  have e1 : toInt (ffloor (.fin h)) = ⌊h⌋ := hmin
  have e2 : toInt (fmul binary32 (ofInt binary32 60)
      (fsub binary32 (.fin h) (ofInt binary32 ⌊h⌋))) = pace_secs (.fin h) := by
    unfold pace_secs; rw [hmin]
  rw [e1, e2]

/-- A finite product is a number of the format, within its range. -/
theorem fmul_eq_fin (fmt : Fmt) (a b : FP) (m : ℚ) (h : fmul fmt a b = .fin m) :
    Rep fmt m ∧ |m| < (2 : ℚ) ^ (fmt.emax + 1) := by
  unfold fmul at h
  split_ifs at h with h1 h2 h3 h4
  · subst h; simp [FP.isNaN] at h1
  · subst h; simp [FP.isNaN] at h2
  · obtain ⟨e, hb⟩ := pack_eq_fin _ _ _ _ h
    exact ⟨e ▸ roundQ_rep fmt _, hb⟩

/-- A finite quotient is a number of the format, within its range. -/
theorem fdiv_eq_fin (fmt : Fmt) (a b : FP) (m : ℚ) (h : fdiv fmt a b = .fin m) :
    Rep fmt m ∧ |m| < (2 : ℚ) ^ (fmt.emax + 1) := by
  unfold fdiv at h
  split_ifs at h with h1 h2 h3 h4 h5 h6 h7
  · subst h; simp [FP.isNaN] at h1
  · subst h; simp [FP.isNaN] at h2
  · injection h with h
    subst h
    exact ⟨roundQ_zero fmt ▸ roundQ_rep fmt 0, by rw [abs_zero]; positivity⟩
  · obtain ⟨e, hb⟩ := pack_eq_fin _ _ _ _ h
    exact ⟨e ▸ roundQ_rep fmt _, hb⟩

/-- A finite number delivered by `stof` is a `float`. -/
theorem stof_eq_fin (s : String) (q : ℚ) (h : stof s = .ok (.fin q)) :
    Rep binary32 q ∧ |q| < (2 : ℚ) ^ (128 : Int) := by
  unfold stof at h
  simp only at h
  split at h
  · cases h
  · cases h
  · cases h
  · split_ifs at h
    all_goals first
      | (obtain ⟨e, hb⟩ := pack_eq_fin _ _ _ _ (Except.ok.inj h)
         exact ⟨e ▸ roundQ_rep binary32 _, by simpa [binary32] using hb⟩)
      | (cases h
         exact ⟨roundQ_zero binary32 ▸ roundQ_rep binary32 0, by rw [abs_zero]; positivity⟩)
      | cases h

theorem val_nonneg_of_sgn (a : FP) (h : a.sgn = false) : 0 ≤ a.val := by
  cases a with
  | fin q => simpa [FP.sgn, FP.val] using h
  | nzero => simp [FP.sgn] at h
  | inf n => simp [FP.val]
  | nan n => simp [FP.val]

theorem sgn_pack (fmt : Fmt) (hp : 1 ≤ fmt.prec) (x : ℚ) (hx : 0 ≤ x) :
    (pack fmt false x).sgn = false := by
  have h0 := roundQ_nonneg fmt hp x hx
  unfold pack
  simp only [Bool.false_eq_true, if_false]
  split_ifs with h1 h2
  · simp [FP.sgn]
  · simp [FP.sgn, not_lt.mpr h0]
  · simp [FP.sgn, not_lt.mpr h0]

theorem sgn_cvt (fmt : Fmt) (hp : 1 ≤ fmt.prec) (a : FP) (h : a.sgn = false) :
    (cvt fmt a).sgn = false := by
  cases a with
  | fin q =>
    have hq : 0 ≤ q := val_nonneg_of_sgn _ h
    have : decide (q < 0) = false := by simpa using hq
    simp only [cvt, this]
    exact sgn_pack fmt hp q hq
  | nzero => simp [FP.sgn] at h
  | inf n => simpa [cvt] using h
  | nan n => simpa [cvt] using h

theorem isNaN_pack (fmt : Fmt) (neg : Bool) (x : ℚ) : (pack fmt neg x).isNaN = false := by
  unfold pack
  simp only
  split_ifs <;> simp [FP.isNaN]

theorem isNaN_cvt (fmt : Fmt) (a : FP) (h : a.isNaN = false) : (cvt fmt a).isNaN = false := by
  cases a with
  | fin q => exact isNaN_pack fmt _ q
  | nzero => simp [cvt, FP.isNaN]
  | inf n => simp [cvt, FP.isNaN]
  | nan n => simp [FP.isNaN] at h

/-- The product of a non-negative datum with a positive constant is not negative (and not
a NaN). -/
theorem sgn_fmul_pos (fmt : Fmt) (hp : 1 ≤ fmt.prec) (a : FP) (c : ℚ) (hc : 0 < c)
    (ha : a.sgn = false) (han : a.isNaN = false) :
    (fmul fmt a (.fin c)).sgn = false ∧ (fmul fmt a (.fin c)).isNaN = false := by
  have hv := val_nonneg_of_sgn a ha
  have hcs : (FP.fin c).sgn = false := by simp [FP.sgn, hc.le]
  unfold fmul
  rw [if_neg (by simp [han]), if_neg (by simp [FP.isNaN])]
  have hz : (FP.fin c).isZero = false := by simp [FP.isZero, hc.ne']
  split_ifs with h1 h2
  · simp [hz] at h2
    cases a with
    | fin q => simp [FP.isInf] at h1
    | nzero => simp [FP.isInf] at h1
    | inf n => simp [FP.isZero] at h2
    | nan n => simp [FP.isNaN] at han
  · refine ⟨?_, rfl⟩
    show xor a.sgn (FP.fin c).sgn = false
    rw [ha, hcs]; rfl
  · rw [ha, hcs]
    exact ⟨sgn_pack fmt hp _ (mul_nonneg hv hc.le), isNaN_pack _ _ _⟩

/-- A finite quotient of two non-negative data is not negative. -/
theorem fdiv_nonneg (fmt : Fmt) (hp : 1 ≤ fmt.prec) (a b : FP) (q : ℚ)
    (ha : a.sgn = false) (hb : b.sgn = false) (h : fdiv fmt a b = .fin q) : 0 ≤ q := by
  have hva := val_nonneg_of_sgn a ha
  have hvb := val_nonneg_of_sgn b hb
  unfold fdiv at h
  split_ifs at h with h1 h2 h3 h4 h5 h6 h7
  · subst h; simp [FP.isNaN] at h1
  · subst h; simp [FP.isNaN] at h2
  · injection h with h
    exact h ▸ le_rfl
  · obtain ⟨e, _⟩ := pack_eq_fin _ _ _ _ h
    rw [e]
    exact roundQ_nonneg fmt hp _ (div_nonneg hva hvb)

theorem rne_abs_le (t : ℚ) : |t - (rne t : ℚ)| ≤ 1 / 2 := by
  have hf1 : ((⌊t⌋ : Int) : ℚ) ≤ t := Int.floor_le t
  have hf2 : t < ((⌊t⌋ : Int) : ℚ) + 1 := Int.lt_floor_add_one t
  rcases rne_cases t with ⟨h, hr⟩ | ⟨h, hr⟩
  · rw [h, abs_of_nonneg (by linarith)]; exact hr
  · rw [h]; push_cast; rw [abs_of_nonpos (by linarith)]; linarith

/-- The relative error of rounding a number of normal magnitude is at most `2 ^ -prec`. -/
theorem roundQ_rel (fmt : Fmt) (x : ℚ) (hx : (2 : ℚ) ^ fmt.emin ≤ |x|) :
    |x - roundQ fmt x| ≤ |x| * (2 : ℚ) ^ (-(fmt.prec : Int)) := by
  have two_ne : (2 : ℚ) ≠ 0 := by norm_num
  have hx0 : x ≠ 0 := by
    intro h
    rw [h, abs_zero] at hx
    have : (0 : ℚ) < (2 : ℚ) ^ fmt.emin := by positivity
    linarith
  obtain ⟨l1, l2⟩ := ilog2_spec x hx0
  have hle : fmt.emin ≤ ilog2 x := by
    have := lt_of_le_of_lt hx l2
    have := (zpow_lt_zpow_iff_right₀ (by norm_num : (1 : ℚ) < 2)).mp this
    omega
  have hq : quantum fmt x = (2 : ℚ) ^ (ilog2 x - ((fmt.prec : Int) - 1)) := by
    rw [quantum_eq, max_eq_left hle]
  have hu : 0 < quantum fmt x := by rw [hq]; positivity
  rw [roundQ_of_ne fmt x hx0]
  have e1 : x - (rne (x / quantum fmt x) : ℚ) * quantum fmt x =
      quantum fmt x * (x / quantum fmt x - (rne (x / quantum fmt x) : ℚ)) := by
    field_simp; ring
  rw [e1, abs_mul, abs_of_pos hu]
  calc quantum fmt x * |x / quantum fmt x - (rne (x / quantum fmt x) : ℚ)|
      ≤ quantum fmt x * (1 / 2) := mul_le_mul_of_nonneg_left (rne_abs_le _) hu.le
    _ = (2 : ℚ) ^ ilog2 x * (2 : ℚ) ^ (-(fmt.prec : Int)) := by
        rw [hq, ← zpow_add₀ two_ne]
        have : ilog2 x - ((fmt.prec : Int) - 1) = (ilog2 x + -(fmt.prec : Int)) + 1 := by ring
        rw [this, zpow_add₀ two_ne, zpow_one]
        ring
    _ ≤ |x| * (2 : ℚ) ^ (-(fmt.prec : Int)) :=
        mul_le_mul_of_nonneg_right l1 (by positivity)

/-- For a positive number of normal magnitude, the rounded value is within the factors
`1 - 2 ^ -prec` and `1 + 2 ^ -prec` of it. -/
theorem roundQ_between (fmt : Fmt) (x : ℚ) (hx : (2 : ℚ) ^ fmt.emin ≤ x) :
    x * (1 - (2 : ℚ) ^ (-(fmt.prec : Int))) ≤ roundQ fmt x ∧
    roundQ fmt x ≤ x * (1 + (2 : ℚ) ^ (-(fmt.prec : Int))) := by
  have hx0 : 0 < x := lt_of_lt_of_le (by positivity) hx
  have h := roundQ_rel fmt x (by rwa [abs_of_pos hx0])
  rw [abs_of_pos hx0] at h
  obtain ⟨h1, h2⟩ := abs_le.mp h
  constructor <;> linarith

theorem to_string_nat (n : Int) (h : 0 ≤ n) : to_string n = toString n.toNat := by
  obtain ⟨k, rfl⟩ := Int.eq_ofNat_of_zero_le h
  rfl

theorem two_digits :
    ∀ m : Nat, m < 60 → (if m < 10 then "0" ++ toString m else toString m).length = 2 := by
  decide!

/-- The text of the summary line and the table behind it. -/
theorem summary_table (dist_k dist_m : FP) (t : String) (time pace : FP) :
    summary dist_k dist_m t time ++ display_distances pace =
      fixed1 dist_k ++ " km / " ++ fixed1 dist_m ++ " miles in " ++ t ++ ": " ++
        toString (pace_min (fdiv binary32 time dist_k)) ++ ":" ++
        setw2 (pace_secs (fdiv binary32 time dist_k)) ++ "/km, " ++
        toString (pace_min (fdiv binary32 time dist_m)) ++ ":" ++
        setw2 (pace_secs (fdiv binary32 time dist_m)) ++ "/mile\n" ++
        display_distances pace := by
  have e1 : ∀ X : String, ":" ++ (" " ++ X) = ": " ++ X :=
    fun X => by rw [← String.append_assoc]; rfl
  have e2 : ∀ X : String, "/km" ++ (", " ++ X) = "/km, " ++ X :=
    fun X => by rw [← String.append_assoc]; rfl
  have e3 : ∀ X : String, "/mile" ++ ("\n" ++ X) = "/mile\n" ++ X :=
    fun X => by rw [← String.append_assoc]; rfl
  simp only [summary, String.append_assoc, e1, e2, e3]

theorem sgn_fdiv_pos (fmt : Fmt) (hp : 1 ≤ fmt.prec) (a : FP) (c : ℚ) (hc : 0 < c)
    (ha : a.sgn = false) (han : a.isNaN = false) :
    (fdiv fmt a (.fin c)).sgn = false ∧ (fdiv fmt a (.fin c)).isNaN = false := by
  have hv := val_nonneg_of_sgn a ha
  have hcs : (FP.fin c).sgn = false := by simp [FP.sgn, hc.le]
  have hcz : (FP.fin c).isZero = false := by simp [FP.isZero, hc.ne.symm]
  unfold fdiv
  rw [han]
  simp only [FP.isNaN, FP.isInf, Bool.false_eq_true, if_false, hcz]
  split_ifs with h1
  · refine ⟨?_, rfl⟩
    show xor a.sgn (FP.fin c).sgn = false
    rw [ha, hcs]; rfl
  · rw [ha, hcs]
    exact ⟨sgn_pack fmt hp _ (div_nonneg hv hc.le), isNaN_pack fmt _ _⟩

/-- A seconds count between 0 and 59 is written by `setw2` as two decimal digits. -/
theorem setw2_two (n : Int) (h0 : 0 ≤ n) (h1 : n ≤ 59) :
    (setw2 n).length = 2 ∧
    setw2 n = (if n < 10 then "0" ++ toString n.toNat else toString n.toNat) := by
  have key : ∀ k : Nat, k < 60 → (setw2 (k : Int)).length = 2 ∧
      setw2 (k : Int) = (if (k : Int) < 10 then "0" ++ toString (k : Int).toNat
        else toString (k : Int).toNat) := by
    decide!
  obtain ⟨k, rfl⟩ := Int.eq_ofNat_of_zero_le h0
  exact key k (by omega)

/-- A result that is a number of the format, not zero and within range, is delivered
as it is. -/
theorem pack_rep (fmt : Fmt) (hp : 1 ≤ fmt.prec) (neg : Bool) (x : ℚ) (hr : Rep fmt x)
    (h0 : x ≠ 0) (hb : |x| < (2 : ℚ) ^ (fmt.emax + 1)) : pack fmt neg x = .fin x := by
  have e := roundQ_of_rep fmt hp x hr
  have := pack_of_bounds fmt neg x (by rw [e]; exact h0) (by rw [e]; exact hb)
  rw [this, e]

theorem fmul_fin (fmt : Fmt) (a b : ℚ) :
    fmul fmt (.fin a) (.fin b) = pack fmt (xor (decide (a < 0)) (decide (b < 0))) (a * b) := by
  simp [fmul, FP.isNaN, FP.isInf, FP.val, FP.sgn]

theorem fdiv_fin (fmt : Fmt) (a b : ℚ) (hb : b ≠ 0) :
    fdiv fmt (.fin a) (.fin b) = pack fmt (xor (decide (a < 0)) (decide (b < 0))) (a / b) := by
  simp [fdiv, FP.isNaN, FP.isInf, FP.val, FP.sgn, FP.isZero, hb]

/-! ## Unit conversion -/

theorem roundQ32_between (x : ℚ) (hx : 1 / 2 ^ 126 ≤ x) :
    x * (1 - 1 / 2 ^ 24) ≤ roundQ binary32 x ∧ roundQ binary32 x ≤ x * (1 + 1 / 2 ^ 24) := by
  have e1 : (2 : ℚ) ^ binary32.emin = 1 / 2 ^ 126 := by
    simp only [binary32]
    rw [show (-126 : Int) = -((126 : Nat) : Int) by norm_num, zpow_neg, zpow_natCast, one_div]
  have e2 : (2 : ℚ) ^ (-(binary32.prec : Int)) = 1 / 2 ^ 24 := by
    simp only [binary32]
    rw [zpow_neg, zpow_natCast, one_div]
  have := roundQ_between binary32 x (by rw [e1]; exact hx)
  rwa [e2] at this

theorem roundQ64_between (x : ℚ) (hx : 1 / 2 ^ 1022 ≤ x) :
    x * (1 - 1 / 2 ^ 53) ≤ roundQ binary64 x ∧ roundQ binary64 x ≤ x * (1 + 1 / 2 ^ 53) := by
  have e1 : (2 : ℚ) ^ binary64.emin = 1 / 2 ^ 1022 := by
    simp only [binary64]
    rw [show (-1022 : Int) = -((1022 : Nat) : Int) by norm_num, zpow_neg, zpow_natCast, one_div]
  have e2 : (2 : ℚ) ^ (-(binary64.prec : Int)) = 1 / 2 ^ 53 := by
    simp only [binary64]
    rw [zpow_neg, zpow_natCast, one_div]
  have := roundQ_between binary64 x (by rw [e1]; exact hx)
  rwa [e2] at this

/-- The powers of two are numbers of both formats, within the exponent range. -/
theorem rep_two_pow (fmt : Fmt) (j : Int) (hj : fmt.emin - ((fmt.prec : Int) - 1) ≤ j) :
    Rep fmt ((2 : ℚ) ^ j) :=
  ⟨1, j, by simp, by
    rw [abs_one]
    exact one_le_pow₀ (by norm_num), hj⟩

theorem emax64 : (2 : ℚ) ^ 128 ≤ (2 : ℚ) ^ (binary64.emax + 1) := by
  have : (2 : ℚ) ^ 128 = (2 : ℚ) ^ (128 : Int) := by norm_cast
  rw [this]
  exact zpow_le_zpow_right₀ (by norm_num) (by simp [binary64])

theorem emax32 : (2 : ℚ) ^ (binary32.emax + 1) = 2 ^ 128 := by
  simp only [binary32]
  norm_cast

/-- A `float` of normal magnitude times a `double` constant between 1/2 and 2, narrowed to
`float` (lines 79 and 82): the result and its distance from the exact product. -/
theorem conv_bounds (c x : ℚ) (hc1 : 1 / 2 ≤ c) (hc2 : c ≤ 2) (hrep : Rep binary32 x)
    (hlo : 1 / 2 ^ 124 ≤ x) (hhi : x ≤ 2 ^ 126) :
    cvt binary32 (fmul binary64 (cvt binary64 (.fin x)) (.fin c)) =
      .fin (roundQ binary32 (roundQ binary64 (x * c))) ∧
    x * c * ((1 - 1 / 2 ^ 53) * (1 - 1 / 2 ^ 24)) ≤ roundQ binary32 (roundQ binary64 (x * c)) ∧
    roundQ binary32 (roundQ binary64 (x * c)) ≤ x * c * ((1 + 1 / 2 ^ 53) * (1 + 1 / 2 ^ 24)) := by
  have hp32 : 1 ≤ binary32.prec := by simp [binary32]
  have hp64 : 1 ≤ binary64.prec := by simp [binary64]
  have hx0 : 0 < x := lt_of_lt_of_le (by norm_num) hlo
  have hc0 : 0 < c := lt_of_lt_of_le (by norm_num) hc1
  have hxc0 : 0 < x * c := mul_pos hx0 hc0
  have hxc1 : 1 / 2 ^ 125 ≤ x * c := by
    have := mul_le_mul hlo hc1 (by norm_num) hx0.le
    refine le_trans (by norm_num) this
  have hxc2 : x * c ≤ 2 ^ 127 := by
    have := mul_le_mul hhi hc2 hc0.le (by norm_num)
    refine le_trans this (by norm_num)
  obtain ⟨y1, y2⟩ := roundQ64_between (x * c) (le_trans (by norm_num) hxc1)
  have hy1 : 1 / 2 ^ 126 ≤ roundQ binary64 (x * c) := by
    have := mul_le_mul_of_nonneg_right hxc1 (by norm_num : (0 : ℚ) ≤ 1 - 1 / 2 ^ 53)
    refine le_trans (le_trans (by norm_num) this) y1
  have hy0 : 0 < roundQ binary64 (x * c) := lt_of_lt_of_le (by norm_num) hy1
  have hy2 : roundQ binary64 (x * c) ≤ 2 ^ 127 * (1 + 1 / 2 ^ 53) :=
    le_trans y2 (mul_le_mul_of_nonneg_right hxc2 (by norm_num))
  obtain ⟨z1, z2⟩ := roundQ32_between (roundQ binary64 (x * c)) hy1
  have hz0 : 0 < roundQ binary32 (roundQ binary64 (x * c)) :=
    lt_of_lt_of_le (mul_pos hy0 (by norm_num)) z1
  have hz2 : roundQ binary32 (roundQ binary64 (x * c)) < 2 ^ 128 := by
    have := le_trans z2 (mul_le_mul_of_nonneg_right hy2 (by norm_num))
    refine lt_of_le_of_lt this (by norm_num)
  have s1 : cvt binary64 (.fin x) = .fin x := by
    show pack binary64 (decide (x < 0)) x = _
    refine pack_rep binary64 hp64 _ x (rep32_rep64 x hrep) hx0.ne.symm ?_
    rw [abs_of_pos hx0]
    exact lt_of_lt_of_le (lt_of_le_of_lt hhi (by norm_num)) emax64
  have s2 : fmul binary64 (.fin x) (.fin c) = .fin (roundQ binary64 (x * c)) := by
    rw [fmul_fin]
    refine pack_of_bounds binary64 _ _ hy0.ne.symm ?_
    rw [abs_of_pos hy0]
    exact lt_of_lt_of_le (lt_of_le_of_lt hy2 (by norm_num)) emax64
  have s3 : cvt binary32 (.fin (roundQ binary64 (x * c))) =
      .fin (roundQ binary32 (roundQ binary64 (x * c))) := by
    show pack binary32 (decide (roundQ binary64 (x * c) < 0)) (roundQ binary64 (x * c)) = _
    refine pack_of_bounds binary32 _ _ hz0.ne.symm ?_
    rw [emax32, abs_of_pos hz0]
    exact hz2
  refine ⟨by rw [s1, s2, s3], ?_, ?_⟩
  · calc x * c * ((1 - 1 / 2 ^ 53) * (1 - 1 / 2 ^ 24))
        = x * c * (1 - 1 / 2 ^ 53) * (1 - 1 / 2 ^ 24) := by ring
      _ ≤ roundQ binary64 (x * c) * (1 - 1 / 2 ^ 24) :=
          mul_le_mul_of_nonneg_right y1 (by norm_num)
      _ ≤ _ := z1
  · calc roundQ binary32 (roundQ binary64 (x * c))
        ≤ roundQ binary64 (x * c) * (1 + 1 / 2 ^ 24) := z2
      _ ≤ x * c * (1 + 1 / 2 ^ 53) * (1 + 1 / 2 ^ 24) :=
          mul_le_mul_of_nonneg_right y2 (by norm_num)
      _ = _ := by ring

theorem lit_miles : lit binary64 (62137119 / 100000000) =
    .fin (5596814119485523 / 9007199254740992) := by decide!

theorem lit_km : lit binary64 (1609 / 1000) = .fin (905786475054891 / 562949953421312) := by
  decide!

/-- A finite quotient by a finite non-zero divisor is the rounded exact quotient. -/
theorem fdiv_fin_right (fmt : Fmt) (T : FP) (b q : ℚ) (hb : b ≠ 0)
    (h : fdiv fmt T (.fin b) = .fin q) : q = roundQ fmt (T.val / b) := by
  have hz : (FP.fin b).isZero = false := by simp [FP.isZero, hb]
  unfold fdiv at h
  simp only [FP.isNaN, FP.isInf, hz, Bool.false_eq_true, if_false] at h
  split_ifs at h with h1 h2
  · subst h; simp [FP.isNaN] at h1
  · exact (pack_eq_fin fmt _ _ _ h).1

theorem roundQ32_min_normal : roundQ binary32 (1 / 2 ^ 126) = 1 / 2 ^ 126 := by decide!

/-- Whole minutes and seconds grow with the pace. -/
theorem pace_pair_mono (q1 q2 : ℚ) (h1 : Rep binary32 q1) (h2 : Rep binary32 q2)
    (h0 : 0 ≤ q1) (hle : q1 ≤ q2) (hhi : q2 < 2147483648) :
    pace_min (.fin q1) < pace_min (.fin q2) ∨
      (pace_min (.fin q1) = pace_min (.fin q2) ∧ pace_secs (.fin q1) ≤ pace_secs (.fin q2)) := by
  have hp32 : 1 ≤ binary32.prec := by simp [binary32]
  have hf2 : ⌊q2⌋ ≤ 2147483647 := by
    have : ⌊q2⌋ < 2147483648 := Int.floor_lt.mpr (by exact_mod_cast hhi)
    omega
  have hf1 : (0 : Int) ≤ ⌊q1⌋ := Int.floor_nonneg.mpr h0
  have hf12 : ⌊q1⌋ ≤ ⌊q2⌋ := Int.floor_le_floor hle
  obtain ⟨a1, a2, a3, _⟩ := pace_split q1 h1 (by omega) (by omega)
  obtain ⟨b1, b2, b3, _⟩ := pace_split q2 h2 (by omega) hf2
  rw [a1, b1]
  rcases lt_or_eq_of_le hf12 with hlt | heq
  · exact Or.inl hlt
  · refine Or.inr ⟨heq, ?_⟩
    rw [a2, b2, truncQ_of_nonneg _ a3, truncQ_of_nonneg _ b3]
    refine Int.floor_le_floor (roundQ_mono binary32 hp32 _ _ ?_)
    refine mul_le_mul_of_nonneg_left (roundQ_mono binary32 hp32 _ _ ?_) (by norm_num)
    rw [heq]
    linarith

/-- With a distance in miles at most 0.63 times the distance in km, a pace per km of normal
magnitude is below the pace per mile. -/
theorem pace_lt (T : FP) (dk dm qk qm : ℚ) (hdm0 : 0 < dm) (hd : dm ≤ 63 / 100 * dk)
    (hk : fdiv binary32 T (.fin dk) = .fin qk) (hqk : 1 / 2 ^ 126 < qk)
    (hm : fdiv binary32 T (.fin dm) = .fin qm) : qk < qm := by
  have hp32 : 1 ≤ binary32.prec := by simp [binary32]
  have hdk0 : 0 < dk := by
    by_contra h
    push_neg at h
    have : 63 / 100 * dk ≤ 0 := by nlinarith
    linarith
  have ek := fdiv_fin_right binary32 T dk qk hdk0.ne.symm hk
  have em := fdiv_fin_right binary32 T dm qm hdm0.ne.symm hm
  have hx : 1 / 2 ^ 126 < T.val / dk := by
    by_contra h
    push_neg at h
    have := roundQ_mono binary32 hp32 _ _ h
    rw [roundQ32_min_normal, ← ek] at this
    linarith
  have hx0 : 0 < T.val / dk := lt_trans (by norm_num) hx
  have hT0 : 0 < T.val := by
    have := mul_pos hx0 hdk0
    rwa [div_mul_cancel₀ _ hdk0.ne.symm] at this
  have hxx : T.val / dk * (100 / 63) ≤ T.val / dm := by
    rw [div_mul_eq_mul_div, div_le_div_iff₀ hdk0 hdm0]
    nlinarith
  have hx2 : 1 / 2 ^ 126 ≤ T.val / dm := by
    have : T.val / dk ≤ T.val / dk * (100 / 63) := by nlinarith
    linarith
  obtain ⟨_, u1⟩ := roundQ32_between (T.val / dk) hx.le
  obtain ⟨l2, _⟩ := roundQ32_between (T.val / dm) hx2
  rw [ek, em]
  calc roundQ binary32 (T.val / dk) ≤ T.val / dk * (1 + 1 / 2 ^ 24) := u1
    _ < T.val / dk * (100 / 63 * (1 - 1 / 2 ^ 24)) :=
        mul_lt_mul_of_pos_left (by norm_num) hx0
    _ = T.val / dk * (100 / 63) * (1 - 1 / 2 ^ 24) := by ring
    _ ≤ T.val / dm * (1 - 1 / 2 ^ 24) := mul_le_mul_of_nonneg_right hxx (by norm_num)
    _ ≤ roundQ binary32 (T.val / dm) := l2

/-! ## Pace tokens -/

theorem indexOf_append (c : Char) (l1 l2 : List Char) (h : c ∉ l1) :
    List.indexOf? c (l1 ++ c :: l2) = some l1.length := by
  unfold List.indexOf?
  rw [List.findIdx?_append]
  have h1 : List.findIdx? (fun x => x == c) l1 = none := by
    rw [List.findIdx?_eq_none_iff]
    intro x hx
    simp only [beq_eq_false_iff_ne, ne_eq]
    intro e
    exact h (e ▸ hx)
  rw [h1]
  simp [List.findIdx?_cons]

/-- The numbers of a pace token `a:b` (lines 122-124): `a` holds no colon, so the colon
between them is the first; `stof` receives `a` and `b`. -/
theorem parse_pace_colon (a b : String) (hc : ':' ∉ a.toList)
    (hlen : (a ++ ":" ++ b).length < 2147483648) :
    parse_pace (a ++ ":" ++ b) =
      (stof a).bind fun minutes => (stof b).bind fun seconds => .ok (minutes, seconds) := by
  have hl : (a ++ ":" ++ b).toList = a.toList ++ ':' :: b.toList := by
    simp [String.toList]
  have hn : (a ++ ":" ++ b).length = a.length + 1 + b.length := by
    rw [String.length_append, String.length_append]; rfl
  have ha : a.toList.length = a.length := rfl
  have hb : b.toList.length = b.length := rfl
  have hf : find_first_of (a ++ ":" ++ b) ':' = a.length := by
    unfold find_first_of
    rw [hl, indexOf_append ':' _ _ hc]
    rfl
  have h32 : toInt32 a.length = (a.length : Int) := by
    unfold toInt32
    have : a.length % 2 ^ 32 = a.length := Nat.mod_eq_of_lt (by omega)
    rw [this, if_pos (by omega)]
  have hs1 : toSize (a.length : Int) = a.length := by
    unfold toSize
    have : ((a.length : Int) % 2 ^ 64) = (a.length : Int) :=
      Int.emod_eq_of_lt (by omega) (by omega)
    rw [this]; rfl
  have hs2 : toSize ((a.length : Int) + 1) = a.length + 1 := by
    unfold toSize
    have : (((a.length : Int) + 1) % 2 ^ 64) = ((a.length + 1 : Nat) : Int) := by
      rw [Int.emod_eq_of_lt (by omega) (by omega)]; rfl
    rw [this]; rfl
  have e1 : substr (a ++ ":" ++ b) 0 a.length = .ok a := by
    unfold substr
    rw [if_neg (by omega), hl, List.drop_zero, ← ha, List.take_left]
    rfl
  have e2 : substr (a ++ ":" ++ b) (a.length + 1) npos = .ok b := by
    unfold substr
    rw [if_neg (by omega), hl]
    have : List.drop (a.length + 1) (a.toList ++ ':' :: b.toList) = b.toList := by
      rw [← ha, ← List.drop_drop, List.drop_left]
      rfl
    rw [this, List.take_of_length_le]
    · rfl
    · rw [hb]
      unfold npos
      omega
  unfold parse_pace
  simp only [hf, h32, hs1, hs2, e1, e2, Except.bind]

/-- The last character of a text is the last character of its non-empty end. -/
theorem back_append (a b : String) (c : Char) (h : back b = .ok c) :
    back (a ++ b) = .ok c := by
  unfold back at h ⊢
  have hl : (a ++ b).toList = a.toList ++ b.toList := by simp [String.toList]
  rw [hl, List.getLast?_append]
  cases hb : b.toList.getLast? with
  | none => rw [hb] at h; cases h
  | some x =>
    rw [hb] at h
    injection h with h
    subst h
    rfl

/-! ## Whole parts that rounding does not change -/

/-- A `float` `q` within `δ` of a number `p ≥ 0` has the floor of `p`, and sixty times its
fraction, rounded to `float`, has the whole part of sixty times the fraction of `p`,
provided the latter is at least `60 * δ + 60 / 2^24` away from the whole numbers below and
above it. -/
theorem split_near (p q δ : ℚ) (hq : Rep binary32 q) (hp0 : 0 ≤ p)
    (hclose : |q - p| ≤ δ)
    (hlo : 60 * δ + 60 / 2 ^ 24 ≤ 60 * (p - (⌊p⌋ : Int)) - (⌊60 * (p - (⌊p⌋ : Int))⌋ : Int))
    (hhi : 60 * (p - (⌊p⌋ : Int)) - (⌊60 * (p - (⌊p⌋ : Int))⌋ : Int) ≤
      1 - (60 * δ + 60 / 2 ^ 24)) :
    ⌊q⌋ = ⌊p⌋ ∧
    truncQ (roundQ binary32 (60 * roundQ binary32 (q - (⌊q⌋ : Int)))) =
      truncQ (60 * (p - (⌊p⌋ : Int))) := by
  have hp32 : 1 ≤ binary32.prec := by simp [binary32]
  have hδ : 0 ≤ δ := le_trans (abs_nonneg _) hclose
  obtain ⟨c1, c2⟩ := abs_le.mp hclose
  have f0 : 0 ≤ p - (⌊p⌋ : Int) := by linarith [Int.floor_le p]
  have f1 : p - (⌊p⌋ : Int) < 1 := by linarith [Int.lt_floor_add_one p]
  set s := 60 * (p - (⌊p⌋ : Int)) with hs
  have s0 : 0 ≤ s := by positivity
  have s1 : s < 60 := by linarith
  have k0 : 0 ≤ ⌊s⌋ := Int.floor_nonneg.mpr s0
  have k1 : ⌊s⌋ ≤ 59 := by
    have : ⌊s⌋ < 60 := Int.floor_lt.mpr (by exact_mod_cast s1)
    omega
  have k0' : (0 : ℚ) ≤ (⌊s⌋ : Int) := by exact_mod_cast k0
  have k1' : ((⌊s⌋ : Int) : ℚ) ≤ 59 := by exact_mod_cast k1
  have hfl : ⌊q⌋ = ⌊p⌋ := by
    rw [Int.floor_eq_iff]
    constructor
    · linarith
    · have : (0 : ℚ) < 60 / 2 ^ 24 := by norm_num
      linarith
  have n0 : 0 ≤ ⌊p⌋ := Int.floor_nonneg.mpr hp0
  have hq0 : 0 ≤ q := by
    have : ((⌊p⌋ : Int) : ℚ) ≤ q := by
      have := Int.floor_le q
      rw [hfl] at this
      exact this
    have : (0 : ℚ) ≤ (⌊p⌋ : Int) := by exact_mod_cast n0
    linarith
  have hfr := (rep32_fract q hq hq0).1
  rw [roundQ_of_rep binary32 hp32 _ hfr, hfl]
  set x := 60 * (q - (⌊p⌋ : Int)) with hx
  have x1 : (⌊s⌋ : Int) + 60 / 2 ^ 24 ≤ x := by linarith
  have x2 : x ≤ (⌊s⌋ : Int) + 1 - 60 / 2 ^ 24 := by linarith
  have x0 : 0 < x := by
    have : (0 : ℚ) < 60 / 2 ^ 24 := by norm_num
    linarith
  have r1 : ((⌊s⌋ : Int) : ℚ) ≤ roundQ binary32 x := by
    have := roundQ_mono binary32 hp32 ((⌊s⌋ : Int) : ℚ) x (by
      have : (0 : ℚ) < 60 / 2 ^ 24 := by norm_num
      linarith)
    rwa [roundQ_of_rep binary32 hp32 _ (rep32_int _ (by rw [abs_of_nonneg k0]; omega))] at this
  have r2 : roundQ binary32 x < (⌊s⌋ : Int) + 1 := by
    have xlo : (1 : ℚ) / 2 ^ 126 ≤ x := by
      have : (1 : ℚ) / 2 ^ 126 ≤ 60 / 2 ^ 24 := by norm_num
      linarith
    obtain ⟨_, u⟩ := roundQ32_between x xlo
    have x60 : x < 60 := by
      have : (0 : ℚ) < 60 / 2 ^ 24 := by norm_num
      linarith
    have : x * (1 / 2 ^ 24) < 60 * (1 / 2 ^ 24) := mul_lt_mul_of_pos_right x60 (by norm_num)
    have e : x * (1 + 1 / 2 ^ 24) = x + x * (1 / 2 ^ 24) := by ring
    have e2 : (60 : ℚ) * (1 / 2 ^ 24) = 60 / 2 ^ 24 := by ring
    linarith
  have r0 : 0 ≤ roundQ binary32 x := le_trans k0' r1
  refine ⟨rfl, ?_⟩
  rw [truncQ_of_nonneg _ r0, truncQ_of_nonneg _ s0, Int.floor_eq_iff]
  exact ⟨r1, r2⟩

/-- Where the fraction of a `float` and sixty times it are `float`s, nothing is rounded. -/
theorem split_same (p : ℚ) (h1 : Rep binary32 (p - (⌊p⌋ : Int)))
    (h2 : Rep binary32 (60 * (p - (⌊p⌋ : Int)))) :
    truncQ (roundQ binary32 (60 * roundQ binary32 (p - (⌊p⌋ : Int)))) =
      truncQ (60 * (p - (⌊p⌋ : Int))) := by
  have hp32 : 1 ≤ binary32.prec := by simp [binary32]
  rw [roundQ_of_rep binary32 hp32 _ h1, roundQ_of_rep binary32 hp32 _ h2]

/-! ## The computed pace and the exact pace -/

/-- C1 (the code departs from the claim): `fmt_time` is meant to split a whole number of
minutes `n ≥ 60` into `n / 60` hours and `n % 60` minutes, but it takes the minutes from
the rounded `float` quotient `n / 60` and truncates, so it prints one minute less whenever
that quotient was rounded down: `fmt_time(125)` is `"2h04"`, `fmt_time(61)` is `"1h"`,
`fmt_time(70)` is `"1h09"`, and `pace 12:30k` shows `2h04` for the 10k.  Where the quotient
is exact or was rounded up the result is the expected one: `"1h05"`, `"2h"`, `"2h30"`. -/
theorem fmt_time_whole_minutes_slip :
    fmt_time (.fin 125) = "2h04" ∧ fmt_time (.fin 61) = "1h" ∧ fmt_time (.fin 70) = "1h09" ∧
    fmt_time (.fin 65) = "1h05" ∧ fmt_time (.fin 120) = "2h" ∧ fmt_time (.fin 150) = "2h30" ∧
    main ["pace", "12:30k"] = .ok
      ("At that pace:\n\tMarathon:\t8h47\n\tHalf-Marathon:\t4h23\n\t10k:\t\t2h04\n\t5k:\t\t1h02\n", 0) := by
  decide!

/-- C2: for every duration `0 ≤ t < 60`, `fmt_time t` is the decimal of `t` truncated
toward zero followed by `m`, and nothing else. -/
theorem fmt_time_below_hour (q : ℚ) (h0 : 0 ≤ q) (h1 : q < 60) :
    fmt_time (.fin q) = toString ⌊q⌋.toNat ++ "m" := by
  have hf0 : (0 : Int) ≤ ⌊q⌋ := Int.floor_nonneg.mpr h0
  have hlt : flt (.fin q) (ofInt binary32 60) = true := by
    rw [ofInt32_sixty]
    simp [flt, FP.isNaN, FP.isInf, FP.val, h1]
  unfold fmt_time
  rw [if_pos hlt, toInt_fin_of_lt q h0 h1]
  obtain ⟨n, hn⟩ := Int.eq_ofNat_of_zero_le hf0
  rw [hn]
  rfl

/-- C2 at `30` and at the `float` nearest to `59.9`: `"30m"` and `"59m"`. -/
theorem fmt_time_below_hour_witness :
    fmt_time (.fin 30) = "30m" ∧
    cvt binary32 (lit binary64 (599 / 10)) = .fin (7851213 / 131072) ∧
    fmt_time (.fin (7851213 / 131072)) = "59m" :=
  ⟨(fmt_time_below_hour 30 (by decide!) (by decide!)).trans (by decide!),
   by decide!,
   (fmt_time_below_hour (7851213 / 131072) (by decide!) (by decide!)).trans (by decide!)⟩

/-- C3 fails as stated: `1e39k` is a distance token `Nk` with the number `N = 1e39 > 0` and
`1h` a time token, yet `do_distance` does not return: no `float` holds `1e39` and `stof`
throws `std::out_of_range`; the same happens for the time token `1e39h`. -/
theorem do_distance_valid_counterexample :
    back "1e39k" = .ok 'k' ∧ stof "1e39k" = .error .out_of_range ∧
    do_distance "1e39k" "1h" = .error .out_of_range ∧
    do_distance "10k" "1e39h" = .error .out_of_range := by
  decide!

/-- C3, amended: for every distance token that ends in `k` or `m` and starts with a number
`stof` converts (to `x`) and every time token that ends in `h`, `m` or `s` and starts with
a number `stof` converts (to `y`), `do_distance` returns 0 and its output is exactly one
summary line followed by the table.  The summary line shows the distance in km and in
miles (the one typed and the other converted with `1.609` or `0.62137119`), the time token
as typed, and for the pace per km `T / dist_k` and the pace per mile `T / dist_m` (`T` the
minutes: `60 * y`, `y` or `y / 60`) the `int` of its floor and the `int` of sixty times the
rest, written as `min:secs`.  The table has the rows Marathon, Half-Marathon, 10k, 5k in
this order, each `fmt_time` of the distance times the pace per km. -/
theorem do_distance_valid (d t : String) (c u : Char) (x y : FP)
    (hd : back d = .ok c) (hc : c = 'k' ∨ c = 'm') (hx : stof d = .ok x)
    (ht : back t = .ok u) (hu : u = 'h' ∨ u = 'm' ∨ u = 's') (hy : stof t = .ok y) :
    ∃ dist_k dist_m T pace_k pace_m : FP, ∃ min_k secs_k min_m secs_m : Int,
      (c = 'k' → dist_k = x ∧ dist_m =
        cvt binary32 (fmul binary64 (cvt binary64 x) (lit binary64 (62137119 / 100000000)))) ∧
      (c = 'm' → dist_m = x ∧ dist_k =
        cvt binary32 (fmul binary64 (cvt binary64 x) (lit binary64 (1609 / 1000)))) ∧
      (u = 'h' → T = fmul binary32 y (ofInt binary32 60)) ∧
      (u = 'm' → T = y) ∧
      (u = 's' → T = fdiv binary32 y (ofInt binary32 60)) ∧
      pace_k = fdiv binary32 T dist_k ∧ pace_m = fdiv binary32 T dist_m ∧
      min_k = toInt (ffloor pace_k) ∧
      secs_k = toInt (fmul binary32 (ofInt binary32 60)
        (fsub binary32 pace_k (ofInt binary32 min_k))) ∧
      min_m = toInt (ffloor pace_m) ∧
      secs_m = toInt (fmul binary32 (ofInt binary32 60)
        (fsub binary32 pace_m (ofInt binary32 min_m))) ∧
      do_distance d t = .ok
        (fixed1 dist_k ++ " km / " ++ fixed1 dist_m ++ " miles in " ++ t ++ ": " ++
          toString min_k ++ ":" ++ setw2 secs_k ++ "/km, " ++
          toString min_m ++ ":" ++ setw2 secs_m ++ "/mile\n" ++
          "At that pace:\n\tMarathon:\t" ++
          fmt_time (cvt binary32 (fmul binary64 (lit binary64 (422 / 10)) (cvt binary64 pace_k))) ++
          "\n\tHalf-Marathon:\t" ++
          fmt_time (cvt binary32 (fmul binary64 (lit binary64 (211 / 10)) (cvt binary64 pace_k))) ++
          "\n\t10k:\t\t" ++ fmt_time (fmul binary32 (ofInt binary32 10) pace_k) ++
          "\n\t5k:\t\t" ++ fmt_time (fmul binary32 (ofInt binary32 5) pace_k) ++ "\n", 0) := by
  have hs := special_eq d c hd hc
  have hrun := do_distance_run d t c u x y (by rw [hs]; exact hd) hc (by rw [hs]; exact hx) ht hu hy
  rw [summary_table, display_distances_rows] at hrun
  simp only [pace_min, pace_secs, String.append_assoc] at hrun
  refine ⟨(if c = 'k' then x
      else cvt binary32 (fmul binary64 (cvt binary64 x) (lit binary64 (1609 / 1000)))),
    (if c = 'k' then
      cvt binary32 (fmul binary64 (cvt binary64 x) (lit binary64 (62137119 / 100000000)))
      else x),
    (if u = 'h' then fmul binary32 y (ofInt binary32 60)
      else if u = 's' then fdiv binary32 y (ofInt binary32 60) else y),
    _, _, _, _, _, _, ?_, ?_, ?_, ?_, ?_, rfl, rfl, rfl, rfl, rfl, rfl, ?_⟩
  · intro h; rw [if_pos h, if_pos h]; exact ⟨rfl, rfl⟩
  · intro h
    have : c ≠ 'k' := by rw [h]; decide
    rw [if_neg this, if_neg this]; exact ⟨rfl, rfl⟩
  · intro h; rw [if_pos h]
  · intro h
    have h1 : u ≠ 'h' := by rw [h]; decide
    have h2 : u ≠ 's' := by rw [h]; decide
    rw [if_neg h1, if_neg h2]
  · intro h
    have h1 : u ≠ 'h' := by rw [h]; decide
    rw [if_neg h1, if_pos h]
  · rw [hrun]
    simp only [String.append_assoc]

/-- C3, amended, at `pace 10k 1h`: the summary line is
`10.0 km / 6.2 miles in 1h: 6:00/km, 9:39/mile`, the table follows, the status is 0. -/
theorem do_distance_valid_witness :
    do_distance "10k" "1h" = .ok
      ("10.0 km / 6.2 miles in 1h: 6:00/km, 9:39/mile\n" ++
        "At that pace:\n\tMarathon:\t4h13\n\tHalf-Marathon:\t2h06\n\t10k:\t\t1h\n\t5k:\t\t30m\n", 0) ∧
    ∃ dist_k dist_m T pace_k pace_m : FP, ∃ min_k secs_k min_m secs_m : Int,
      dist_k = .fin 10 ∧ dist_m = .fin (6515549 / 1048576) ∧ T = .fin 60 ∧
      pace_k = .fin 6 ∧ pace_m = .fin (10125117 / 1048576) ∧
      min_k = 6 ∧ secs_k = 0 ∧ min_m = 9 ∧ secs_m = 39 := by
  obtain ⟨dk, dm, T, pk, pm, mk, sk, mm, sm, h1, _, h3, _, _, e1, e2, e3, e4, e5, e6, _⟩ :=
    do_distance_valid "10k" "1h" 'k' 'h' (.fin 10) (.fin 1) (by decide!) (Or.inl rfl)
      (by decide!) (by decide!) (Or.inl rfl) (by decide!)
  obtain ⟨a1, a2⟩ := h1 rfl
  have a3 := h3 rfl
  have b2 : dm = .fin (6515549 / 1048576) := a2.trans (by decide!)
  have b3 : T = .fin 60 := a3.trans (by decide!)
  subst a1 b2 b3
  have c1 : pk = .fin 6 := e1.trans (by decide!)
  have c2 : pm = .fin (10125117 / 1048576) := e2.trans (by decide!)
  subst c1 c2
  have d1 : mk = 6 := e3.trans (by decide!)
  have d3 : mm = 9 := e5.trans (by decide!)
  subst d1 d3
  exact ⟨by decide!, _, _, _, _, _, _, _, _, _, rfl, rfl, rfl, rfl, rfl, rfl,
    e4.trans (by decide!), rfl, e6.trans (by decide!)⟩

/-- C4: a non-empty distance token that is not a special word and whose last character `c`
is neither `k` nor `m` makes `do_distance` return 1, whatever the time token, and its whole
output is the line `Unknown distance unit: c. Must be k or m`. -/
theorem do_distance_unknown_unit (d t : String) (c : Char) (hm : d ≠ "marathon")
    (hh : d ≠ "half") (hd : back d = .ok c) (hk : c ≠ 'k') (hmi : c ≠ 'm') :
    do_distance d t =
      .ok ("Unknown distance unit: " ++ c.toString ++ ". Must be k or m\n", 1) := by
  have hs : special d = d := by simp [special, hm, hh]
  simp [do_distance, hs, hd, parse_distance, hk, hmi, Except.bind]

/-- C4 at `pace 10x 1h`. -/
theorem do_distance_unknown_unit_witness :
    do_distance "10x" "1h" = .ok ("Unknown distance unit: x. Must be k or m\n", 1) :=
  do_distance_unknown_unit "10x" "1h" 'x' (by decide) (by decide) (by decide!) (by decide)
    (by decide)

/-- C5 fails as stated: the time token `x` is not empty and its last character is none of
`h`, `m`, `s`, yet `do_distance("10k", "x")` does not return 1: `stof` runs before the unit
is looked at and throws `std::invalid_argument`.  The token `h` has a good unit and does
not return 0 for the same reason. -/
theorem do_distance_time_unit_counterexample :
    back "x" = .ok 'x' ∧
    do_distance "10k" "x" = .error .invalid_argument ∧
    do_distance "10k" "x" ≠ .ok ("Invalid time unit 'x'. Must be h, m or s\n", 1) ∧
    do_distance "10k" "h" = .error .invalid_argument := by
  decide!

/-- C5, amended: for a valid distance token (after the special words are replaced it ends
in `k` or `m` and starts with a number) and a time token that starts with a number `stof`
converts and ends in `u`: if `u` is none of `h`, `m`, `s` then `do_distance` returns 1 and
writes only `Invalid time unit 'u'. Must be h, m or s`; otherwise it returns 0. -/
theorem do_distance_time_unit (d t : String) (c u : Char) (x y : FP)
    (hd : back (special d) = .ok c) (hc : c = 'k' ∨ c = 'm') (hx : stof (special d) = .ok x)
    (ht : back t = .ok u) (hy : stof t = .ok y) :
    (u ≠ 'h' → u ≠ 'm' → u ≠ 's' →
      do_distance d t = .ok ("Invalid time unit '" ++ u.toString ++ "'. Must be h, m or s\n", 1)) ∧
    (u = 'h' ∨ u = 'm' ∨ u = 's' → ∃ out, do_distance d t = .ok (out, 0)) := by
  constructor
  · intro h1 h2 h3
    rcases hc with rfl | rfl <;>
      simp [do_distance, hd, parse_distance, hx, ht, hy, Except.bind, Except.map, h1, h2, h3]
  · intro hu
    exact ⟨_, do_distance_run d t c u x y hd hc hx ht hu hy⟩

/-- C5, amended, at `pace 10k 1x` (returns 1) and `pace marathon 3h` (returns 0). -/
theorem do_distance_time_unit_witness :
    do_distance "10k" "1x" = .ok ("Invalid time unit 'x'. Must be h, m or s\n", 1) ∧
    ∃ out, do_distance "marathon" "3h" = .ok (out, 0) :=
  ⟨(do_distance_time_unit "10k" "1x" 'k' 'x' (.fin 10) (.fin 1) (by decide!) (Or.inl rfl)
      (by decide!) (by decide!) (by decide!)).1 (by decide) (by decide) (by decide),
   (do_distance_time_unit "marathon" "3h" 'k' 'h' (.fin (11062477 / 262144)) (.fin 3)
      (by decide!) (Or.inl rfl) (by decide!) (by decide!) (by decide!)).2 (Or.inl rfl)⟩

/-- C6 fails as stated: the pace tokens `x`, `4:x` and `1e39:00x` end in `x`, which is
neither `k` nor `m`, yet `do_pace` does not return 1 on them: `stof` runs on the text before
and after the first colon before the unit is looked at, and throws
`std::invalid_argument` (no number) or `std::out_of_range` (a number no `float` holds). -/
theorem do_pace_unit_counterexample :
    back "x" = .ok 'x' ∧ do_pace "x" = .error .invalid_argument ∧
    back "4:x" = .ok 'x' ∧ do_pace "4:x" = .error .invalid_argument ∧
    back "1e39:00x" = .ok 'x' ∧ do_pace "1e39:00x" = .error .out_of_range ∧
    do_pace "x" ≠ .ok ("Invalid pace unit 'x'. Must be 'k' or 'm'\n", 1) := by
  decide!

/-- C6, amended: for every pace token `a:b` in which `a` (the text before the first colon)
and `b` (the text after it, unit included) each start with a number that `stof` converts,
with `c` the last character: if `c` is neither `k` nor `m` then `do_pace` returns 1 and
writes only `Invalid pace unit 'c'. Must be 'k' or 'm'`, no table; if `c` is `k` or `m` it
returns 0. -/
theorem do_pace_unit (a b : String) (M S : FP) (c : Char) (hcolon : ':' ∉ a.toList)
    (hlen : (a ++ ":" ++ b).length < 2147483648)
    (hM : stof a = .ok M) (hS : stof b = .ok S) (hc : back b = .ok c) :
    (c ≠ 'k' → c ≠ 'm' →
      do_pace (a ++ ":" ++ b) =
        .ok ("Invalid pace unit '" ++ c.toString ++ "'. Must be 'k' or 'm'\n", 1)) ∧
    (c = 'k' ∨ c = 'm' → ∃ out, do_pace (a ++ ":" ++ b) = .ok (out, 0)) := by
  have hp : parse_pace (a ++ ":" ++ b) = .ok (M, S) := by
    rw [parse_pace_colon a b hcolon hlen, hM, hS]; rfl
  have hb : back (a ++ ":" ++ b) = .ok c := back_append _ b c hc
  constructor
  · intro h1 h2
    simp [do_pace, hp, hb, Except.bind, h1, h2]
  · rintro (rfl | rfl) <;> simp [do_pace, hp, hb, Except.bind]

/-- C6, amended, at `pace 4:30x` (returns 1) and `pace 4:30k` (returns 0). -/
theorem do_pace_unit_witness :
    do_pace "4:30x" = .ok ("Invalid pace unit 'x'. Must be 'k' or 'm'\n", 1) ∧
    ∃ out, do_pace "4:30k" = .ok (out, 0) :=
  ⟨(do_pace_unit "4" "30x" (.fin 4) (.fin 30) 'x' (by decide) (by decide) (by decide!)
      (by decide!) (by decide!)).1 (by decide) (by decide),
   (do_pace_unit "4" "30k" (.fin 4) (.fin 30) 'k' (by decide) (by decide) (by decide!)
      (by decide!) (by decide!)).2 (Or.inl rfl)⟩

/-- C7: when the argument vector does not hold exactly one or two user arguments
(`argc` is neither 2 nor 3), `main` writes the usage text and nothing else, and
returns 1. -/
theorem main_usage (argv : List String) (h2 : argv.length ≠ 2) (h3 : argv.length ≠ 3) :
    main argv = .ok (usage, 1) := by
  simp [main, h2, h3]

/-- C7 with no user argument and with three. -/
theorem main_usage_witness :
    main ["pace"] = .ok (usage, 1) ∧ main ["pace", "10k", "1h", "5k"] = .ok (usage, 1) :=
  ⟨main_usage ["pace"] (by decide) (by decide),
   main_usage ["pace", "10k", "1h", "5k"] (by decide) (by decide)⟩

/-- The value returned by `do_pace` is 0 or 1. -/
theorem do_pace_code (p out : String) (code : Int) (h : do_pace p = .ok (out, code)) :
    code = 0 ∨ code = 1 := by
  unfold do_pace at h
  cases hpp : parse_pace p with
  | error e => rw [hpp] at h; simp [Except.bind] at h
  | ok ms =>
    cases hb : back p with
    | error e => rw [hpp, hb] at h; simp [Except.bind] at h
    | ok c =>
      rw [hpp, hb] at h
      simp only [Except.bind] at h
      split_ifs at h <;> simp at h <;> omega

/-- The value returned by `do_distance` is 0 or 1. -/
theorem do_distance_code (d t out : String) (code : Int)
    (h : do_distance d t = .ok (out, code)) : code = 0 ∨ code = 1 := by
  unfold do_distance at h
  cases hb : back (special d) with
  | error e => rw [hb] at h; simp [Except.bind] at h
  | ok c =>
    rw [hb] at h
    simp only [Except.bind] at h
    cases hpd : parse_distance (special d) c with
    | error e => rw [hpd] at h; simp at h
    | ok dists =>
      rw [hpd] at h
      simp only at h
      cases dists with
      | none => simp at h; omega
      | some kd =>
        obtain ⟨dk, dm⟩ := kd
        simp only at h
        cases hbt : back t with
        | error e => rw [hbt] at h; simp at h
        | ok u =>
          rw [hbt] at h
          simp only at h
          cases hst : stof t with
          | error e => rw [hst] at h; simp at h
          | ok y =>
            rw [hst] at h
            simp only at h
            split_ifs at h <;> simp at h <;> omega

/-- C8 fails as stated: the run `pace x` has no exit status 0 or 1, it ends in an uncaught
`std::invalid_argument`; so does the run `pace 10k x`. -/
theorem main_exit_counterexample :
    main ["pace", "x"] = .error .invalid_argument ∧
    main ["pace", "10k", "x"] = .error .invalid_argument := by
  decide!

/-- C8, amended: with one user argument `main` is `do_pace` on it, with two it is
`do_distance` on them, and every run that returns from `main` returns 0 or 1. -/
theorem main_dispatch (argv : List String) :
    (∀ prog a, argv = [prog, a] → main argv = do_pace a) ∧
    (∀ prog a b, argv = [prog, a, b] → main argv = do_distance a b) ∧
    (∀ out code, main argv = .ok (out, code) → code = 0 ∨ code = 1) := by
  refine ⟨?_, ?_, ?_⟩
  · rintro prog a rfl
    simp [main]
  · rintro prog a b rfl
    simp [main]
  · intro out code h
    unfold main at h
    simp only at h
    split_ifs at h with h1 h2 h3
    · simp at h; omega
    · exact do_pace_code _ _ _ h
    · exact do_distance_code _ _ _ _ h
    · simp at h; omega

/-- C8, amended, at `pace 4:30k`, `pace 10k 1h` and `pace 10x 1h` (which returns 1). -/
theorem main_dispatch_witness :
    main ["pace", "4:30k"] = do_pace "4:30k" ∧
    main ["pace", "10k", "1h"] = do_distance "10k" "1h" ∧
    main ["pace", "10x", "1h"] = .ok ("Unknown distance unit: x. Must be k or m\n", 1) ∧
    ((1 : Int) = 0 ∨ (1 : Int) = 1) :=
  ⟨(main_dispatch ["pace", "4:30k"]).1 "pace" "4:30k" rfl,
   (main_dispatch ["pace", "10k", "1h"]).2.1 "pace" "10k" "1h" rfl,
   by decide!,
   (main_dispatch ["pace", "10x", "1h"]).2.2 "Unknown distance unit: x. Must be k or m\n" 1
     (by decide!)⟩

/-- C9 fails as stated: `1e39:00k` is a pace token `M:Sk` whose minutes are a number, but
no `float` holds `1e39`: `stof` throws `std::out_of_range` and `do_pace` does not
return. -/
theorem do_pace_per_km_counterexample :
    back "1e39:00k" = .ok 'k' ∧ stof "1e39" = .error .out_of_range ∧
    do_pace "1e39:00k" = .error .out_of_range := by
  decide!

/-- C9, amended: for every pace token `a:b` in which `a` holds no colon and starts with a
number that `stof` converts to `M`, and `b` ends in `k` and starts with a number that
`stof` converts to `S`, `do_pace` returns 0 and every row of the table is `fmt_time` of the
distance in km times `M + S/60`, with no unit conversion. -/
theorem do_pace_per_km (a b : String) (M S : FP) (hcolon : ':' ∉ a.toList)
    (hlen : (a ++ ":" ++ b).length < 2147483648)
    (hM : stof a = .ok M) (hS : stof b = .ok S) (hk : back b = .ok 'k') :
    do_pace (a ++ ":" ++ b) = .ok
      ("At that pace:\n\tMarathon:\t" ++
        fmt_time (cvt binary32 (fmul binary64 (lit binary64 (422 / 10))
          (cvt binary64 (fadd binary32 M (fdiv binary32 S (ofInt binary32 60)))))) ++
      "\n\tHalf-Marathon:\t" ++
        fmt_time (cvt binary32 (fmul binary64 (lit binary64 (211 / 10))
          (cvt binary64 (fadd binary32 M (fdiv binary32 S (ofInt binary32 60)))))) ++
      "\n\t10k:\t\t" ++
        fmt_time (fmul binary32 (ofInt binary32 10)
          (fadd binary32 M (fdiv binary32 S (ofInt binary32 60)))) ++
      "\n\t5k:\t\t" ++
        fmt_time (fmul binary32 (ofInt binary32 5)
          (fadd binary32 M (fdiv binary32 S (ofInt binary32 60)))) ++ "\n", 0) := by
  have hp : parse_pace (a ++ ":" ++ b) = .ok (M, S) := by
    rw [parse_pace_colon a b hcolon hlen, hM, hS]; rfl
  rw [do_pace_k _ M S hp (back_append _ b 'k' hk), display_distances_rows]

/-- C9, amended, at `pace 4:30k`: `M` is 4, `S` is 30, the status is 0 and the 10k row
shows `45m`. -/
theorem do_pace_per_km_witness :
    stof "4" = .ok (.fin 4) ∧ stof "30k" = .ok (.fin 30) ∧
    do_pace "4:30k" = .ok
      ("At that pace:\n\tMarathon:\t3h09\n\tHalf-Marathon:\t1h34\n\t10k:\t\t45m\n\t5k:\t\t22m\n", 0) :=
  ⟨by decide!, by decide!,
   (do_pace_per_km "4" "30k" (.fin 4) (.fin 30) (by decide) (by decide) (by decide!)
      (by decide!) (by decide!)).trans (by decide!)⟩

/-- C10 fails as stated, twice.  The run `pace 7:00k` shows `1h09` in its 10k row, not
`1h10` (the slip of `fmt_time` at whole minutes).  And the converted pace is not always
strictly smaller: the token `0x1p-149:0m` gives the smallest positive `float`, `2^-149`
minutes per mile, and `convert_to_per_km` gives `2^-149` again. -/
theorem do_pace_per_mile_counterexample :
    do_pace "7:00k" = .ok
      ("At that pace:\n\tMarathon:\t4h55\n\tHalf-Marathon:\t2h27\n\t10k:\t\t1h09\n\t5k:\t\t35m\n", 0) ∧
    parse_pace "0x1p-149:0m" = .ok (.fin (pow2 (-149)), .fin 0) ∧
    pace_minutes (.fin (pow2 (-149))) (.fin 0) = .fin (pow2 (-149)) ∧
    convert_to_per_km (.fin (pow2 (-149))) = .fin (pow2 (-149)) ∧
    do_pace "0x1p-149:0m" = .ok (display_distances (.fin (pow2 (-149))), 0) := by
  decide!

/-- C10, amended: for a pace token `M:Sm` whose pace `M + S/60` is a finite `float` `m`
above the smallest positive one, `do_pace` returns 0 and builds the table from the pace
`r`, which is `m * 0.62137119223733` rounded to `double` and then to `float`; `r` is
positive and strictly smaller than `m`, the pace from which the same numbers with unit
`k` build the table. -/
theorem do_pace_per_mile (p : String) (M S : FP) (m : ℚ)
    (hp : parse_pace p = .ok (M, S)) (hu : back p = .ok 'm')
    (hm : fadd binary32 M (fdiv binary32 S (ofInt binary32 60)) = .fin m)
    (hlo : pow2 (-149) < m) :
    ∃ r : ℚ,
      r = roundQ binary32 (roundQ binary64
        (m * roundQ binary64 (62137119223733 / 100000000000000))) ∧
      0 < r ∧ r < m ∧
      do_pace p = .ok (display_distances (.fin r), 0) ∧
      ∀ p' : String, parse_pace p' = .ok (M, S) → back p' = .ok 'k' →
        do_pace p' = .ok (display_distances (.fin m), 0) := by
  obtain ⟨hrep, hhi⟩ := fadd_eq_fin binary32 _ _ m hm
  have hhi' : m < (2 : ℚ) ^ (128 : Int) := by
    have := (abs_lt.mp hhi).2
    simpa [binary32] using this
  rw [pow2_eq] at hlo
  obtain ⟨h1, h2, h3⟩ := convert_to_per_km_lt m hrep hlo hhi'
  have hc : roundQ binary64 (62137119223733 / 100000000000000) =
      174900441863675 / 281474976710656 := by decide!
  refine ⟨_, rfl, ?_, ?_, ?_, ?_⟩
  · rw [hc]; exact h2
  · rw [hc]; exact h3
  · rw [do_pace_m p M S hp hu, hm, h1, hc]
  · intro p' hp' hk'
    rw [do_pace_k p' M S hp' hk', hm]

/-- C10, amended, at `pace 7:00m`: the table is built from `9121769 / 2097152`
(about 4.3496) minutes per km and its 10k row shows `43m`, while `pace 7:00k` builds it
from 7 minutes per km. -/
theorem do_pace_per_mile_witness :
    ∃ r : ℚ, r = 9121769 / 2097152 ∧ 0 < r ∧ r < 7 ∧
      do_pace "7:00m" = .ok (display_distances (.fin r), 0) ∧
      display_distances (.fin r) =
        "At that pace:\n\tMarathon:\t3h03\n\tHalf-Marathon:\t1h31\n\t10k:\t\t43m\n\t5k:\t\t21m\n" ∧
      do_pace "7:00k" = .ok (display_distances (.fin 7), 0) := by
  obtain ⟨r, hr, h0, h1, h2, h3⟩ :=
    do_pace_per_mile "7:00m" (.fin 7) (.fin 0) 7 (by decide!) (by decide!) (by decide!) (by decide!)
  have e : roundQ binary32 (roundQ binary64
      (7 * roundQ binary64 (62137119223733 / 100000000000000))) = 9121769 / 2097152 := by
    decide!
  rw [e] at hr
  subst hr
  exact ⟨_, rfl, h0, h1, h2, by decide!, h3 "7:00k" (by decide!) (by decide!)⟩
/-- C11: for every pace `p`, `display_distances p` writes the header line and then four
rows, in the order Marathon, Half-Marathon, 10k, 5k, whose times are `fmt_time` of
`42.2 * p`, `21.1 * p` (`double` products narrowed to `float`), `10 * p` and `5 * p`. -/
theorem display_distances_table (pace : FP) :
    display_distances pace =
      "At that pace:\n" ++
      "\tMarathon:\t" ++
        fmt_time (cvt binary32 (fmul binary64 (lit binary64 (422 / 10)) (cvt binary64 pace))) ++
        "\n" ++
      "\tHalf-Marathon:\t" ++
        fmt_time (cvt binary32 (fmul binary64 (lit binary64 (211 / 10)) (cvt binary64 pace))) ++
        "\n" ++
      "\t10k:\t\t" ++ fmt_time (fmul binary32 (ofInt binary32 10) pace) ++ "\n" ++
      "\t5k:\t\t" ++ fmt_time (fmul binary32 (ofInt binary32 5) pace) ++ "\n" ∧
    lit binary64 (422 / 10) = .fin (2969561004297421 / 70368744177664) ∧
    lit binary64 (211 / 10) = .fin (2969561004297421 / 140737488355328) ∧
    ofInt binary32 10 = .fin 10 ∧ ofInt binary32 5 = .fin 5 ∧
    display_distances (.fin (9 / 2)) =
      "At that pace:\n\tMarathon:\t3h09\n\tHalf-Marathon:\t1h34\n\t10k:\t\t45m\n\t5k:\t\t22m\n" := by
  refine ⟨rfl, by decide!, by decide!, by decide!, by decide!, by decide!⟩

/-- C12: `do_distance` on `marathon` is `do_distance` on `42.2k`, and on `half` it is
`do_distance` on `21.1k`, for every time token: same returned value, same output. -/
theorem do_distance_special_words (t : String) :
    do_distance "marathon" t = do_distance "42.2k" t ∧
    do_distance "half" t = do_distance "21.1k" t := by
  have h1 : special "marathon" = special "42.2k" := by decide
  have h2 : special "half" = special "21.1k" := by decide
  constructor
  · unfold do_distance; rw [h1]
  · unfold do_distance; rw [h2]

/-- C14 fails as stated: `1k` is a valid distance of positive magnitude and `40000000h` a
valid time of non-negative magnitude, yet both seconds fields are `-2147483648`: eleven
characters, not two digits between 00 and 59. -/
theorem do_distance_seconds_counterexample :
    stof "1k" = .ok (.fin 1) ∧ stof "40000000h" = .ok (.fin 40000000) ∧
    pace_secs (fdiv binary32 (fmul binary32 (.fin 40000000) (ofInt binary32 60)) (.fin 1)) =
      -2147483648 ∧
    do_distance "1k" "40000000h" = .ok
      ("1.0 km / 0.6 miles in 40000000h: " ++
        "-2147483648:-2147483648/km, -2147483648:-2147483648/mile\n" ++
        "At that pace:\n\tMarathon:\t1688000000h\n\tHalf-Marathon:\t844000000h\n" ++
        "\t10k:\t\t400000000h\n\t5k:\t\t200000000h\n", 0) := by
  decide!

/-- C14, amended: for every valid distance with positive magnitude and valid time with
non-negative magnitude, each pace of `do_distance` that is a finite number of minutes
below `2^31` has its seconds field in 0..59, so that pace has the shape `M:SS` in the
summary line, with exactly two seconds digits (zero-padded below 10), and never shows 60 or
more seconds. -/
theorem do_distance_seconds (d t : String) (c u : Char) (qx qy : ℚ)
    (hd : back (special d) = .ok c) (hc : c = 'k' ∨ c = 'm')
    (hx : stof (special d) = .ok (.fin qx)) (hxpos : 0 < qx)
    (ht : back t = .ok u) (hu : u = 'h' ∨ u = 'm' ∨ u = 's')
    (hy : stof t = .ok (.fin qy)) (hynn : 0 ≤ qy) :
    ∃ dist_k dist_m T : FP, ∃ table : String,
      (c = 'k' → dist_k = .fin qx) ∧ (c = 'm' → dist_m = .fin qx) ∧
      (u = 'h' → T = fmul binary32 (.fin qy) (ofInt binary32 60)) ∧
      (u = 'm' → T = .fin qy) ∧
      (u = 's' → T = fdiv binary32 (.fin qy) (ofInt binary32 60)) ∧
      do_distance d t = .ok
        (fixed1 dist_k ++ " km / " ++ fixed1 dist_m ++ " miles in " ++ t ++ ": " ++
          toString (pace_min (fdiv binary32 T dist_k)) ++ ":" ++
          setw2 (pace_secs (fdiv binary32 T dist_k)) ++ "/km, " ++
          toString (pace_min (fdiv binary32 T dist_m)) ++ ":" ++
          setw2 (pace_secs (fdiv binary32 T dist_m)) ++ "/mile\n" ++ table, 0) ∧
      ∀ (r : FP) (q : ℚ), r = fdiv binary32 T dist_k ∨ r = fdiv binary32 T dist_m →
        r = .fin q → q < 2147483648 →
        0 ≤ pace_secs r ∧ pace_secs r ≤ 59 ∧ (setw2 (pace_secs r)).length = 2 ∧
        setw2 (pace_secs r) =
          (if pace_secs r < 10 then "0" ++ toString (pace_secs r).toNat
            else toString (pace_secs r).toNat) := by
  have hp32 : 1 ≤ binary32.prec := by simp [binary32]
  have hp64 : 1 ≤ binary64.prec := by simp [binary64]
  have hrun := do_distance_run d t c u (.fin qx) (.fin qy) hd hc hx ht hu hy
  rw [summary_table] at hrun
  have hxs : (FP.fin qx).sgn = false := by simp [FP.sgn, hxpos.le]
  have hys : (FP.fin qy).sgn = false := by simp [FP.sgn, hynn]
  have hxn : (FP.fin qx).isNaN = false := rfl
  have hyn : (FP.fin qy).isNaN = false := rfl
  have hconv : ∀ k : ℚ, 0 < k → ∀ e : ℚ, lit binary64 k = .fin e → 0 < e →
      (cvt binary32 (fmul binary64 (cvt binary64 (.fin qx)) (lit binary64 k))).sgn = false := by
    intro k _ e he hepos
    rw [he]
    exact sgn_cvt binary32 hp32 _
      (sgn_fmul_pos binary64 hp64 _ e hepos (sgn_cvt binary64 hp64 _ hxs)
        (isNaN_cvt binary64 _ hxn)).1
  have hmi := hconv (62137119 / 100000000) (by norm_num) (5596814119485523 / 9007199254740992)
    (by decide!) (by norm_num)
  have hkm := hconv (1609 / 1000) (by norm_num) (905786475054891 / 562949953421312)
    (by decide!) (by norm_num)
  have hdk : (if c = 'k' then FP.fin qx
      else cvt binary32 (fmul binary64 (cvt binary64 (.fin qx)) (lit binary64 (1609 / 1000)))).sgn =
      false := by
    split_ifs
    · exact hxs
    · exact hkm
  have hdm : (if c = 'k' then
      cvt binary32 (fmul binary64 (cvt binary64 (.fin qx)) (lit binary64 (62137119 / 100000000)))
      else FP.fin qx).sgn = false := by
    split_ifs
    · exact hmi
    · exact hxs
  have hT : (if u = 'h' then fmul binary32 (.fin qy) (ofInt binary32 60)
      else if u = 's' then fdiv binary32 (.fin qy) (ofInt binary32 60) else FP.fin qy).sgn =
      false := by
    rw [ofInt32_sixty]
    split_ifs
    · exact (sgn_fmul_pos binary32 hp32 _ 60 (by norm_num) hys hyn).1
    · exact (sgn_fdiv_pos binary32 hp32 _ 60 (by norm_num) hys hyn).1
    · exact hys
  refine ⟨_, _, _, _, ?_, ?_, ?_, ?_, ?_, hrun, ?_⟩
  · intro h; rw [if_pos h]
  · intro h
    have : c ≠ 'k' := by rw [h]; decide
    rw [if_neg this]
  · intro h; rw [if_pos h]
  · intro h
    have h1 : u ≠ 'h' := by rw [h]; decide
    have h2 : u ≠ 's' := by rw [h]; decide
    rw [if_neg h1, if_neg h2]
  · intro h
    have h1 : u ≠ 'h' := by rw [h]; decide
    rw [if_neg h1, if_pos h]
  · intro r q hr hq hlt
    have hrep : Rep binary32 q := by
      rcases hr with hr | hr
      · exact (fdiv_eq_fin binary32 _ _ q (hr ▸ hq)).1
      · exact (fdiv_eq_fin binary32 _ _ q (hr ▸ hq)).1
    have h0 : 0 ≤ q := by
      rcases hr with hr | hr
      · exact fdiv_nonneg binary32 hp32 _ _ q hT hdk (hr ▸ hq)
      · exact fdiv_nonneg binary32 hp32 _ _ q hT hdm (hr ▸ hq)
    have hfl : ⌊q⌋ ≤ 2147483647 := by
      have : ⌊q⌋ < 2147483648 := Int.floor_lt.mpr (by exact_mod_cast hlt)
      omega
    obtain ⟨s0, s1⟩ := pace_secs_range q hrep h0 hfl
    rw [hq]
    exact ⟨s0, s1, setw2_two _ s0 s1⟩

/-- C14, amended, at `pace 10k 1h`: the seconds fields are `00` and `39`. -/
theorem do_distance_seconds_witness :
    do_distance "10k" "1h" = .ok
      ("10.0 km / 6.2 miles in 1h: 6:00/km, 9:39/mile\n" ++
        "At that pace:\n\tMarathon:\t4h13\n\tHalf-Marathon:\t2h06\n\t10k:\t\t1h\n\t5k:\t\t30m\n", 0) ∧
    (0 ≤ pace_secs (.fin 6) ∧ pace_secs (.fin 6) ≤ 59 ∧ setw2 (pace_secs (.fin 6)) = "00") ∧
    (0 ≤ pace_secs (.fin (10125117 / 1048576)) ∧ pace_secs (.fin (10125117 / 1048576)) ≤ 59 ∧
      setw2 (pace_secs (.fin (10125117 / 1048576))) = "39") := by
  obtain ⟨dk, dm, T, table, h1, _, h3, _, _, _, h7⟩ :=
    do_distance_seconds "10k" "1h" 'k' 'h' 10 1 (by decide!) (Or.inl rfl)
      (by decide!) (by norm_num) (by decide!) (Or.inl rfl) (by decide!) (by norm_num)
  have e1 := h1 rfl
  have e3 := h3 rfl
  have ek : fdiv binary32 (fmul binary32 (.fin 1) (ofInt binary32 60)) (.fin 10) = .fin 6 := by
    decide!
  subst e1 e3
  obtain ⟨a1, a2, _, a4⟩ := h7 (.fin 6) 6 (Or.inl ek.symm) rfl (by norm_num)
  refine ⟨by decide!, ⟨a1, a2, by decide!⟩, by decide!⟩

/-- C15 fails as stated: for the smallest positive `float` `d = 2^-149` (the token
`0x1p-149k`) the conversion to miles gives `2^-149` again and the conversion back gives
`2^-148`, which is twice `d`, not less than `d`; and for `d = 10` the result is the `float`
`5241759/524288`, which is not `10 * 0.99978624471`. -/
theorem round_trip_counterexample :
    stof "0x1p-149k" = .ok (.fin (1 / 2 ^ 149)) ∧
    km_to_miles (.fin (1 / 2 ^ 149)) = .fin (1 / 2 ^ 149) ∧
    miles_to_km (km_to_miles (.fin (1 / 2 ^ 149))) = .fin (1 / 2 ^ 148) ∧
    ¬ ((1 : ℚ) / 2 ^ 148 < 1 / 2 ^ 149) ∧
    miles_to_km (km_to_miles (.fin 10)) = .fin (5241759 / 524288) ∧
    (5241759 / 524288 : ℚ) ≠ 10 * (99978624471 / 100000000000) := by
  refine ⟨by decide!, by decide!, by decide!, by norm_num, by decide!, by norm_num⟩

/-- C15, amended: the two conversions of `do_distance` are the products with `0.62137119`
and with `1.609`, computed in `double` and narrowed to `float`.  Converting a `float`
distance `d` with `2^-123 ≤ d ≤ 2^125` from km to miles and back to km does not reproduce
`d`: the result `r` is a `float` strictly less than `d`, it differs from `d` by less than
0.022% of `d`, and it differs from `d * 0.99978624471` by less than `d / 2^23`; the same
holds for miles to km and back to miles. -/
theorem round_trip (d : ℚ) (hrep : Rep binary32 d) (hlo : 1 / 2 ^ 123 ≤ d) (hhi : d ≤ 2 ^ 125) :
    (∀ s : String, parse_distance s 'k' = (stof s).map fun x => some (x, km_to_miles x)) ∧
    (∀ s : String, parse_distance s 'm' = (stof s).map fun x => some (miles_to_km x, x)) ∧
    (∃ r : ℚ, miles_to_km (km_to_miles (.fin d)) = .fin r ∧ r < d ∧
      d - r < 22 / 100000 * d ∧ |r - d * (99978624471 / 100000000000)| < d / 2 ^ 23) ∧
    (∃ r : ℚ, km_to_miles (miles_to_km (.fin d)) = .fin r ∧ r < d ∧
      d - r < 22 / 100000 * d ∧ |r - d * (99978624471 / 100000000000)| < d / 2 ^ 23) := by
  have hd0 : 0 < d := lt_of_lt_of_le (by norm_num) hlo
  have key : ∀ a b : ℚ, 6 / 10 ≤ a → a ≤ 17 / 10 → 1 / 2 ≤ b → b ≤ 2 →
      (99978624471 / 100000000000 - 1 / 2 ^ 50 ≤ a * b) →
      (a * b ≤ 99978624471 / 100000000000 + 1 / 2 ^ 50) →
      ∃ r : ℚ, cvt binary32 (fmul binary64 (cvt binary64
          (cvt binary32 (fmul binary64 (cvt binary64 (.fin d)) (.fin a)))) (.fin b)) = .fin r ∧
        r < d ∧ d - r < 22 / 100000 * d ∧
        |r - d * (99978624471 / 100000000000)| < d / 2 ^ 23 := by
    intro a b ha1 ha2 hb1 hb2 hab1 hab2
    have ha0 : 0 < a := lt_of_lt_of_le (by norm_num) ha1
    have hb0 : 0 < b := lt_of_lt_of_le (by norm_num) hb1
    obtain ⟨e1, l1, u1⟩ := conv_bounds a d (le_trans (by norm_num) ha1)
      (le_trans ha2 (by norm_num)) hrep (le_trans (by norm_num) hlo) (le_trans hhi (by norm_num))
    set m := roundQ binary32 (roundQ binary64 (d * a)) with hm
    have hda1 : 1 / 2 ^ 123 * (6 / 10) ≤ d * a := mul_le_mul hlo ha1 (by norm_num) hd0.le
    have hda2 : d * a ≤ 2 ^ 125 * (17 / 10) := mul_le_mul hhi ha2 ha0.le (by norm_num)
    have hm1 : 1 / 2 ^ 124 ≤ m := by
      have := mul_le_mul_of_nonneg_right hda1
        (by norm_num : (0 : ℚ) ≤ (1 - 1 / 2 ^ 53) * (1 - 1 / 2 ^ 24))
      exact le_trans (le_trans (by norm_num) this) l1
    have hm2 : m ≤ 2 ^ 126 := by
      have := mul_le_mul_of_nonneg_right hda2
        (by norm_num : (0 : ℚ) ≤ (1 + 1 / 2 ^ 53) * (1 + 1 / 2 ^ 24))
      exact le_trans u1 (le_trans this (by norm_num))
    obtain ⟨e2, l2, u2⟩ := conv_bounds b m hb1 hb2 (roundQ_rep binary32 _) hm1 hm2
    set r := roundQ binary32 (roundQ binary64 (m * b)) with hr
    have hup : r ≤ d * ((99978624471 / 100000000000 + 1 / 2 ^ 50) *
        (((1 + 1 / 2 ^ 53) * (1 + 1 / 2 ^ 24)) * ((1 + 1 / 2 ^ 53) * (1 + 1 / 2 ^ 24)))) := by
      calc r ≤ m * b * ((1 + 1 / 2 ^ 53) * (1 + 1 / 2 ^ 24)) := u2
        _ ≤ d * a * ((1 + 1 / 2 ^ 53) * (1 + 1 / 2 ^ 24)) * b *
              ((1 + 1 / 2 ^ 53) * (1 + 1 / 2 ^ 24)) :=
            mul_le_mul_of_nonneg_right (mul_le_mul_of_nonneg_right u1 hb0.le) (by norm_num)
        _ = d * (a * b) * (((1 + 1 / 2 ^ 53) * (1 + 1 / 2 ^ 24)) *
              ((1 + 1 / 2 ^ 53) * (1 + 1 / 2 ^ 24))) := by ring
        _ ≤ d * (99978624471 / 100000000000 + 1 / 2 ^ 50) *
              (((1 + 1 / 2 ^ 53) * (1 + 1 / 2 ^ 24)) * ((1 + 1 / 2 ^ 53) * (1 + 1 / 2 ^ 24))) :=
            mul_le_mul_of_nonneg_right (mul_le_mul_of_nonneg_left hab2 hd0.le) (by norm_num)
        _ = _ := by ring
    have hdn : d * ((99978624471 / 100000000000 - 1 / 2 ^ 50) *
        (((1 - 1 / 2 ^ 53) * (1 - 1 / 2 ^ 24)) * ((1 - 1 / 2 ^ 53) * (1 - 1 / 2 ^ 24)))) ≤ r := by
      calc d * ((99978624471 / 100000000000 - 1 / 2 ^ 50) *
            (((1 - 1 / 2 ^ 53) * (1 - 1 / 2 ^ 24)) * ((1 - 1 / 2 ^ 53) * (1 - 1 / 2 ^ 24))))
          = d * (99978624471 / 100000000000 - 1 / 2 ^ 50) *
              (((1 - 1 / 2 ^ 53) * (1 - 1 / 2 ^ 24)) * ((1 - 1 / 2 ^ 53) * (1 - 1 / 2 ^ 24))) := by
            ring
        _ ≤ d * (a * b) * (((1 - 1 / 2 ^ 53) * (1 - 1 / 2 ^ 24)) *
              ((1 - 1 / 2 ^ 53) * (1 - 1 / 2 ^ 24))) :=
            mul_le_mul_of_nonneg_right (mul_le_mul_of_nonneg_left hab1 hd0.le) (by norm_num)
        _ = d * a * ((1 - 1 / 2 ^ 53) * (1 - 1 / 2 ^ 24)) * b *
              ((1 - 1 / 2 ^ 53) * (1 - 1 / 2 ^ 24)) := by ring
        _ ≤ m * b * ((1 - 1 / 2 ^ 53) * (1 - 1 / 2 ^ 24)) :=
            mul_le_mul_of_nonneg_right (mul_le_mul_of_nonneg_right l1 hb0.le) (by norm_num)
        _ ≤ r := l2
    have n1 : (99978624471 / 100000000000 + 1 / 2 ^ 50 : ℚ) *
        (((1 + 1 / 2 ^ 53) * (1 + 1 / 2 ^ 24)) * ((1 + 1 / 2 ^ 53) * (1 + 1 / 2 ^ 24))) <
        99978624471 / 100000000000 + 1 / 2 ^ 23 := by norm_num
    have n2 : (99978624471 / 100000000000 - 1 / 2 ^ 23 : ℚ) <
        (99978624471 / 100000000000 - 1 / 2 ^ 50) *
        (((1 - 1 / 2 ^ 53) * (1 - 1 / 2 ^ 24)) * ((1 - 1 / 2 ^ 53) * (1 - 1 / 2 ^ 24))) := by
      norm_num
    have hup2 : r < d * (99978624471 / 100000000000 + 1 / 2 ^ 23) :=
      lt_of_le_of_lt hup (mul_lt_mul_of_pos_left n1 hd0)
    have hdn2 : d * (99978624471 / 100000000000 - 1 / 2 ^ 23) < r :=
      lt_of_lt_of_le (mul_lt_mul_of_pos_left n2 hd0) hdn
    refine ⟨r, by rw [e1, e2], ?_, ?_, ?_⟩
    · have : d * (99978624471 / 100000000000 + 1 / 2 ^ 23) < d * 1 :=
        mul_lt_mul_of_pos_left (by norm_num) hd0
      linarith
    · have : d * (1 - 22 / 100000) < d * (99978624471 / 100000000000 - 1 / 2 ^ 23) :=
        mul_lt_mul_of_pos_left (by norm_num) hd0
      linarith
    · rw [abs_lt]
      constructor
      · have : d * (99978624471 / 100000000000 - 1 / 2 ^ 23) =
            d * (99978624471 / 100000000000) - d / 2 ^ 23 := by ring
        linarith
      · have : d * (99978624471 / 100000000000 + 1 / 2 ^ 23) =
            d * (99978624471 / 100000000000) + d / 2 ^ 23 := by ring
        linarith
  refine ⟨fun s => ?_, fun s => ?_, ?_, ?_⟩
  · simp [parse_distance, km_to_miles]
  · simp [parse_distance, miles_to_km]
  · have := key (5596814119485523 / 9007199254740992) (905786475054891 / 562949953421312)
      (by norm_num) (by norm_num) (by norm_num) (by norm_num) (by norm_num) (by norm_num)
    rw [← lit_miles, ← lit_km] at this
    exact this
  · have := key (905786475054891 / 562949953421312) (5596814119485523 / 9007199254740992)
      (by norm_num) (by norm_num) (by norm_num) (by norm_num) (by norm_num) (by norm_num)
    rw [← lit_miles, ← lit_km] at this
    exact this

/-- C15, amended, at `d = 10`: km to miles and back gives `5241759/524288`, which is
`9.99786...`; miles to km and back gives the same `float`. -/
theorem round_trip_witness :
    (∃ r : ℚ, miles_to_km (km_to_miles (.fin 10)) = .fin r ∧ r < 10 ∧
      10 - r < 22 / 100000 * 10 ∧ |r - 10 * (99978624471 / 100000000000)| < 10 / 2 ^ 23) ∧
    miles_to_km (km_to_miles (.fin 10)) = .fin (5241759 / 524288) :=
  ⟨(round_trip 10 (rep32_int 10 (by norm_num)) (by norm_num) (by norm_num)).2.2.1, by decide!⟩

/-- C16 fails as stated: for the `float` duration `60 * 2^31` minutes the quotient by 60
is `2^31`, which no `int` holds, and `fmt_time` does not start with its decimal: the result
is `-2147483648h0-2147483648`.  The run `pace 100000000000:00k` prints it in every row. -/
theorem fmt_time_hours_counterexample :
    (60 : ℚ) ≤ 128849018880 ∧
    roundQ binary32 128849018880 = 128849018880 ∧
    ⌊(128849018880 : ℚ) / 60⌋ = 2147483648 ∧
    fmt_time (.fin 128849018880) = "-2147483648h0-2147483648" ∧
    main ["pace", "100000000000:00k"] = .ok
      ("At that pace:\n\tMarathon:\t-2147483648h0-2147483648\n" ++
        "\tHalf-Marathon:\t-2147483648h0-2147483648\n" ++
        "\t10k:\t\t-2147483648h0-2147483648\n\t5k:\t\t-2147483648h0-2147483648\n", 0) := by
  decide!

/-- C16, amended: for every duration `t ≥ 60` with `t / 60` below `2^31`, and such that
either `t / 60` and the remaining minutes `60 * (t/60 - floor(t/60))` are `float`s, or the
fraction of a minute in `t` lies between `t / 2^23` and `1 - t / 2^23`: `fmt_time t` starts
with the decimal of `floor(t / 60)` followed by `h`; with
`m = trunc(60 * (t/60 - floor(t/60)))`, which lies in `0..59`, the result ends there when
`m = 0`, is followed by `0` and the digit `m` when `1 ≤ m ≤ 9`, and by the decimal of `m`
when `m ≥ 10`.  All arithmetic in this statement is exact. -/
theorem fmt_time_hours (t : ℚ) (h60 : 60 ≤ t) (hhi : t / 60 < 2147483648)
    (hok : (Rep binary32 (t / 60) ∧ Rep binary32 (60 * (t / 60 - (⌊t / 60⌋ : Int)))) ∨
      (t / 2 ^ 23 ≤ t - (⌊t⌋ : Int) ∧ t - (⌊t⌋ : Int) ≤ 1 - t / 2 ^ 23)) :
    ∃ hours m : Nat,
      (hours : Int) = ⌊t / 60⌋ ∧
      (m : Int) = truncQ (60 * (t / 60 - (⌊t / 60⌋ : Int))) ∧
      m ≤ 59 ∧
      (m = 0 → fmt_time (.fin t) = toString hours ++ "h") ∧
      (1 ≤ m → m ≤ 9 → fmt_time (.fin t) = toString hours ++ "h" ++ "0" ++ toString m) ∧
      (10 ≤ m → fmt_time (.fin t) = toString hours ++ "h" ++ toString m) := by
  have hp32 : 1 ≤ binary32.prec := by simp [binary32]
  have hp1 : (1 : ℚ) ≤ t / 60 := by rw [le_div_iff₀ (by norm_num)]; linarith
  have hp0 : (0 : ℚ) ≤ t / 60 := by linarith
  have hrep : Rep binary32 (roundQ binary32 (t / 60)) := roundQ_rep binary32 _
  have key : ⌊roundQ binary32 (t / 60)⌋ = ⌊t / 60⌋ ∧
      truncQ (roundQ binary32 (60 * roundQ binary32
        (roundQ binary32 (t / 60) - (⌊roundQ binary32 (t / 60)⌋ : Int)))) =
      truncQ (60 * (t / 60 - (⌊t / 60⌋ : Int))) := by
    rcases hok with ⟨e1, e2⟩ | ⟨l, u⟩
    · rw [roundQ_of_rep binary32 hp32 _ e1]
      exact ⟨rfl, split_same _ (rep32_fract _ e1 hp0).1 e2⟩
    · obtain ⟨b1, b2⟩ := roundQ32_between (t / 60) (le_trans (by norm_num) hp1)
      have hclose : |roundQ binary32 (t / 60) - t / 60| ≤ t / 60 / 2 ^ 24 := by
        rw [abs_le]
        constructor <;> linarith
      have hs : 60 * (t / 60 - (⌊t / 60⌋ : Int)) - (⌊60 * (t / 60 - (⌊t / 60⌋ : Int))⌋ : Int) =
          t - (⌊t⌋ : Int) := by
        have e : 60 * (t / 60 - (⌊t / 60⌋ : Int)) = t - ((60 * ⌊t / 60⌋ : Int) : ℚ) := by
          push_cast; ring
        rw [e, Int.floor_sub_int]
        push_cast
        ring
      have hd : 60 * (t / 60 / 2 ^ 24) + 60 / 2 ^ 24 ≤ t / 2 ^ 23 := by
        have : t / 2 ^ 23 - (60 * (t / 60 / 2 ^ 24) + 60 / 2 ^ 24) = (t - 60) / 2 ^ 24 := by
          ring
        have : (0 : ℚ) ≤ (t - 60) / 2 ^ 24 := by
          apply div_nonneg <;> [linarith; norm_num]
        linarith
      exact split_near (t / 60) _ (t / 60 / 2 ^ 24) hrep hp0 hclose (by rw [hs]; linarith)
        (by rw [hs]; linarith)
  obtain ⟨kf, ks⟩ := key
  have hfl : ⌊t / 60⌋ ≤ 2147483647 := by
    have : ⌊t / 60⌋ < 2147483648 := Int.floor_lt.mpr (by exact_mod_cast hhi)
    omega
  have hhi2 : roundQ binary32 (t / 60) < 2147483648 := by
    have h1 := Int.lt_floor_add_one (roundQ binary32 (t / 60))
    rw [kf] at h1
    have : ((⌊t / 60⌋ : Int) : ℚ) + 1 ≤ 2147483648 := by
      have : ⌊t / 60⌋ + 1 ≤ 2147483648 := by omega
      exact_mod_cast this
    linarith
  obtain ⟨hfmt, hf1, hf2, hs0, hs1⟩ := fmt_time_ge t h60 hhi2
  obtain ⟨_, hsecs, _, _⟩ := pace_split _ hrep (by omega) hf2
  rw [ks] at hsecs
  rw [kf] at hfmt hf1 hf2
  set secs := pace_secs (.fin (roundQ binary32 (t / 60))) with hsd
  have hH := to_string_nat ⌊t / 60⌋ (by omega)
  have hM := to_string_nat secs hs0
  refine ⟨⌊t / 60⌋.toNat, secs.toNat, by omega, ?_, by omega, ?_, ?_, ?_⟩
  · rw [← hsecs]; omega
  · intro hm
    have : secs = 0 := by omega
    rw [hfmt, if_pos this, hH]
  · intro hm1 hm9
    have a : ¬ secs = 0 := by omega
    have b : secs < 10 := by omega
    rw [hfmt, if_neg a, if_pos b, hH, hM, String.append_assoc, String.append_assoc,
      String.append_assoc]
  · intro hm10
    have a : ¬ secs = 0 := by omega
    have b : ¬ secs < 10 := by omega
    rw [hfmt, if_neg a, if_neg b, hH, hM]

/-- C16, amended, at `120.5` (a fraction of half a minute) and at `150`
(`150 / 60` and the 30 minutes are `float`s): the results are `2h` and `2h30`. -/
theorem fmt_time_hours_witness :
    fmt_time (.fin (241 / 2)) = "2h" ∧ fmt_time (.fin 150) = "2h30" := by
  obtain ⟨hours, m, h1, h2, _, h4, _, _⟩ :=
    fmt_time_hours (241 / 2) (by norm_num) (by norm_num) (Or.inr ⟨by
      have : ⌊(241 / 2 : ℚ)⌋ = 120 := by decide!
      rw [this]; norm_num, by
      have : ⌊(241 / 2 : ℚ)⌋ = 120 := by decide!
      rw [this]; norm_num⟩)
  obtain ⟨hours2, m2, g1, g2, _, _, _, g6⟩ :=
    fmt_time_hours 150 (by norm_num) (by norm_num) (Or.inl ⟨by
      have : (150 : ℚ) / 60 = ((5 : Int) : ℚ) * (2 : ℚ) ^ (-1 : Int) := by norm_num
      rw [this]
      exact ⟨5, -1, rfl, by norm_num [binary32], by norm_num [binary32]⟩, by
      have : ⌊(150 : ℚ) / 60⌋ = 2 := by decide!
      rw [this]
      have : (60 : ℚ) * (150 / 60 - ((2 : Int) : ℚ)) = ((30 : Int) : ℚ) := by norm_num
      rw [this]
      exact rep32_int 30 (by norm_num)⟩)
  have e1 : ⌊((241 / 2 : ℚ)) / 60⌋ = 2 := by decide!
  have e2 : truncQ (60 * ((241 / 2 : ℚ) / 60 - ((⌊(241 / 2 : ℚ) / 60⌋ : Int) : ℚ))) = 0 := by
    decide!
  have e3 : ⌊(150 : ℚ) / 60⌋ = 2 := by decide!
  have e4 : truncQ (60 * ((150 : ℚ) / 60 - ((⌊(150 : ℚ) / 60⌋ : Int) : ℚ))) = 30 := by
    decide!
  rw [e1] at h1
  rw [e2] at h2
  rw [e3] at g1
  rw [e4] at g2
  have hm : m = 0 := by omega
  have hh : hours = 2 := by omega
  have hm2 : m2 = 30 := by omega
  have hh2 : hours2 = 2 := by omega
  constructor
  · rw [h4 hm, hh]; rfl
  · rw [g6 (by omega), hh2, hm2]; rfl

/-- C17 fails as stated: with `T = 2.1` the tokens `2.1h`, `126m` and `7560s` do not give
the same total minutes: `2.1` is not a `float`, the product of the `float` nearest to it
with 60 rounds to less than 126, and `10k` in `2.1h` is shown as `12:35/km` where `126m`
and `7560s` show `12:36/km`. -/
theorem do_distance_time_units_counterexample :
    (60 : ℚ) * (21 / 10) = 126 ∧ (3600 : ℚ) * (21 / 10) = 7560 ∧
    do_distance "10k" "2.1h" = .ok
      ("10.0 km / 6.2 miles in 2.1h: 12:35/km, 20:16/mile\n" ++
        "At that pace:\n\tMarathon:\t8h51\n\tHalf-Marathon:\t4h25\n\t10k:\t\t2h05\n\t5k:\t\t1h02\n", 0) ∧
    do_distance "10k" "126m" = .ok
      ("10.0 km / 6.2 miles in 126m: 12:36/km, 20:16/mile\n" ++
        "At that pace:\n\tMarathon:\t8h51\n\tHalf-Marathon:\t4h25\n\t10k:\t\t2h05\n\t5k:\t\t1h02\n", 0) ∧
    do_distance "10k" "7560s" = .ok
      ("10.0 km / 6.2 miles in 7560s: 12:36/km, 20:16/mile\n" ++
        "At that pace:\n\tMarathon:\t8h51\n\tHalf-Marathon:\t4h25\n\t10k:\t\t2h05\n\t5k:\t\t1h02\n", 0) := by
  refine ⟨by norm_num, by norm_num, by decide!, by decide!, by decide!⟩

/-- C17, amended: for every valid distance token `d` and every number `T > 0` such that
`T`, `60 * T` and `3600 * T` are `float` values, time tokens that end in `h`, `m` and `s`
and hold these three numbers give `do_distance` the same total minutes `60 * T`, hence the
same per-km and per-mile paces and the same projection table; only the echoed time token
in the summary line differs. -/
theorem do_distance_time_units (d th tm ts : String) (c : Char) (x : FP) (T : ℚ)
    (hd : back (special d) = .ok c) (hc : c = 'k' ∨ c = 'm') (hx : stof (special d) = .ok x)
    (hT : 0 < T)
    (hh : back th = .ok 'h') (hhv : stof th = .ok (.fin T))
    (hm : back tm = .ok 'm') (hmv : stof tm = .ok (.fin (60 * T)))
    (hs : back ts = .ok 's') (hsv : stof ts = .ok (.fin (3600 * T))) :
    ∃ dist_k dist_m : FP,
      (c = 'k' → dist_k = x) ∧ (c = 'm' → dist_m = x) ∧
      ∀ t : String, t = th ∨ t = tm ∨ t = ts →
        do_distance d t = .ok
          (fixed1 dist_k ++ " km / " ++ fixed1 dist_m ++ " miles in " ++ t ++ ": " ++
            toString (pace_min (fdiv binary32 (.fin (60 * T)) dist_k)) ++ ":" ++
            setw2 (pace_secs (fdiv binary32 (.fin (60 * T)) dist_k)) ++ "/km, " ++
            toString (pace_min (fdiv binary32 (.fin (60 * T)) dist_m)) ++ ":" ++
            setw2 (pace_secs (fdiv binary32 (.fin (60 * T)) dist_m)) ++ "/mile\n" ++
            display_distances (fdiv binary32 (.fin (60 * T)) dist_k), 0) := by
  have hp32 : 1 ≤ binary32.prec := by simp [binary32]
  obtain ⟨hrep, hbound⟩ := stof_eq_fin tm (60 * T) hmv
  have hne : 60 * T ≠ 0 := by positivity
  have e1 : fmul binary32 (.fin T) (ofInt binary32 60) = .fin (60 * T) := by
    rw [ofInt32_sixty, fmul_fin, mul_comm T 60]
    exact pack_rep binary32 hp32 _ _ hrep hne hbound
  have e2 : fdiv binary32 (.fin (3600 * T)) (ofInt binary32 60) = .fin (60 * T) := by
    rw [ofInt32_sixty, fdiv_fin binary32 _ _ (by norm_num)]
    have : 3600 * T / 60 = 60 * T := by ring
    rw [this]
    exact pack_rep binary32 hp32 _ _ hrep hne hbound
  have r1 := do_distance_run d th c 'h' x (.fin T) hd hc hx hh (Or.inl rfl) hhv
  have r2 := do_distance_run d tm c 'm' x (.fin (60 * T)) hd hc hx hm (Or.inr (Or.inl rfl)) hmv
  have r3 := do_distance_run d ts c 's' x (.fin (3600 * T)) hd hc hx hs (Or.inr (Or.inr rfl)) hsv
  have n1 : ¬ ('m' = 'h') := by decide
  have n2 : ¬ ('m' = 's') := by decide
  have n3 : ¬ ('s' = 'h') := by decide
  rw [if_pos rfl, e1, summary_table] at r1
  rw [if_neg n1, if_neg n2, summary_table] at r2
  rw [if_neg n3, if_pos rfl, e2, summary_table] at r3
  refine ⟨(if c = 'k' then x
      else cvt binary32 (fmul binary64 (cvt binary64 x) (lit binary64 (1609 / 1000)))),
    (if c = 'k' then
      cvt binary32 (fmul binary64 (cvt binary64 x) (lit binary64 (62137119 / 100000000)))
      else x), ?_, ?_, ?_⟩
  · intro h; rw [if_pos h]
  · intro h
    have : c ≠ 'k' := by rw [h]; decide
    rw [if_neg this]
  · rintro t (rfl | rfl | rfl)
    · exact r1
    · exact r2
    · exact r3

/-- C17, amended, at `10k` with `1h`, `60m` and `3600s`: all three give `6:00/km`. -/
theorem do_distance_time_units_witness :
    ∃ dist_k dist_m : FP,
      ('k' = 'k' → dist_k = .fin 10) ∧ ('k' = 'm' → dist_m = .fin 10) ∧
      ∀ t : String, t = "1h" ∨ t = "60m" ∨ t = "3600s" →
        do_distance "10k" t = .ok
          (fixed1 dist_k ++ " km / " ++ fixed1 dist_m ++ " miles in " ++ t ++ ": " ++
            toString (pace_min (fdiv binary32 (.fin (60 * 1)) dist_k)) ++ ":" ++
            setw2 (pace_secs (fdiv binary32 (.fin (60 * 1)) dist_k)) ++ "/km, " ++
            toString (pace_min (fdiv binary32 (.fin (60 * 1)) dist_m)) ++ ":" ++
            setw2 (pace_secs (fdiv binary32 (.fin (60 * 1)) dist_m)) ++ "/mile\n" ++
            display_distances (fdiv binary32 (.fin (60 * 1)) dist_k), 0) :=
  do_distance_time_units "10k" "1h" "60m" "3600s" 'k' (.fin 10) 1 (by decide!) (Or.inl rfl)
    (by decide!) (by norm_num) (by decide!) (by decide!) (by decide!) (by decide!) (by decide!)
    (by decide!)

/-- C18 fails as stated: for the `float` duration `2^40` minutes the text after `h` is
`0-2147483648`, twelve characters and no minute count between 01 and 59.  The run
`pace 40000000000:00k` prints the same text in every row. -/
theorem fmt_time_minutes_counterexample :
    (60 : ℚ) ≤ 1099511627776 ∧
    roundQ binary32 1099511627776 = 1099511627776 ∧
    fmt_time (.fin 1099511627776) = "-2147483648h" ++ "0-2147483648" ∧
    ("0-2147483648").length = 12 ∧
    main ["pace", "40000000000:00k"] = .ok
      ("At that pace:\n\tMarathon:\t-2147483648h0-2147483648\n" ++
        "\tHalf-Marathon:\t-2147483648h0-2147483648\n" ++
        "\t10k:\t\t-2147483648h0-2147483648\n\t5k:\t\t-2147483648h0-2147483648\n", 0) := by
  decide!

/-- C18, amended: for every duration `t ≥ 60` whose `float` quotient `h = t / 60` is below
`2^31`, `fmt_time t` is the decimal of `floor h`, then `h`, then either nothing or exactly
two characters: the decimal of a minute count between 1 and 59, with a leading `0` below
10. -/
theorem fmt_time_minutes (t : ℚ) (h60 : 60 ≤ t)
    (hhi : roundQ binary32 (t / 60) < 2147483648) :
    ∃ hours : Nat, ∃ s : String,
      (hours : Int) = ⌊roundQ binary32 (t / 60)⌋ ∧
      fmt_time (.fin t) = toString hours ++ "h" ++ s ∧
      (s = "" ∨ (s.length = 2 ∧ ∃ m : Nat, 1 ≤ m ∧ m ≤ 59 ∧
        s = (if m < 10 then "0" ++ toString m else toString m))) := by
  obtain ⟨hfmt, hf1, hf2, hs0, hs1⟩ := fmt_time_ge t h60 hhi
  set h := roundQ binary32 (t / 60) with hh
  have hH := to_string_nat ⌊h⌋ (by omega)
  have hM := to_string_nat (pace_secs (.fin h)) hs0
  by_cases hm : pace_secs (.fin h) = 0
  · refine ⟨⌊h⌋.toNat, "", by omega, ?_, Or.inl rfl⟩
    rw [hfmt, if_pos hm, hH, String.append_empty]
  · have hlt : (pace_secs (.fin h)).toNat < 60 := by omega
    refine ⟨⌊h⌋.toNat,
      (if (pace_secs (.fin h)).toNat < 10 then "0" ++ toString (pace_secs (.fin h)).toNat
        else toString (pace_secs (.fin h)).toNat), by omega, ?_,
      Or.inr ⟨two_digits _ hlt, (pace_secs (.fin h)).toNat, by omega, by omega, rfl⟩⟩
    rw [hfmt, if_neg hm, hH, hM]
    by_cases h10 : pace_secs (.fin h) < 10
    · rw [if_pos h10, if_pos (by omega)]
    · rw [if_neg h10, if_neg (by omega)]

/-- C18, amended, at `125` and `150`: after `2h` come the two characters `04`, and `30`. -/
theorem fmt_time_minutes_witness :
    ∃ s1 s2 : String, fmt_time (.fin 125) = "2h" ++ s1 ∧ s1.length = 2 ∧
      fmt_time (.fin 150) = "2h" ++ s2 ∧ s2.length = 2 := by
  obtain ⟨n1, s1, a1, a2, a3⟩ := fmt_time_minutes 125 (by norm_num) (by decide!)
  obtain ⟨n2, s2, b1, b2, b3⟩ := fmt_time_minutes 150 (by norm_num) (by decide!)
  have e1 : ⌊roundQ binary32 ((125 : ℚ) / 60)⌋ = 2 := by decide!
  have e2 : ⌊roundQ binary32 ((150 : ℚ) / 60)⌋ = 2 := by decide!
  have hn1 : n1 = 2 := by omega
  have hn2 : n2 = 2 := by omega
  subst hn1 hn2
  have v1 : fmt_time (.fin 125) = "2h04" := by decide!
  have v2 : fmt_time (.fin 150) = "2h30" := by decide!
  refine ⟨"04", "30", v1, by decide, v2, by decide⟩

/-- C19 (the code departs from the claim): the table is meant to show the input time again
in the row of the input distance, but the row is `fmt_time` of the distance times the
rounded pace, which can fall just below the whole minute, and `fmt_time` truncates.
`pace marathon 210m` shows `3h29` in the Marathon row where `fmt_time(210)` is `3h30`, and
`pace half 105m` shows `1h44` in the Half-Marathon row where `fmt_time(105)` is `1h45`: the
distance is the `float` nearest to `42.2` and the factor of the row is the `double` nearest
to `42.2`, so the product is `13762559/65536`, below 210.  Where the product returns the
time the row is the expected one: `marathon` in `3h` shows `3h`, `10k` in `1h` shows
`1h`. -/
theorem do_distance_reproduces_slip :
    stof "210m" = .ok (.fin 210) ∧ fmt_time (.fin 210) = "3h30" ∧
    cvt binary32 (fmul binary64 (lit binary64 (422 / 10))
      (cvt binary64 (fdiv binary32 (.fin 210) (cvt binary32 (lit binary64 (422 / 10)))))) =
      .fin (13762559 / 65536) ∧
    do_distance "marathon" "210m" = .ok
      ("42.2 km / 26.2 miles in 210m: 4:58/km, 8:00/mile\n" ++
        "At that pace:\n\tMarathon:\t3h29\n\tHalf-Marathon:\t1h44\n\t10k:\t\t49m\n\t5k:\t\t24m\n", 0) ∧
    stof "105m" = .ok (.fin 105) ∧ fmt_time (.fin 105) = "1h45" ∧
    do_distance "half" "105m" = .ok
      ("21.1 km / 13.1 miles in 105m: 4:58/km, 8:00/mile\n" ++
        "At that pace:\n\tMarathon:\t3h29\n\tHalf-Marathon:\t1h44\n\t10k:\t\t49m\n\t5k:\t\t24m\n", 0) ∧
    do_distance "marathon" "3h" = .ok
      ("42.2 km / 26.2 miles in 3h: 4:15/km, 6:51/mile\n" ++
        "At that pace:\n\tMarathon:\t3h\n\tHalf-Marathon:\t1h30\n\t10k:\t\t42m\n\t5k:\t\t21m\n", 0) ∧
    do_distance "10k" "1h" = .ok
      ("10.0 km / 6.2 miles in 1h: 6:00/km, 9:39/mile\n" ++
        "At that pace:\n\tMarathon:\t4h13\n\tHalf-Marathon:\t2h06\n\t10k:\t\t1h\n\t5k:\t\t30m\n", 0) := by
  refine ⟨by decide!, by decide!, by decide!, by decide!, by decide!, by decide!, by decide!,
    by decide!, by decide!⟩

/-- C20 fails as stated: for the distance `0x1p-149k` (`2^-149` km, the smallest positive
`float`) in `0x1p-140m` the distance in miles is `2^-149` as well and both paces are `512`
minutes; and for `0.001k` in `30000h` the pace per km is shown as `1799999872:00` and the
pace per mile, `2896819200` minutes, as `-2147483648:-2147483648`, a pair below that per
km. -/
theorem do_distance_pace_order_counterexample :
    stof "0x1p-149k" = .ok (.fin (1 / 2 ^ 149)) ∧
    stof "0x1p-140m" = .ok (.fin (1 / 2 ^ 140)) ∧
    km_to_miles (.fin (1 / 2 ^ 149)) = .fin (1 / 2 ^ 149) ∧
    fdiv binary32 (.fin (1 / 2 ^ 140)) (.fin (1 / 2 ^ 149)) = .fin 512 ∧
    do_distance "0x1p-149k" "0x1p-140m" = .ok
      ("0.0 km / 0.0 miles in 0x1p-140m: 512:00/km, 512:00/mile\n" ++
        "At that pace:\n\tMarathon:\t360h06\n\tHalf-Marathon:\t180h03\n" ++
        "\t10k:\t\t85h20\n\t5k:\t\t42h40\n", 0) ∧
    do_distance "0.001k" "30000h" = .ok
      ("0.0 km / 0.0 miles in 30000h: 1799999872:00/km, -2147483648:-2147483648/mile\n" ++
        "At that pace:\n\tMarathon:\t1265999872h\n\tHalf-Marathon:\t632999936h\n" ++
        "\t10k:\t\t299999968h\n\t5k:\t\t149999984h\n", 0) := by
  refine ⟨by decide!, by decide!, by decide!, by decide!, by decide!, by decide!⟩

/-- C20, amended: for every valid distance with magnitude between `2^-124` and `2^126`
(given in km or in miles) and every valid time, if the per-km pace computed by
`do_distance` is finite and above `2^-126` and the per-mile pace is finite and below
`2^31`, then the per-mile pace is strictly greater than the per-km pace, and the printed
pair (minutes, seconds) per mile is lexicographically greater than or equal to the printed
pair per km. -/
theorem do_distance_pace_order (d t : String) (c u : Char) (qx : ℚ) (y : FP)
    (hd : back (special d) = .ok c) (hc : c = 'k' ∨ c = 'm')
    (hx : stof (special d) = .ok (.fin qx)) (hlo : 1 / 2 ^ 124 ≤ qx) (hhi : qx ≤ 2 ^ 126)
    (ht : back t = .ok u) (hu : u = 'h' ∨ u = 'm' ∨ u = 's') (hy : stof t = .ok y) :
    ∃ dist_k dist_m T : FP,
      (c = 'k' → dist_k = .fin qx ∧ dist_m = km_to_miles (.fin qx)) ∧
      (c = 'm' → dist_m = .fin qx ∧ dist_k = miles_to_km (.fin qx)) ∧
      (u = 'h' → T = fmul binary32 y (ofInt binary32 60)) ∧
      (u = 'm' → T = y) ∧
      (u = 's' → T = fdiv binary32 y (ofInt binary32 60)) ∧
      do_distance d t = .ok
        (fixed1 dist_k ++ " km / " ++ fixed1 dist_m ++ " miles in " ++ t ++ ": " ++
          toString (pace_min (fdiv binary32 T dist_k)) ++ ":" ++
          setw2 (pace_secs (fdiv binary32 T dist_k)) ++ "/km, " ++
          toString (pace_min (fdiv binary32 T dist_m)) ++ ":" ++
          setw2 (pace_secs (fdiv binary32 T dist_m)) ++ "/mile\n" ++
          display_distances (fdiv binary32 T dist_k), 0) ∧
      ∀ qk qm : ℚ, fdiv binary32 T dist_k = .fin qk → 1 / 2 ^ 126 < qk →
        fdiv binary32 T dist_m = .fin qm → qm < 2147483648 →
        qk < qm ∧
        (pace_min (.fin qk) < pace_min (.fin qm) ∨
          (pace_min (.fin qk) = pace_min (.fin qm) ∧
            pace_secs (.fin qk) ≤ pace_secs (.fin qm))) := by
  have hrun := do_distance_run d t c u (.fin qx) y hd hc hx ht hu hy
  rw [summary_table] at hrun
  have hrep := (stof_eq_fin _ _ hx).1
  have hq0 : 0 < qx := lt_of_lt_of_le (by norm_num) hlo
  obtain ⟨m1, m2, m3⟩ := conv_bounds (5596814119485523 / 9007199254740992) qx (by norm_num)
    (by norm_num) hrep hlo hhi
  obtain ⟨k1, k2, k3⟩ := conv_bounds (905786475054891 / 562949953421312) qx (by norm_num)
    (by norm_num) hrep hlo hhi
  rw [← lit_miles] at m1
  rw [← lit_km] at k1
  have order : ∀ (T : FP) (dk dm qk qm : ℚ), 0 < dm → dm ≤ 63 / 100 * dk →
      fdiv binary32 T (.fin dk) = .fin qk → 1 / 2 ^ 126 < qk →
      fdiv binary32 T (.fin dm) = .fin qm → qm < 2147483648 →
      qk < qm ∧
        (pace_min (.fin qk) < pace_min (.fin qm) ∨
          (pace_min (.fin qk) = pace_min (.fin qm) ∧
            pace_secs (.fin qk) ≤ pace_secs (.fin qm))) := by
    intro T dk dm qk qm h1 h2 h3 h4 h5 h6
    have hlt := pace_lt T dk dm qk qm h1 h2 h3 h4 h5
    exact ⟨hlt, pace_pair_mono qk qm (fdiv_eq_fin binary32 _ _ qk h3).1
      (fdiv_eq_fin binary32 _ _ qm h5).1 (le_trans (by norm_num) h4.le) hlt.le h6⟩
  have hT : ∀ T : FP, (T = if u = 'h' then fmul binary32 y (ofInt binary32 60)
        else if u = 's' then fdiv binary32 y (ofInt binary32 60) else y) →
      (u = 'h' → T = fmul binary32 y (ofInt binary32 60)) ∧ (u = 'm' → T = y) ∧
      (u = 's' → T = fdiv binary32 y (ofInt binary32 60)) := by
    intro T hT
    refine ⟨fun h => ?_, fun h => ?_, fun h => ?_⟩
    · rw [hT, if_pos h]
    · have h1 : u ≠ 'h' := by rw [h]; decide
      have h2 : u ≠ 's' := by rw [h]; decide
      rw [hT, if_neg h1, if_neg h2]
    · have h1 : u ≠ 'h' := by rw [h]; decide
      rw [hT, if_neg h1, if_pos h]
  obtain ⟨T, hTdef⟩ : ∃ T : FP, T = if u = 'h' then fmul binary32 y (ofInt binary32 60)
      else if u = 's' then fdiv binary32 y (ofInt binary32 60) else y := ⟨_, rfl⟩
  rw [← hTdef] at hrun
  obtain ⟨t1, t2, t3⟩ := hT T hTdef
  rcases hc with rfl | rfl
  · rw [if_pos rfl, if_pos rfl] at hrun
    refine ⟨.fin qx, km_to_miles (.fin qx), T, fun _ => ⟨rfl, rfl⟩, fun h => ?_, t1, t2, t3,
      hrun, ?_⟩
    · exact absurd h (by decide)
    · intro qk qm h3 h4 h5 h6
      have e : km_to_miles (.fin qx) = cvt binary32 (fmul binary64 (cvt binary64 (.fin qx))
          (lit binary64 (62137119 / 100000000))) := rfl
      rw [e, m1] at h5
      refine order T qx _ qk qm ?_ ?_ h3 h4 h5 h6
      · exact lt_of_lt_of_le (mul_pos (mul_pos hq0 (by norm_num)) (by norm_num)) m2
      · refine le_trans m3 ?_
        have : qx * (5596814119485523 / 9007199254740992) *
            ((1 + 1 / 2 ^ 53) * (1 + 1 / 2 ^ 24)) =
            (5596814119485523 / 9007199254740992 * ((1 + 1 / 2 ^ 53) * (1 + 1 / 2 ^ 24))) * qx := by
          ring
        rw [this]
        exact mul_le_mul_of_nonneg_right (by norm_num) hq0.le
  · have hne : ¬ ('m' = 'k') := by decide
    rw [if_neg hne, if_neg hne] at hrun
    refine ⟨miles_to_km (.fin qx), .fin qx, T, fun h => ?_, fun _ => ⟨rfl, rfl⟩, t1, t2, t3,
      hrun, ?_⟩
    · exact absurd h (by decide)
    · intro qk qm h3 h4 h5 h6
      have e : miles_to_km (.fin qx) = cvt binary32 (fmul binary64 (cvt binary64 (.fin qx))
          (lit binary64 (1609 / 1000))) := rfl
      rw [e, k1] at h3
      refine order T _ qx qk qm hq0 ?_ h3 h4 h5 h6
      have : 63 / 100 * (qx * (905786475054891 / 562949953421312) *
          ((1 - 1 / 2 ^ 53) * (1 - 1 / 2 ^ 24))) ≤
          63 / 100 * roundQ binary32 (roundQ binary64 (qx * (905786475054891 / 562949953421312))) :=
        mul_le_mul_of_nonneg_left k2 (by norm_num)
      refine le_trans ?_ this
      have e2 : 63 / 100 * (qx * (905786475054891 / 562949953421312) *
          ((1 - 1 / 2 ^ 53) * (1 - 1 / 2 ^ 24))) =
          (63 / 100 * (905786475054891 / 562949953421312 *
            ((1 - 1 / 2 ^ 53) * (1 - 1 / 2 ^ 24)))) * qx := by ring
      rw [e2]
      have : (1 : ℚ) * qx ≤ (63 / 100 * (905786475054891 / 562949953421312 *
            ((1 - 1 / 2 ^ 53) * (1 - 1 / 2 ^ 24)))) * qx :=
        mul_le_mul_of_nonneg_right (by norm_num) hq0.le
      linarith

/-- C20, amended, at `pace 10k 1h`: the paces are `6` and `10125117/1048576` minutes,
printed as `6:00` and `9:39`. -/
theorem do_distance_pace_order_witness :
    (6 : ℚ) < 10125117 / 1048576 ∧
    (pace_min (.fin 6) < pace_min (.fin (10125117 / 1048576)) ∨
      (pace_min (.fin 6) = pace_min (.fin (10125117 / 1048576)) ∧
        pace_secs (.fin 6) ≤ pace_secs (.fin (10125117 / 1048576)))) := by
  obtain ⟨dk, dm, T, h1, _, h3, _, _, _, h7⟩ :=
    do_distance_pace_order "10k" "1h" 'k' 'h' 10 (.fin 1) (by decide!) (Or.inl rfl)
      (by decide!) (by norm_num) (by norm_num) (by decide!) (Or.inl rfl) (by decide!)
  obtain ⟨e1, e2⟩ := h1 rfl
  have e3 := h3 rfl
  subst e1 e2 e3
  exact h7 6 (10125117 / 1048576) (by decide!) (by norm_num) (by decide!) (by norm_num)

end Pace
